import Mathlib

/-!
# GIO extension-point registry and default-implementation resolver

A shallow embedding of `gio/giomodule.c`.

* Heap objects that the C code mutates through a pointer (`GIOExtensionPoint`) live in a
  list owned by the state; the pointer is the position in that list.  Points are never
  freed while the process runs, so positions are stable.
* Immutable heap objects (`GIOExtension`, object instances) carry their address in an
  `addr` field, so that C pointer comparison is comparison of `addr`.
* `gint` priorities are only ever compared, never computed with, so they are `Int`.
* Code outside the file (the type system, the dynamic loader, the environment) is a
  parameter, collected in `Host`.
-/

namespace GioModule

/-! ## Definitions -/

/-! ### The registry: data and operations -/

/-- A `GType` identifier. -/
abbrev GType := Nat

/-- The invalid type, `G_TYPE_INVALID`, which is 0. -/
def G_TYPE_INVALID : GType := 0

/-- `struct _GIOExtension`: `name` may be `NULL` (`g_strdup (NULL)` is `NULL`). -/
structure GIOExtension where
  addr : Nat
  name : Option String
  type : GType
  priority : Int
deriving DecidableEq, Repr

/-- `struct _GIOExtensionPoint`. `lazy_load_modules` holds pointers to `GIOModule`
objects (positions in `Registry.modules`). -/
structure GIOExtensionPoint where
  required_type : GType
  name : String
  extensions : List GIOExtension
  lazy_load_modules : List Nat
deriving DecidableEq, Repr

/-- `struct _GIOModule`: `library` records whether the library handle is non-`NULL`;
the `load`/`unload` entry points are resolved exactly while it is. -/
structure GIOModule where
  filename : Option String
  library : Bool
  initialized : Bool
deriving DecidableEq, Repr

/-- The registry state: the contents of the static hash table `extension_points`
(every point is stored under its own `name` field as key; a `NULL` table and an empty
table behave alike in every function below and are both `[]`), the `GIOModule` objects,
and the next fresh address handed out by the allocator. -/
structure Registry where
  extension_points : List GIOExtensionPoint
  modules : List GIOModule
  next_addr : Nat
deriving DecidableEq, Repr

/-- The state of a fresh process. -/
def Registry.empty : Registry :=
  { extension_points := [], modules := [], next_addr := 1 }

/-- `g_hash_table_lookup (extension_points, name)`: the pointer (position) of the point
stored under `name`, if any. -/
def hash_lookup : List GIOExtensionPoint → String → Option Nat
  | [], _ => none
  | ep :: rest, name =>
    if ep.name = name then some 0 else (hash_lookup rest name).map (· + 1)

/-- `g_io_extension_point_lookup`. -/
def g_io_extension_point_lookup (r : Registry) (name : String) : Option Nat :=
  hash_lookup r.extension_points name

/-- `g_io_extension_point_register`: returns the pointer and the new state. -/
def g_io_extension_point_register (r : Registry) (name : String) : Nat × Registry :=
  match hash_lookup r.extension_points name with
  | some ep => (ep, r)
  | none =>
    (r.extension_points.length,
     { r with extension_points := r.extension_points ++
        [{ required_type := 0, name := name, extensions := [], lazy_load_modules := [] }] })

/-- Dereference a `GIOExtensionPoint *`. -/
def Registry.point (r : Registry) (ep : Nat) : Option GIOExtensionPoint :=
  r.extension_points[ep]?

/-- Store through a `GIOExtensionPoint *`. -/
def Registry.update_point (r : Registry) (ep : Nat)
    (f : GIOExtensionPoint → GIOExtensionPoint) : Registry :=
  match r.extension_points[ep]? with
  | some p => { r with extension_points := r.extension_points.set ep (f p) }
  | none => r

/-- `g_io_extension_point_set_required_type`. -/
def g_io_extension_point_set_required_type (r : Registry) (ep : Nat) (type : GType) :
    Registry :=
  r.update_point ep (fun p => { p with required_type := type })

/-- `g_io_extension_point_get_required_type`. -/
def g_io_extension_point_get_required_type (r : Registry) (ep : Nat) : GType :=
  match r.point ep with
  | some p => p.required_type
  | none => G_TYPE_INVALID

/-- `extension_prio_compare`. -/
def extension_prio_compare (a b : GIOExtension) : Int :=
  if a.priority > b.priority then -1
  else if b.priority > a.priority then 1
  else 0

/-- Modelled from the spec: `g_list_insert_sorted` (`glib/glist.c`), which
`g_io_extension_point_implement` calls with `extension_prio_compare`.  The spec (§3,
Extension): "Insertion preserves a priority-sorted invariant: higher priority sorts first;
equal priority preserves relative registration order".  So `data` goes in front of the
first element that `func` places strictly after it, behind every element that compares
equal. -/
def g_list_insert_sorted {α : Type} (list : List α) (data : α) (func : α → α → Int) :
    List α :=
  match list with
  | [] => [data]
  | x :: rest =>
    if func data x < 0 then data :: x :: rest
    else x :: g_list_insert_sorted rest data func

/-- One call of the registration API, as made by the application, by GIO itself or by a
module's `load` entry point. -/
inductive Op where
  | register (name : String)
  | set_required_type (extension_point : Nat) (type : GType)
  | implement (extension_point_name : Option String) (type : GType)
      (extension_name : Option String) (priority : Int)
deriving DecidableEq, Repr

/-- What `g_module_open_full` finds in a shared object: whether `load_symbols` can resolve
both entry points, and the registration calls that its `load` entry point makes ("by
contract, the module registers its Extensions during this call", spec §4.2). -/
structure ModuleLibrary where
  symbols : Bool
  load : List Op
deriving DecidableEq, Repr

/-- The collaborators outside `giomodule.c`: the type system (`g_type_is_a`, the
`GInitable` interface type, whether `g_initable_new` of a type succeeds), the dynamic
loader and the process environment.  `ensure_loaded` is what
`_g_io_modules_ensure_loaded` does to the registry when the resolver calls it: it
registers the built-in points and types and scans the module directories of the file
system the first time, and nothing later. -/
structure Host where
  g_type_is_a : GType → GType → Bool
  G_TYPE_INITABLE : GType
  g_initable_init : GType → Bool
  g_module_open : String → Option ModuleLibrary
  g_getenv : String → Option String
  ensure_loaded : Registry → Registry

/-- `g_io_extension_point_implement`: the returned `GIOExtension *` (`none` is `NULL`) and
the new state.  `extension_point_name = none` is a `NULL` argument, refused by
`g_return_val_if_fail`. -/
def g_io_extension_point_implement (h : Host) (r : Registry)
    (extension_point_name : Option String) (type : GType)
    (extension_name : Option String) (priority : Int) : Option GIOExtension × Registry :=
  match extension_point_name with
  | none => (none, r)
  | some epname =>
    match g_io_extension_point_lookup r epname with
    | none => (none, r)
    | some extension_point =>
      match r.point extension_point with
      | none => (none, r)
      | some p =>
        if p.required_type ≠ 0 ∧ h.g_type_is_a type p.required_type = false then
          (none, r)
        else
          match p.extensions.find? (fun e => e.type = type) with
          | some extension => (some extension, r)
          | none =>
            let extension : GIOExtension :=
              { addr := r.next_addr, name := extension_name, type := type,
                priority := priority }
            (some extension,
             { (r.update_point extension_point (fun q =>
                  { q with extensions :=
                      g_list_insert_sorted q.extensions extension extension_prio_compare }))
               with next_addr := r.next_addr + 1 })

/-- The effect of one API call on the registry. -/
def Op.apply (h : Host) (r : Registry) : Op → Registry
  | .register name => (g_io_extension_point_register r name).2
  | .set_required_type ep type => g_io_extension_point_set_required_type r ep type
  | .implement epname type ename priority =>
    (g_io_extension_point_implement h r epname type ename priority).2

/-- A sequence of API calls, first call first. -/
def run (h : Host) (r : Registry) (ops : List Op) : Registry :=
  ops.foldl (Op.apply h) r

/-- `g_io_module_load_module`: the `GTypeModule` load hook. -/
def g_io_module_load_module (h : Host) (r : Registry) (module : Nat) : Bool × Registry :=
  match r.modules[module]? with
  | none => (false, r)
  | some m =>
    match m.filename with
    | none => (false, r)
    | some filename =>
      match h.g_module_open filename with
      | none => (false, { r with modules := r.modules.set module { m with library := false } })
      | some lib =>
        if lib.symbols = false then
          (false, { r with modules := r.modules.set module { m with library := true } })
        else
          let r1 := run h r lib.load
          (true, { r1 with modules :=
                     r1.modules.set module { m with library := true, initialized := true } })

/-- `g_io_module_unload_module`: the `GTypeModule` unload hook. -/
def g_io_module_unload_module (r : Registry) (module : Nat) : Registry :=
  match r.modules[module]? with
  | none => r
  | some m => { r with modules := r.modules.set module { m with library := false } }

/-- Modelled from the spec: `g_type_module_use` (`gobject/gtypemodule.c`).  Spec §4.2:
"Activation/deactivation is driven externally by a reference-counting use/unuse
mechanism"; every use in this file is of a module nobody else uses, so it activates the
module and reports whether that worked. -/
def g_type_module_use (h : Host) (r : Registry) (module : Nat) : Bool × Registry :=
  g_io_module_load_module h r module

/-- Modelled from the spec: `g_type_module_unuse` (`gobject/gtypemodule.c`), the matching
release, which drops the only use and so deactivates the module. -/
def g_type_module_unuse (r : Registry) (module : Nat) : Registry :=
  g_io_module_unload_module r module

/-- The body of the loop of `lazy_load_modules` for one list element. -/
def lazy_load_module (h : Host) (r : Registry) (module : Nat) : Registry :=
  match r.modules[module]? with
  | none => r
  | some m =>
    if m.initialized = false then
      match g_type_module_use h r module with
      | (true, r1) => g_type_module_unuse r1 module
      | (false, r1) => r1
    else r

/-- `lazy_load_modules`. -/
def lazy_load_modules (h : Host) (r : Registry) (extension_point : Nat) : Registry :=
  match r.point extension_point with
  | none => r
  | some p => p.lazy_load_modules.foldl (lazy_load_module h) r

/-- `g_io_extension_point_get_extensions`: the list and the state after the lazy loads. -/
def g_io_extension_point_get_extensions (h : Host) (r : Registry) (extension_point : Nat) :
    List GIOExtension × Registry :=
  let r1 := lazy_load_modules h r extension_point
  (match r1.point extension_point with
   | some p => p.extensions
   | none => [],
   r1)

/-- `g_io_extension_point_get_extension_by_name`. -/
def g_io_extension_point_get_extension_by_name (h : Host) (r : Registry)
    (extension_point : Nat) (name : String) : Option GIOExtension × Registry :=
  let r1 := lazy_load_modules h r extension_point
  (match r1.point extension_point with
   | some p => p.extensions.find? (fun e => e.name = some name)
   | none => none,
   r1)

/-! ### The default-implementation resolver: data and operations -/

/-- An object instance: its address and its type. -/
structure GObject where
  addr : Nat
  type : GType
deriving DecidableEq, Repr

/-- A `GIOModuleVerifyFunc`, or `none` for a `NULL` function pointer. -/
abbrev GIOModuleVerifyFunc := Option (GObject → Bool)

/-- The state that `_g_io_module_get_default` works on: the registry; its static table
`default_modules` (`none` while the pointer is `NULL`), in which every entry is a key with
the `GWeakRef` cell stored under it, a cell being identified by its position; the
addresses of the objects that are still alive; and, as a record of what happened, every
object that was instantiated and every object that was passed to a verify function. -/
structure Resolver where
  registry : Registry
  default_modules : Option (List (String × Option GObject))
  next_object : Nat
  live : List Nat
  constructed : List GObject
  verified : List GObject
deriving DecidableEq, Repr

/-- A process that has not resolved anything yet. -/
def Resolver.start (r : Registry) : Resolver :=
  { registry := r, default_modules := none, next_object := 1, live := [],
    constructed := [], verified := [] }

/-- The last reference to an object is dropped and the object is finalised. -/
def Resolver.collect (st : Resolver) (o : GObject) : Resolver :=
  { st with live := st.live.filter (fun a => a ≠ o.addr) }

/-- `g_weak_ref_get`: the referent, unless the cell is empty or the referent has been
finalised. -/
def g_weak_ref_get (st : Resolver) (cell : Option GObject) : Option GObject :=
  match cell with
  | some o => if o.addr ∈ st.live then some o else none
  | none => none

/-- `g_hash_table_lookup_extended (default_modules, extension_point, NULL, &value)`: the
cell stored under the key, as its position. -/
def g_hash_table_lookup_extended : List (String × Option GObject) → String → Option Nat
  | [], _ => none
  | (k, _) :: rest, key =>
    if k = key then some 0 else (g_hash_table_lookup_extended rest key).map (· + 1)

/-- The cache probe at the head of `_g_io_module_get_default` (lines 965-983): the cell
found for the point (`impl_weak_ref`) and the live object it refers to (`impl`). -/
def cache_probe (st : Resolver) (extension_point : String) : Option Nat × Option GObject :=
  match st.default_modules with
  | some table =>
    match g_hash_table_lookup_extended table extension_point with
    | some i =>
      (some i, g_weak_ref_get st (match table[i]? with
                                  | some (_, cell) => cell
                                  | none => none))
    | none => (none, none)
  | none => (none, none)

/-- `try_implementation`. -/
def try_implementation (h : Host) (st : Resolver) (extension : GIOExtension)
    (verify_func : GIOModuleVerifyFunc) : Option GObject × Resolver :=
  let impl : GObject := { addr := st.next_object, type := extension.type }
  let st1 : Resolver :=
    { st with next_object := st.next_object + 1, constructed := st.constructed ++ [impl] }
  if h.g_type_is_a extension.type h.G_TYPE_INITABLE then
    if h.g_initable_init extension.type then
      (some impl, { st1 with live := impl.addr :: st1.live })
    else (none, st1)
  else
    match verify_func with
    | none => (some impl, { st1 with live := impl.addr :: st1.live })
    | some f =>
      if f impl then
        (some impl, { st1 with live := impl.addr :: st1.live,
                               verified := st1.verified ++ [impl] })
      else (none, { st1 with verified := st1.verified ++ [impl] })

/-- `print_help`, as far as the state goes: it asks for the extension list once when the
list is empty and three times otherwise.  The printed text is not modelled. -/
def print_help (h : Host) (st : Resolver) (ep : Nat) : Resolver :=
  let q1 := g_io_extension_point_get_extensions h st.registry ep
  if q1.1 = [] then { st with registry := q1.2 }
  else
    let q2 := g_io_extension_point_get_extensions h q1.2 ep
    let q3 := g_io_extension_point_get_extensions h q2.2 ep
    { st with registry := q3.2 }

/-- The loop of `_g_io_module_get_default` (lines 1028-1037) over the list that
`g_io_extension_point_get_extensions` returned. -/
def try_extensions (h : Host) (verify_func : GIOModuleVerifyFunc)
    (preferred : Option GIOExtension) :
    Resolver → List GIOExtension → Option GObject × Resolver
  | st, [] => (none, st)
  | st, extension :: rest =>
    if preferred.map (fun e => e.addr) = some extension.addr then
      try_extensions h verify_func preferred st rest
    else
      match (try_implementation h st extension verify_func).1 with
      | some impl => (some impl, (try_implementation h st extension verify_func).2)
      | none =>
        try_extensions h verify_func preferred
          (try_implementation h st extension verify_func).2 rest

/-- Lines 1012-1039 of `_g_io_module_get_default`: the preferred candidate first, then the
loop; `use_this` is what is left of the environment value after the "help" check. -/
def resolve_with (h : Host) (st : Resolver) (ep : Nat) (use_this : Option String)
    (verify_func : GIOModuleVerifyFunc) : Option GObject × Resolver :=
  match use_this with
  | some name =>
    let q := g_io_extension_point_get_extension_by_name h st.registry ep name
    match q.1 with
    | some preferred =>
      let t := try_implementation h { st with registry := q.2 } preferred verify_func
      match t.1 with
      | some impl => (some impl, t.2)
      | none =>
        let l := g_io_extension_point_get_extensions h t.2.registry ep
        try_extensions h verify_func (some preferred) { t.2 with registry := l.2 } l.1
    | none =>
      let l := g_io_extension_point_get_extensions h q.2 ep
      try_extensions h verify_func none { st with registry := l.2 } l.1
  | none =>
    let l := g_io_extension_point_get_extensions h st.registry ep
    try_extensions h verify_func none { st with registry := l.2 } l.1

/-- Lines 1005-1039 of `_g_io_module_get_default`: the choice of the implementation for
the registered point `ep`.  The value "help" of the variable prints the candidates and
then counts as no value. -/
def resolve_default (h : Host) (st : Resolver) (ep : Nat) (envvar : Option String)
    (verify_func : GIOModuleVerifyFunc) : Option GObject × Resolver :=
  resolve_with h (if envvar.bind h.g_getenv = some "help" then print_help h st ep else st)
    ep (if envvar.bind h.g_getenv = some "help" then none else envvar.bind h.g_getenv)
    verify_func

/-- The block at `done:` (lines 1042-1052): a new cell under a new key when the probe had
found no cell, `g_weak_ref_set` on the cell that it had found otherwise. -/
def store_default (st : Resolver) (impl_weak_ref : Option Nat) (extension_point : String)
    (impl : Option GObject) : Resolver :=
  match impl_weak_ref with
  | none =>
    { st with
      default_modules := some ((st.default_modules.getD []) ++ [(extension_point, impl)]) }
  | some i =>
    { st with
      default_modules := st.default_modules.map (fun table =>
        match table[i]? with
        | some (k, _) => table.set i (k, impl)
        | none => table) }

/-- Lines 984-990 of `_g_io_module_get_default`, reached when the cache gave no object:
the table exists from now on, and `_g_io_modules_ensure_loaded` has run. -/
def after_ensure_loaded (h : Host) (st : Resolver) : Resolver :=
  { st with default_modules := some (st.default_modules.getD []),
            registry := h.ensure_loaded st.registry }

/-- `_g_io_module_get_default`. -/
def _g_io_module_get_default (h : Host) (st : Resolver) (extension_point : String)
    (envvar : Option String) (verify_func : GIOModuleVerifyFunc) :
    Option GObject × Resolver :=
  match (cache_probe st extension_point).2 with
  | some impl => (some impl, st)
  | none =>
    match g_io_extension_point_lookup (after_ensure_loaded h st).registry
        extension_point with
    | none => (none, after_ensure_loaded h st)
    | some ep =>
      let res := resolve_default h (after_ensure_loaded h st) ep envvar verify_func
      (res.1, store_default res.2 (cache_probe st extension_point).1 extension_point res.1)

/-! ### Properties, and the states of the examples -/

/-- "Ordered by non-increasing priority, highest first". -/
def prio_sorted (l : List GIOExtension) : Prop :=
  l.Pairwise (fun a b => a.priority ≥ b.priority)

instance (l : List GIOExtension) : Decidable (prio_sorted l) := by
  unfold prio_sorted; infer_instance

/-- A host whose types satisfy only themselves, with nothing to load and an empty
environment. -/
def Host.plain : Host :=
  { g_type_is_a := fun a b => a = b
    G_TYPE_INITABLE := 2
    g_initable_init := fun _ => true
    g_module_open := fun _ => none
    g_getenv := fun _ => none
    ensure_loaded := fun r => r }

/-- The four ways in which one API call can change the table of points.  `G p t` is what
is known whenever the required type of `p` is set to `t`. -/
inductive PointsStep (h : Host) (G : GIOExtensionPoint → GType → Prop) :
    List GIOExtensionPoint → List GIOExtensionPoint → Prop
  | same (l : List GIOExtensionPoint) : PointsStep h G l l
  | fresh (l : List GIOExtensionPoint) (name : String) :
      hash_lookup l name = none →
      PointsStep h G l (l ++ [{ required_type := 0, name := name, extensions := [],
                                lazy_load_modules := [] }])
  | retype (l : List GIOExtensionPoint) (i : Nat) (p : GIOExtensionPoint) (t : GType) :
      l[i]? = some p → G p t → PointsStep h G l (l.set i { p with required_type := t })
  | insert (l : List GIOExtensionPoint) (i : Nat) (p : GIOExtensionPoint)
      (e : GIOExtension) :
      l[i]? = some p →
      (p.required_type = 0 ∨ h.g_type_is_a e.type p.required_type = true) →
      p.extensions.find? (fun x => x.type = e.type) = none →
      PointsStep h G l
        (l.set i { p with
          extensions := g_list_insert_sorted p.extensions e extension_prio_compare })

/-- No knowledge about the calls that set a required type. -/
def Unguarded : GIOExtensionPoint → GType → Prop := fun _ _ => True

/-- What a caller passed to `g_io_extension_point_implement` for this extension. -/
def GIOExtension.registration (e : GIOExtension) : GType × Option String × Int :=
  (e.type, e.name, e.priority)

/-- The call that registers `c` at the point named `pn`. -/
def implement_call (pn : String) (c : GType × Option String × Int) : Op :=
  Op.implement (some pn) c.1 c.2.1 c.2.2

/-- "No two extensions of the list have the same type". -/
def types_unique (l : List GIOExtension) : Prop :=
  (l.map (fun e => e.type)).Nodup

/-- "If the point has a required type, every extension of its list satisfies it". -/
def required_type_respected (h : Host) (p : GIOExtensionPoint) : Prop :=
  p.required_type ≠ 0 → ∀ e ∈ p.extensions, h.g_type_is_a e.type p.required_type = true

instance (h : Host) (p : GIOExtensionPoint) : Decidable (required_type_respected h p) := by
  unfold required_type_respected; infer_instance

/-- The required type `t` that a call is about to set at `p` is 0 (none) or is satisfied
by every extension that `p` already has. -/
def retype_guard (h : Host) (p : GIOExtensionPoint) (t : GType) : Prop :=
  t = 0 ∨ ∀ e ∈ p.extensions, h.g_type_is_a e.type t = true

/-- A call is admissible when it does not set a required type that an extension already
in the list fails. -/
def Op.admissible (h : Host) (r : Registry) : Op → Bool
  | .set_required_type ep t =>
    match r.point ep with
    | some p => t == 0 || p.extensions.all (fun e => h.g_type_is_a e.type t)
    | none => true
  | _ => true

/-- Every call of the run is admissible in the state in which it is made. -/
def run_admissible (h : Host) : Registry → List Op → Bool
  | _, [] => true
  | r, op :: rest => op.admissible h r && run_admissible h (Op.apply h r op) rest

/-- The calls of the example of C3. -/
def demo_calls : List (GType × Option String × Int) :=
  [(11, some "a", 5), (12, some "b", 10), (13, some "c", 10), (14, some "d", 1)]

/-- The state in which a required type was set after an extension had been registered:
point "P" holds an extension of type 5 and then gets the required type 7. -/
def retyped_registry : Registry :=
  run Host.plain Registry.empty
    [Op.register "P", Op.implement (some "P") 5 (some "a") 1, Op.set_required_type 0 7]

/-- The state in which point "P" requires type 7 and has no extension. -/
def strict_registry : Registry :=
  run Host.plain Registry.empty [Op.register "P", Op.set_required_type 0 7]

/-- Whether instantiating the extension for the resolver succeeds: `GInitable`
initialisation for an initable type, otherwise the verdict of `verify_func` (if there is
one) on an instance of the type. -/
def usable (h : Host) (verify_func : GIOModuleVerifyFunc) (e : GIOExtension) : Bool :=
  if h.g_type_is_a e.type h.G_TYPE_INITABLE then h.g_initable_init e.type
  else
    match verify_func with
    | none => true
    | some f => f { addr := 0, type := e.type }

/-- The verdict of the verify function on a fresh instance depends only on the type of
that instance, not on where the allocator put it. -/
def verdict_by_type (verify_func : GIOModuleVerifyFunc) : Prop :=
  ∀ f, verify_func = some f → ∀ a b : GObject, a.type = b.type → f a = f b

/-- The candidates that get instantiated when `l` is tried in order: all up to and
including the first usable one. -/
def attempts (h : Host) (verify_func : GIOModuleVerifyFunc) :
    List GIOExtension → List GIOExtension
  | [] => []
  | e :: rest => if usable h verify_func e then [e] else e :: attempts h verify_func rest

/-- Those of the tried candidates whose instance is passed to the verify function. -/
def verify_calls (h : Host) (verify_func : GIOModuleVerifyFunc) (l : List GIOExtension) :
    List GIOExtension :=
  match verify_func with
  | none => []
  | some _ => l.filter (fun e => !h.g_type_is_a e.type h.G_TYPE_INITABLE)

/-- The candidates left for the loop: all but the one that is pointer-equal to
`preferred`. -/
def remaining (preferred : Option GIOExtension) (l : List GIOExtension) :
    List GIOExtension :=
  l.filter (fun e => preferred.map (fun c => c.addr) ≠ some e.addr)

/-- What trying the candidates `tried` does to the state: the cache table and the
registry stay, live objects stay alive, and the two records grow by the instances. -/
def Trial (h : Host) (verify_func : GIOModuleVerifyFunc) (st st2 : Resolver)
    (tried : List GIOExtension) : Prop :=
  st2.default_modules = st.default_modules ∧ st2.registry = st.registry ∧
  (∀ a ∈ st.live, a ∈ st2.live) ∧
  st2.constructed.map (fun o => o.type) =
    st.constructed.map (fun o => o.type) ++ tried.map (fun e => e.type) ∧
  st2.verified.map (fun o => o.type) =
    st.verified.map (fun o => o.type) ++
      (verify_calls h verify_func tried).map (fun e => e.type)

/-- "The cell stored under `name` is cell `i` and holds the object `o`". -/
def cache_holds (st : Resolver) (name : String) (i : Nat) (o : GObject) : Prop :=
  ∃ t, st.default_modules = some t ∧ g_hash_table_lookup_extended t name = some i ∧
    t[i]? = some (name, some o)

/-- The registry of the examples: point "P" with the extensions "b" and "c" (priority 10),
"a" (priority 5) and "d" (priority 1), of the types 12, 13, 11 and 14. -/
def demo_registry : Registry :=
  run Host.plain (g_io_extension_point_register Registry.empty "P").2
    (demo_calls.map (implement_call "P"))

/-- A verify function that turns down instances of type 12. -/
def demo_verify : GIOModuleVerifyFunc :=
  some (fun o => decide (o.type ≠ 12))

/-- An environment in which every variable has the value `v`. -/
def Host.with_env (v : String) : Host :=
  { Host.plain with g_getenv := fun _ => some v }

/-- The state after a first call for "P" that passed no variable name: the instance of "c"
that it returned is in the cache and alive. -/
def resolved_once : Resolver :=
  (_g_io_module_get_default (Host.with_env "d") (Resolver.start demo_registry) "P" none
    demo_verify).2

end GioModule

namespace GUnixMounts

/-! ### The mount table reader of `gio/gunixmounts.c`: data and operations

C strings are `String`; a `char *` that the code allows to be `NULL` is `Option String`.
The `guint64` timestamps are only ever stored and compared, so they are `Nat`. -/

/-- The two directory macros of the build configuration that the table of mount paths
uses; `config.h` is not part of the sources. -/
structure BuildConfig where
  GLIB_LOCALSTATEDIR : String
  GLIB_RUNSTATEDIR : String
deriving DecidableEq, Repr

/-- A usual configuration: `/var` and `/run`. -/
def BuildConfig.usual : BuildConfig :=
  { GLIB_LOCALSTATEDIR := "/var", GLIB_RUNSTATEDIR := "/run" }

/-- `strcmp` on the characters: the first position at which the strings differ decides,
and a string that ends first is the smaller one.  C fixes only the sign of the result;
it is -1, 0 or 1 here. -/
def strcmp_chars : List Char → List Char → Int
  | [], [] => 0
  | [], _ :: _ => -1
  | _ :: _, [] => 1
  | a :: as, b :: bs =>
    if a = b then strcmp_chars as bs else if a.toNat < b.toNat then -1 else 1

/-- `strcmp`. -/
def strcmp (a b : String) : Int :=
  strcmp_chars a.data b.data

/-- Modelled from the spec: `g_strcmp0` (`glib/gtestutils.c`, not under `src/`), by its
documented behaviour: `strcmp` that puts `NULL` before every string. -/
def g_strcmp0 (str1 str2 : Option String) : Int :=
  match str1, str2 with
  | none, none => 0
  | none, some _ => -1
  | some _, none => 1
  | some a, some b => strcmp a b

/-- Modelled from the spec: `g_str_has_prefix (str, pre)` (`glib/gstrfuncs.c`, not under
`src/`), by its documented behaviour; the spec speaks of paths "under" a directory. -/
def g_str_has_prefix (str pre : String) : Bool :=
  pre.data.isPrefixOf str.data

/-- Modelled from the spec: `g_str_has_suffix (str, suf)` (`glib/gstrfuncs.c`, not under
`src/`), by its documented behaviour. -/
def g_str_has_suffix (str suf : String) : Bool :=
  suf.data.isSuffixOf str.data

/-- `is_in`: whether `strcmp (set[i], value) == 0` for some element of the table. -/
def is_in (value : String) (set : List String) : Bool :=
  set.any (fun s => strcmp s value = 0)

/-- The table `ignore_mountpoints` of `g_unix_is_mount_path_system_internal`. -/
def ignore_mountpoints (c : BuildConfig) : List String :=
  ["/", "/bin", "/boot", "/compat/linux/proc", "/compat/linux/sys", "/dev", "/etc",
   "/home", "/lib", "/lib64", "/libexec", "/live/cow", "/live/image", "/media", "/mnt",
   "/opt", "/rescue", "/root", "/sbin", "/srv", "/tmp", "/usr", "/usr/X11R6",
   "/usr/local", "/usr/obj", "/usr/ports", "/usr/src", "/usr/xobj", "/var", "/var/crash",
   "/var/local", c.GLIB_LOCALSTATEDIR, "/var/log", "/var/log/audit", "/var/mail",
   "/var/run", c.GLIB_RUNSTATEDIR, "/var/tmp", "/proc", "/sbin", "/net", "/sys"]

/-- `g_unix_is_mount_path_system_internal`. -/
def g_unix_is_mount_path_system_internal (c : BuildConfig) (mount_path : String) : Bool :=
  if is_in mount_path (ignore_mountpoints c) then true
  else if g_str_has_prefix mount_path "/dev/" || g_str_has_prefix mount_path "/proc/" ||
      g_str_has_prefix mount_path "/sys/" then true
  else if g_str_has_suffix mount_path "/.gvfs" then true
  else false

/-- The table `ignore_fs` of `g_unix_is_system_fs_type`. -/
def ignore_fs : List String :=
  ["adfs", "afs", "auto", "autofs", "autofs4", "cgroup", "configfs", "cxfs", "debugfs",
   "devfs", "devpts", "devtmpfs", "ecryptfs", "fdescfs", "fusectl", "gfs", "gfs2", "gpfs",
   "hugetlbfs", "kernfs", "linprocfs", "linsysfs", "lustre", "lustre_lite", "mfs",
   "mqueue", "ncpfs", "nfsd", "nullfs", "ocfs2", "overlay", "proc", "procfs", "pstore",
   "ptyfs", "rootfs", "rpc_pipefs", "securityfs", "selinuxfs", "sysfs", "tmpfs", "usbfs"]

/-- `g_unix_is_system_fs_type`; a `NULL` or empty argument fails the
`g_return_val_if_fail` check, which returns `FALSE`. -/
def g_unix_is_system_fs_type (fs_type : Option String) : Bool :=
  match fs_type with
  | none => false
  | some s => if s = "" then false else is_in s ignore_fs

/-- The table `ignore_devices` of `g_unix_is_system_device_path`. -/
def ignore_devices : List String :=
  ["none", "sunrpc", "devpts", "nfsd", "/dev/loop", "/dev/vn"]

/-- `g_unix_is_system_device_path`; a `NULL` or empty argument fails the
`g_return_val_if_fail` check, which returns `FALSE`. -/
def g_unix_is_system_device_path (device_path : Option String) : Bool :=
  match device_path with
  | none => false
  | some s => if s = "" then false else is_in s ignore_devices

/-- `guess_system_internal`. -/
def guess_system_internal (c : BuildConfig) (mountpoint : String) (fs device : Option String)
    (root : Option String) : Bool :=
  if g_unix_is_system_fs_type fs then true
  else if g_unix_is_system_device_path device then true
  else if g_unix_is_mount_path_system_internal c mountpoint then true
  else if root ≠ none ∧ g_strcmp0 root (some "/") ≠ 0 then true
  else false

/-- `struct _GUnixMountEntry`. -/
structure GUnixMountEntry where
  mount_path : String
  device_path : Option String
  root_path : Option String
  filesystem_type : Option String
  options : Option String
  is_read_only : Bool
  is_system_internal : Bool
deriving DecidableEq, Repr

/-- `create_unix_mount_entry`. -/
def create_unix_mount_entry (c : BuildConfig) (device_path : Option String)
    (mount_path : String) (root_path filesystem_type options : Option String)
    (is_read_only : Bool) : GUnixMountEntry :=
  { mount_path := mount_path
    device_path := device_path
    root_path := root_path
    filesystem_type := filesystem_type
    options := options
    is_read_only := is_read_only
    is_system_internal := guess_system_internal c mount_path filesystem_type device_path
      root_path }

/-- `g_unix_mount_entry_copy`. -/
def g_unix_mount_entry_copy (mount_entry : GUnixMountEntry) : GUnixMountEntry :=
  { mount_path := mount_entry.mount_path
    device_path := mount_entry.device_path
    root_path := mount_entry.root_path
    filesystem_type := mount_entry.filesystem_type
    options := mount_entry.options
    is_read_only := mount_entry.is_read_only
    is_system_internal := mount_entry.is_system_internal }

/-- A `gboolean` as the `int` it is: `TRUE` is 1, `FALSE` is 0. -/
def gboolean (b : Bool) : Int :=
  if b then 1 else 0

/-- `g_unix_mount_entry_compare`. -/
def g_unix_mount_entry_compare (mount1 mount2 : GUnixMountEntry) : Int :=
  if g_strcmp0 (some mount1.mount_path) (some mount2.mount_path) ≠ 0 then
    g_strcmp0 (some mount1.mount_path) (some mount2.mount_path)
  else if g_strcmp0 mount1.device_path mount2.device_path ≠ 0 then
    g_strcmp0 mount1.device_path mount2.device_path
  else if g_strcmp0 mount1.root_path mount2.root_path ≠ 0 then
    g_strcmp0 mount1.root_path mount2.root_path
  else if g_strcmp0 mount1.filesystem_type mount2.filesystem_type ≠ 0 then
    g_strcmp0 mount1.filesystem_type mount2.filesystem_type
  else if g_strcmp0 mount1.options mount2.options ≠ 0 then
    g_strcmp0 mount1.options mount2.options
  else if gboolean mount1.is_read_only - gboolean mount2.is_read_only ≠ 0 then
    gboolean mount1.is_read_only - gboolean mount2.is_read_only
  else 0

/-- `g_unix_mount_entry_is_system_internal`. -/
def g_unix_mount_entry_is_system_internal (mount_entry : GUnixMountEntry) : Bool :=
  mount_entry.is_system_internal

/-- What the timestamp of the mounts depends on: the file that
`get_mtab_monitor_file` names, the modification time that `stat` reports for it (`none`
when `stat` fails), whether `proc_mounts_watch_is_running`, the variable
`mount_poller_time`, and the reading of `g_get_monotonic_time`. -/
structure MonitorState where
  monitor_file : Option String
  st_mtime : Option Nat
  watch_running : Bool
  mount_poller_time : Nat
  monotonic_time : Nat
deriving DecidableEq, Repr

/-- `get_mounts_timestamp`. -/
def get_mounts_timestamp (s : MonitorState) : Nat :=
  match s.monitor_file with
  | some f =>
    if ! g_str_has_prefix f "/proc/" then
      match s.st_mtime with
      | some t => t
      | none => 0
    else if s.watch_running then s.mount_poller_time
    else s.monotonic_time
  | none =>
    if s.watch_running then s.mount_poller_time
    else s.monotonic_time

/-- An out parameter `*p = v`: nothing happens when the pointer is `NULL` (`none`),
otherwise the caller's variable holds `v` afterwards. -/
def store_out (p : Option Nat) (v : Nat) : Option Nat :=
  p.map (fun _ => v)

/-- `g_unix_mount_entries_get`: the list that `_g_get_unix_mounts` reads, here `mounts`,
and the caller's `time_read` variable afterwards. -/
def g_unix_mount_entries_get (s : MonitorState) (mounts : List GUnixMountEntry)
    (time_read : Option Nat) : List GUnixMountEntry × Option Nat :=
  (mounts, store_out time_read (get_mounts_timestamp s))

/-- `g_unix_mount_entries_changed_since`. -/
def g_unix_mount_entries_changed_since (s : MonitorState) (time : Nat) : Bool :=
  get_mounts_timestamp s ≠ time

/-- The loop of `g_unix_mount_entry_at` over the list, with `found` as it stands. -/
def entry_at_loop (mount_path : String) :
    List GUnixMountEntry → Option GUnixMountEntry → Option GUnixMountEntry
  | [], found => found
  | mount_entry :: rest, found =>
    if strcmp mount_path mount_entry.mount_path = 0 then
      entry_at_loop mount_path rest (some mount_entry)
    else entry_at_loop mount_path rest found

/-- `g_unix_mount_entry_at`: the entry found and the caller's `time_read` variable. -/
def g_unix_mount_entry_at (s : MonitorState) (mounts : List GUnixMountEntry)
    (mount_path : String) (time_read : Option Nat) :
    Option GUnixMountEntry × Option Nat :=
  (entry_at_loop mount_path (g_unix_mount_entries_get s mounts time_read).1 none,
   (g_unix_mount_entries_get s mounts time_read).2)

/-- `struct mntent`, as `getmntent` fills it in for one line of the table. -/
structure mntent where
  mnt_fsname : String
  mnt_dir : String
  mnt_type : Option String
  mnt_opts : Option String
deriving DecidableEq, Repr

/-- One `struct libmnt_fs` of a parsed libmount table, through its getters
(`mnt_fs_get_source`, `_target`, `_root`, `_fstype`, `_options`) and
`mnt_fs_strdup_options`. -/
structure libmnt_fs where
  source : Option String
  target : String
  root : Option String
  fstype : Option String
  options : Option String
  strdup_options : Option String
deriving DecidableEq, Repr

/-- The system under the mount table reader: which table files `setmntent` can open and
what `getmntent` reads from them, which tables `mnt_table_parse_mtab` can parse, whether
`hasmntopt` finds `MNTOPT_RO` in a record, whether `mnt_optstr_get_flags` finds
`MS_RDONLY` in an option string, and what `_resolve_dev_root` returns. -/
structure MountsHost where
  setmntent : Option String → Option (List mntent)
  mnt_table_parse_mtab : Option String → Option (List libmnt_fs)
  hasmntopt_ro : mntent → Bool
  optstr_rdonly : String → Bool
  resolve_dev_root : String

/-- The two `HAVE_MNTENT_H` variants of `_g_unix_mounts_get_from_file`: with
`HAVE_LIBMOUNT` and without. -/
inductive Backend where
  | libmount
  | mntent
deriving DecidableEq, Repr

/-- The `while` loop of the mntent variant of `_g_unix_mounts_get_from_file`, with the
keys of `mounts_hash` and the `return_array` as they stand. -/
def mntent_loop (c : BuildConfig) (h : MountsHost) :
    List mntent → List String → List GUnixMountEntry → List GUnixMountEntry
  | [], _, return_array => return_array
  | m :: rest, mounts_hash, return_array =>
    if m.mnt_fsname.data.head? = some '/' ∧ m.mnt_fsname ∈ mounts_hash then
      mntent_loop c h rest mounts_hash return_array
    else
      let device_path :=
        if g_strcmp0 (some m.mnt_fsname) (some "/dev/root") = 0 then h.resolve_dev_root
        else m.mnt_fsname
      let mount_entry := create_unix_mount_entry c (some device_path) m.mnt_dir none
        m.mnt_type m.mnt_opts (h.hasmntopt_ro m)
      mntent_loop c h rest (device_path :: mounts_hash) (return_array ++ [mount_entry])

/-- The body of the `while` loop of the libmount variant for one record. -/
def libmount_entry (c : BuildConfig) (h : MountsHost) (fs : libmnt_fs) : GUnixMountEntry :=
  let device_path :=
    if g_strcmp0 fs.source (some "/dev/root") = 0 then some h.resolve_dev_root
    else fs.source
  let is_read_only :=
    match fs.strdup_options with
    | some mount_options => h.optstr_rdonly mount_options
    | none => false
  create_unix_mount_entry c device_path fs.target fs.root fs.fstype fs.options is_read_only

/-- Modelled from the spec: `g_ptr_array_free (array, FALSE)` of a null-terminated
pointer array (`glib/garray.c`), which hands out the elements; for an array without
elements the spec says "empty result, not an error" (§4.6), so the result is an array
(`some`), empty or not, and never `NULL`. -/
def g_ptr_array_free {α : Type} (return_array : List α) : Option (List α) :=
  some return_array

/-- `_g_unix_mounts_get_from_file`, in both variants: the array returned (`none` is
`NULL`) and the caller's `time_read_out` and `n_entries_out` variables afterwards. -/
def _g_unix_mounts_get_from_file (b : Backend) (c : BuildConfig) (h : MountsHost)
    (s : MonitorState) (table_path : Option String) (time_read_out n_entries_out : Option Nat) :
    Option (List GUnixMountEntry) × Option Nat × Option Nat :=
  match b with
  | .libmount =>
    let return_array :=
      match h.mnt_table_parse_mtab table_path with
      | none => []
      | some table => table.map (libmount_entry c h)
    (g_ptr_array_free return_array,
     store_out time_read_out (get_mounts_timestamp s),
     store_out n_entries_out return_array.length)
  | .mntent =>
    match h.setmntent table_path with
    | none => (none, store_out time_read_out (get_mounts_timestamp s), n_entries_out)
    | some file =>
      (g_ptr_array_free (mntent_loop c h file [] []),
       store_out time_read_out (get_mounts_timestamp s),
       store_out n_entries_out (mntent_loop c h file [] []).length)

/-- `g_unix_mount_entries_get_from_file`. -/
def g_unix_mount_entries_get_from_file (b : Backend) (c : BuildConfig) (h : MountsHost)
    (s : MonitorState) (table_path : Option String) (time_read_out n_entries_out : Option Nat) :
    Option (List GUnixMountEntry) × Option Nat × Option Nat :=
  _g_unix_mounts_get_from_file b c h s table_path time_read_out n_entries_out

/-- A system on which no table file can be opened or parsed. -/
def MountsHost.unreadable : MountsHost :=
  { setmntent := fun _ => none
    mnt_table_parse_mtab := fun _ => none
    hasmntopt_ro := fun _ => false
    optstr_rdonly := fun _ => false
    resolve_dev_root := "/dev/root" }

/-- A monitoring state in which the mounts are in `/etc/mtab`, last modified at
1700000000. -/
def MonitorState.etc_mtab : MonitorState :=
  { monitor_file := some "/etc/mtab", st_mtime := some 1700000000, watch_running := false,
    mount_poller_time := 0, monotonic_time := 5000 }

/-- A monitoring state in which the mounts are in `/proc/self/mountinfo` and no watch is
running, at the clock reading `now`. -/
def MonitorState.proc_unwatched (now : Nat) : MonitorState :=
  { monitor_file := some "/proc/self/mountinfo", st_mtime := none, watch_running := false,
    mount_poller_time := 0, monotonic_time := now }

/-- The classification as the documentation words it: one of the three tables or path
patterns applies, or the root path is known and is not `/`. -/
def system_internal_spec (c : BuildConfig) (mountpoint : String) (fs device : Option String)
    (root : Option String) : Prop :=
  (∃ t, fs = some t ∧ t ∈ ignore_fs) ∨
  (∃ d, device = some d ∧ d ∈ ignore_devices) ∨
  mountpoint ∈ ignore_mountpoints c ∨
  (∃ rest, mountpoint.data = "/dev/".data ++ rest) ∨
  (∃ rest, mountpoint.data = "/proc/".data ++ rest) ∨
  (∃ rest, mountpoint.data = "/sys/".data ++ rest) ∨
  (∃ front, mountpoint.data = front ++ "/.gvfs".data) ∨
  (∃ r, root = some r ∧ r ≠ "/")

/-! ### The mount points of the static table -/

/-- `struct _GUnixMountPoint`. -/
structure GUnixMountPoint where
  mount_path : String
  device_path : Option String
  filesystem_type : Option String
  options : Option String
  is_read_only : Bool
  is_user_mountable : Bool
  is_loopback : Bool
deriving DecidableEq, Repr

/-- `create_unix_mount_point`. -/
def create_unix_mount_point (device_path : Option String) (mount_path : String)
    (filesystem_type options : Option String)
    (is_read_only is_user_mountable is_loopback : Bool) : GUnixMountPoint :=
  { mount_path := mount_path, device_path := device_path,
    filesystem_type := filesystem_type, options := options, is_read_only := is_read_only,
    is_user_mountable := is_user_mountable, is_loopback := is_loopback }

/-- The bits that the reader tests in the two flag words that `mnt_optstr_get_flags`
fills in for an option string: `MS_BIND` and `MS_RDONLY` of the Linux map, `MNT_MS_LOOP`,
`MNT_MS_USER`, `MNT_MS_USERS` and `MNT_MS_OWNER` of the userspace map. -/
structure OptFlags where
  MS_BIND : Bool
  MS_RDONLY : Bool
  MNT_MS_LOOP : Bool
  MNT_MS_USER : Bool
  MNT_MS_USERS : Bool
  MNT_MS_OWNER : Bool
deriving DecidableEq, Repr

/-- The system under the reader of mount points: which table files `setmntent` can open
and what `getmntent` reads from them, which tables `mnt_table_parse_fstab` can parse,
where in the options of a record `hasmntopt` finds an option (`none` is `NULL`), the
flags that `mnt_optstr_get_flags` finds in an option string, what `_resolve_dev_root`
returns, and the modification time that `stat` reports for the file of
`get_fstab_file` (`none` when there is no such file or `stat` fails). -/
structure MountPointsHost where
  setmntent : Option String → Option (List mntent)
  mnt_table_parse_fstab : Option String → Option (List libmnt_fs)
  hasmntopt : mntent → String → Option Nat
  mnt_optstr_get_flags : String → OptFlags
  resolve_dev_root : String
  fstab_mtime : Option Nat

/-- `get_mount_points_timestamp`. -/
def get_mount_points_timestamp (h : MountPointsHost) : Nat :=
  match h.fstab_mtime with
  | some t => t
  | none => 0

/-- The position of the first occurrence of `needle` in the text. -/
def strstr_chars (needle : List Char) : List Char → Option Nat
  | [] => if needle = [] then some 0 else none
  | c :: rest =>
    if needle.isPrefixOf (c :: rest) then some 0
    else (strstr_chars needle rest).map (· + 1)

/-- Modelled from the spec: `g_strstr_len (haystack, -1, needle)` (`glib/gstrfuncs.c`,
not under `src/`), by its documented behaviour: the first occurrence of `needle` in
`haystack`, `none` for `NULL`.  Spec §4.6: the user-mountable hint is "user (but not
user_xattr)". -/
def g_strstr_len (haystack needle : String) : Option Nat :=
  strstr_chars needle.data haystack.data

/-- The first test in the loop of both variants of `_g_unix_mount_points_get_from_file`:
the mount path is `ignore`, `swap` or `none`. -/
def ignored_mount_path (mount_path : String) : Bool :=
  decide (strcmp mount_path "ignore" = 0 ∨ strcmp mount_path "swap" = 0 ∨
    strcmp mount_path "none" = 0)

/-- The mntent variant: the mount point made from a record that the loop does not skip
(lines 1340-1370, in a build with `HAVE_HASMNTOPT`). -/
def mntent_mount_point (h : MountPointsHost) (m : mntent) : GUnixMountPoint :=
  let device_path :=
    if strcmp m.mnt_fsname "/dev/root" = 0 then h.resolve_dev_root else m.mnt_fsname
  let is_read_only := (h.hasmntopt m "ro").isSome
  let is_loopback := (h.hasmntopt m "loop").isSome
  let is_user_mountable :=
    (match m.mnt_type with
     | some mnt_type => decide (strcmp "supermount" mnt_type = 0)
     | none => false) ||
    ((h.hasmntopt m "user").isSome &&
      decide (h.hasmntopt m "user" ≠ h.hasmntopt m "user_xattr")) ||
    (h.hasmntopt m "users").isSome ||
    (h.hasmntopt m "owner").isSome
  create_unix_mount_point (some device_path) m.mnt_dir m.mnt_type m.mnt_opts is_read_only
    is_user_mountable is_loopback

/-- The `while` loop of the mntent variant of `_g_unix_mount_points_get_from_file` (lines
1322-1373, in a build with `HAVE_HASMNTOPT`), with the `return_array` as it stands. -/
def mntent_points_loop (h : MountPointsHost) :
    List mntent → List GUnixMountPoint → List GUnixMountPoint
  | [], return_array => return_array
  | m :: rest, return_array =>
    if ignored_mount_path m.mnt_dir then mntent_points_loop h rest return_array
    else if (h.hasmntopt m "bind").isSome then mntent_points_loop h rest return_array
    else mntent_points_loop h rest (return_array ++ [mntent_mount_point h m])

/-- The libmount variant: the mount point made from a record that the loop does not skip
(lines 1216-1262). -/
def libmount_mount_point (h : MountPointsHost) (fs : libmnt_fs) : GUnixMountPoint :=
  let flags := fs.strdup_options.map h.mnt_optstr_get_flags
  let is_read_only :=
    match flags with
    | some f => f.MS_RDONLY
    | none => false
  let is_loopback :=
    match flags with
    | some f => f.MNT_MS_LOOP
    | none => false
  let is_user_mountable :=
    match fs.strdup_options, flags with
    | some mount_options, some f =>
      decide (fs.fstype ≠ none ∧ g_strcmp0 (some "supermount") fs.fstype = 0) ||
      (f.MNT_MS_USER && (g_strstr_len mount_options "user_xattr").isNone) ||
      f.MNT_MS_USERS || f.MNT_MS_OWNER
    | _, _ => false
  let device_path :=
    if g_strcmp0 fs.source (some "/dev/root") = 0 then some h.resolve_dev_root
    else fs.source
  create_unix_mount_point device_path fs.target fs.fstype fs.strdup_options is_read_only
    is_user_mountable is_loopback

/-- The test `mount_flags & MS_BIND` of the libmount variant, made only for a record
that has options. -/
def libmount_bind (h : MountPointsHost) (fs : libmnt_fs) : Bool :=
  match fs.strdup_options with
  | some mount_options => (h.mnt_optstr_get_flags mount_options).MS_BIND
  | none => false

/-- The `while` loop of the libmount variant of `_g_unix_mount_points_get_from_file`
(lines 1203-1264), with the `return_array` as it stands. -/
def libmount_points_loop (h : MountPointsHost) :
    List libmnt_fs → List GUnixMountPoint → List GUnixMountPoint
  | [], return_array => return_array
  | fs :: rest, return_array =>
    if ignored_mount_path fs.target then libmount_points_loop h rest return_array
    else if libmount_bind h fs then libmount_points_loop h rest return_array
    else libmount_points_loop h rest (return_array ++ [libmount_mount_point h fs])

/-- `_g_unix_mount_points_get_from_file`, in both `HAVE_MNTENT_H` variants: the array
returned (`none` is `NULL`) and the caller's `time_read_out` and `n_points_out`
variables afterwards. -/
def _g_unix_mount_points_get_from_file (b : Backend) (h : MountPointsHost)
    (table_path : Option String) (time_read_out n_points_out : Option Nat) :
    Option (List GUnixMountPoint) × Option Nat × Option Nat :=
  match b with
  | .libmount =>
    let return_array :=
      match h.mnt_table_parse_fstab table_path with
      | none => []
      | some table => libmount_points_loop h table []
    (g_ptr_array_free return_array,
     store_out time_read_out (get_mount_points_timestamp h),
     store_out n_points_out return_array.length)
  | .mntent =>
    match h.setmntent table_path with
    | none =>
      (none, store_out time_read_out (get_mount_points_timestamp h),
       store_out n_points_out 0)
    | some file =>
      (g_ptr_array_free (mntent_points_loop h file []),
       store_out time_read_out (get_mount_points_timestamp h),
       store_out n_points_out (mntent_points_loop h file []).length)

/-- A system whose `hasmntopt` and `mnt_optstr_get_flags` know the option `bind` only
when the options are exactly `bind`, with an fstab of four rows. -/
def MountPointsHost.demo : MountPointsHost :=
  { setmntent := fun _ =>
      some [{ mnt_fsname := "/dev/sda1", mnt_dir := "/", mnt_type := some "ext4",
              mnt_opts := some "defaults" },
            { mnt_fsname := "/dev/sda2", mnt_dir := "swap", mnt_type := some "swap",
              mnt_opts := some "sw" },
            { mnt_fsname := "/srv/data", mnt_dir := "/export", mnt_type := some "none",
              mnt_opts := some "bind" },
            { mnt_fsname := "/dev/sdb1", mnt_dir := "/home", mnt_type := some "ext4",
              mnt_opts := some "defaults" }]
    mnt_table_parse_fstab := fun _ => none
    hasmntopt := fun m opt => if m.mnt_opts = some opt then some 0 else none
    mnt_optstr_get_flags := fun o =>
      { MS_BIND := decide (o = "bind"), MS_RDONLY := false, MNT_MS_LOOP := false,
        MNT_MS_USER := false, MNT_MS_USERS := false, MNT_MS_OWNER := false }
    resolve_dev_root := "/dev/root"
    fstab_mtime := some 1700000000 }

/-! ### The mount monitor -/

/-- The two signals of `GUnixMountMonitor` (the `enum` at line 2265). -/
inductive MonitorSignal where
  | MOUNTS_CHANGED
  | MOUNTPOINTS_CHANGED
deriving DecidableEq, Repr

/-- Modelled from the spec: the enumeration `GFileMonitorEvent` (`gio/gioenums.h`, not
under `src/`).  Spec §4.7: the monitor reacts to "changed/created/deleted events"; the
other values are the remaining events of a file monitor. -/
inductive GFileMonitorEvent where
  | CHANGED
  | CHANGES_DONE_HINT
  | DELETED
  | CREATED
  | ATTRIBUTE_CHANGED
  | PRE_UNMOUNT
  | UNMOUNTED
  | MOVED
  | RENAMED
  | MOVED_IN
  | MOVED_OUT
deriving DecidableEq, Repr

/-- The static variables of the monitor (`mtab_file_changed_id`, `mount_poller_mounts`,
`mount_poller_time`), the number of idle sources with the callback
`mtab_file_changed_cb` that are attached to the main context and have not run yet, and,
as a record of what happened, the signals passed to `g_context_specific_group_emit`, in
order. -/
structure MountMonitor where
  mtab_file_changed_id : Nat
  mount_poller_mounts : List GUnixMountEntry
  mount_poller_time : Nat
  idle_sources : Nat
  emitted : List MonitorSignal
deriving DecidableEq, Repr

/-- `g_context_specific_group_emit (&mount_monitor_group, signals[signal])`. -/
def g_context_specific_group_emit (s : MountMonitor) (signal : MonitorSignal) :
    MountMonitor :=
  { s with emitted := s.emitted ++ [signal] }

/-- The test at the head of `fstab_file_changed` and `mtab_file_changed`. -/
def relevant_event (event_type : GFileMonitorEvent) : Bool :=
  ! (decide (event_type ≠ GFileMonitorEvent.CHANGED) &&
     decide (event_type ≠ GFileMonitorEvent.CREATED) &&
     decide (event_type ≠ GFileMonitorEvent.DELETED))

/-- `fstab_file_changed`. -/
def fstab_file_changed (s : MountMonitor) (event_type : GFileMonitorEvent) : MountMonitor :=
  if relevant_event event_type = false then s
  else g_context_specific_group_emit s MonitorSignal.MOUNTPOINTS_CHANGED

/-- `mtab_file_changed_cb`, run by the main loop for one attached idle source; it
returns `G_SOURCE_REMOVE`, so that source is gone afterwards. -/
def mtab_file_changed_cb (s : MountMonitor) : MountMonitor :=
  g_context_specific_group_emit
    { s with mtab_file_changed_id := 0, idle_sources := s.idle_sources - 1 }
    MonitorSignal.MOUNTS_CHANGED

/-- `mtab_file_changed`: the value that `g_source_attach` returns is not stored. -/
def mtab_file_changed (s : MountMonitor) (event_type : GFileMonitorEvent) : MountMonitor :=
  if relevant_event event_type = false then s
  else if s.mtab_file_changed_id > 0 then s
  else { s with idle_sources := s.idle_sources + 1 }

/-- The main loop runs every idle source that is attached. -/
def dispatch_idle_sources (s : MountMonitor) : MountMonitor :=
  (List.range s.idle_sources).foldl (fun st _ => mtab_file_changed_cb st) s

/-- `proc_mounts_changed`: `cond_in` and `cond_err` are the bits `G_IO_IN` and
`G_IO_ERR` of `cond`, `next_change` is what `mnt_monitor_next_change` returns (`none` in
a build without libmount and when `proc_mounts_monitor` is `NULL`), `now` is the reading
of `g_get_monotonic_time`. -/
def proc_mounts_changed (s : MountMonitor) (cond_in cond_err : Bool)
    (next_change : Option Int) (now : Nat) : MountMonitor :=
  let has_changed := (cond_in && decide (next_change = some 0)) || cond_err
  if has_changed then
    g_context_specific_group_emit { s with mount_poller_time := now }
      MonitorSignal.MOUNTS_CHANGED
  else s

/-- The `for` loop of `mount_change_poller`: `has_changed` and the two iterators when
the loop is left. -/
def poller_loop :
    List GUnixMountEntry → List GUnixMountEntry →
      Bool × List GUnixMountEntry × List GUnixMountEntry
  | new_it :: new_rest, old_it :: old_rest =>
    if g_unix_mount_entry_compare new_it old_it ≠ 0 then
      (true, new_it :: new_rest, old_it :: old_rest)
    else poller_loop new_rest old_rest
  | new_it, old_it => (false, new_it, old_it)

/-- The value of `has_changed` in `mount_change_poller` after the loop and the test of
the two iterators. -/
def poller_has_changed (current_mounts mount_poller_mounts : List GUnixMountEntry) : Bool :=
  let l := poller_loop current_mounts mount_poller_mounts
  if ! (decide (l.2.1 = []) && decide (l.2.2 = [])) then true else l.1

/-- `mount_change_poller`: `current_mounts` is what `_g_get_unix_mounts` reads, `now` the
reading of `g_get_monotonic_time`. -/
def mount_change_poller (s : MountMonitor) (current_mounts : List GUnixMountEntry)
    (now : Nat) : MountMonitor :=
  let has_changed := poller_has_changed current_mounts s.mount_poller_mounts
  let s1 := { s with mount_poller_mounts := current_mounts }
  if has_changed then
    g_context_specific_group_emit { s1 with mount_poller_time := now }
      MonitorSignal.MOUNTPOINTS_CHANGED
  else s1

/-- A monitor that has just been started, with nothing pending and nothing emitted. -/
def MountMonitor.started (mounts : List GUnixMountEntry) (now : Nat) : MountMonitor :=
  { mtab_file_changed_id := 0, mount_poller_mounts := mounts, mount_poller_time := now,
    idle_sources := 0, emitted := [] }

/-- A mount of `/dev/sdb1` on `/media/usb`. -/
def usb_mount : GUnixMountEntry :=
  create_unix_mount_entry BuildConfig.usual (some "/dev/sdb1") "/media/usb" none
    (some "vfat") (some "rw") false

/-- A system on which `/dev/root` resolves to `/dev/sda1` and the mount table has two
records with the device `/dev/root`, the second one a bind mount of the first. -/
def MountsHost.dev_root : MountsHost :=
  { setmntent := fun _ =>
      some [{ mnt_fsname := "/dev/root", mnt_dir := "/", mnt_type := some "ext4",
              mnt_opts := some "rw" },
            { mnt_fsname := "/dev/root", mnt_dir := "/mnt/bind", mnt_type := some "ext4",
              mnt_opts := some "rw,bind" }]
    mnt_table_parse_mtab := fun _ => none
    hasmntopt_ro := fun _ => false
    optstr_rdonly := fun _ => false
    resolve_dev_root := "/dev/sda1" }

end GUnixMounts

namespace GioModule

/-! ### Module scopes and the module cache file of `gio/giomodule.c` -/

/-- Modelled from the spec: the flag `G_IO_MODULE_SCOPE_BLOCK_DUPLICATES` of
`GIOModuleScopeFlags`, declared in a header that is not under `src/`.  Spec §4.4: "flags
currently recognize one option, block duplicate basenames within this scope": one bit. -/
def G_IO_MODULE_SCOPE_BLOCK_DUPLICATES : Nat := 1

/-- `struct _GIOModuleScope`; `basenames` is the key set of the hash table. -/
structure GIOModuleScope where
  flags : Nat
  basenames : List String
deriving DecidableEq, Repr

/-- `g_io_module_scope_new`. -/
def g_io_module_scope_new (flags : Nat) : GIOModuleScope :=
  { flags := flags, basenames := [] }

/-- `g_io_module_scope_block`. -/
def g_io_module_scope_block (scope : GIOModuleScope) (basename : String) : GIOModuleScope :=
  { scope with basenames := basename :: scope.basenames }

/-- `_g_io_module_scope_contains`. -/
def _g_io_module_scope_contains (scope : GIOModuleScope) (basename : String) : Bool :=
  decide (basename ∈ scope.basenames)

/-- The three preprocessor variants of the naming check in `is_valid_module_name`:
neither Windows nor Cygwin nor Apple; Apple; Windows or Cygwin. -/
inductive Platform where
  | unix
  | apple
  | windows
deriving DecidableEq, Repr

/-- The naming check at the head of `is_valid_module_name`: `true` when the function
goes on, `false` when it returns `FALSE` at once. -/
def module_name_ok (platform : Platform) (basename : String) : Bool :=
  match platform with
  | .unix =>
    if ! GUnixMounts.g_str_has_prefix basename "lib" ||
        !GUnixMounts.g_str_has_suffix basename ".so" then false else true
  | .apple =>
    if ! GUnixMounts.g_str_has_prefix basename "lib" ||
        !(GUnixMounts.g_str_has_suffix basename ".so" ||
          GUnixMounts.g_str_has_suffix basename ".dylib") then false else true
  | .windows =>
    if !GUnixMounts.g_str_has_suffix basename ".dll" then false else true

/-- `is_valid_module_name`: the result and the scope afterwards (`none` is a `NULL`
scope). -/
def is_valid_module_name (platform : Platform) (basename : String)
    (scope : Option GIOModuleScope) : Bool × Option GIOModuleScope :=
  if module_name_ok platform basename = false then (false, scope)
  else
    match scope with
    | none => (true, none)
    | some sc =>
      if _g_io_module_scope_contains sc basename then (false, some sc)
      else if sc.flags &&& G_IO_MODULE_SCOPE_BLOCK_DUPLICATES ≠ 0 then
        (true, some (g_io_module_scope_block sc basename))
      else (true, some sc)

/-- The directory loops of `g_io_modules_scan_all_in_directory_with_scope` and
`g_io_modules_load_all_in_directory_with_scope`, as far as the scope goes: of the names
that `g_dir_read_name` hands out, those for which a module is constructed, and the scope
afterwards.  Several directories scanned through one scope are the concatenation of
their names. -/
def valid_entries (platform : Platform) :
    List String → Option GIOModuleScope → List String × Option GIOModuleScope
  | [], scope => ([], scope)
  | name :: rest, scope =>
    if (is_valid_module_name platform name scope).1 then
      (name :: (valid_entries platform rest (is_valid_module_name platform name scope).2).1,
       (valid_entries platform rest (is_valid_module_name platform name scope).2).2)
    else valid_entries platform rest (is_valid_module_name platform name scope).2

/-- Modelled from the spec: `g_ascii_isspace` (`glib/gstrfuncs.h`, not under `src/`), by
its documented behaviour: space, `\t`, `\n`, `\v`, `\f` and `\r`, by character code. -/
def g_ascii_isspace (c : Char) : Bool :=
  decide (c.toNat = 32 ∨ (9 ≤ c.toNat ∧ c.toNat ≤ 13))

/-- `strchr (s, c)`: the position of the first `c` in `s`, `none` for `NULL`. -/
def strchr : List Char → Char → Option Nat
  | [], _ => none
  | x :: rest, c => if x = c then some 0 else (strchr rest c).map (· + 1)

/-- The pieces of a text between the occurrences of the delimiter. -/
def split_pieces (delimiter : Char) : List Char → List (List Char)
  | [] => [[]]
  | x :: rest =>
    if x = delimiter then [] :: split_pieces delimiter rest
    else
      match split_pieces delimiter rest with
      | [] => [[x]]
      | piece :: pieces => (x :: piece) :: pieces

/-- Modelled from the spec: `g_strsplit (string, delimiter, -1)` (`glib/gstrfuncs.c`, not
under `src/`) for a delimiter of one character, as both calls in the cache reader have
it, by its documented behaviour: all pieces, but no piece at all for the empty string.
Spec §6: a line is `filename:ext-point-name[,ext-point-name...]`. -/
def g_strsplit (string : List Char) (delimiter : Char) : List (List Char) :=
  if string = [] then [] else split_pieces delimiter string

/-- The body of the loop over the lines of `giomodule.cache` (lines 520-544): the key
and the value that the line makes `g_hash_table_insert` store, if any. -/
def parse_cache_line (line : List Char) : Option (String × List String) :=
  if line.head? = some '#' then none
  else
    match strchr line ':' with
    | none => none
    | some colon =>
      if colon = 0 then none
      else
        some (String.mk (line.take colon),
              (g_strsplit ((line.drop (colon + 1)).dropWhile g_ascii_isspace) ',').map
                String.mk)

/-- Modelled from the spec: `g_hash_table_insert` (`glib/ghash.c`, not under `src/`) on
the cache table, "a map from basename to the list of extension-point names" (spec
§4.3): the value of an existing key is replaced. -/
def g_hash_table_insert {β : Type} (table : List (String × β)) (key : String)
    (value : β) : List (String × β) :=
  (key, value) :: table.filter (fun e => e.1 ≠ key)

/-- `g_hash_table_lookup` on the cache table, guarded by `if (cache)` as in the scan
loop (line 562). -/
def cache_lookup (cache : Option (List (String × List String))) (name : String) :
    Option (List String) :=
  match cache with
  | none => none
  | some table => (table.find? (fun e => e.1 = name)).map (fun e => e.2)

/-- The loop over the lines (lines 518-545); `cache` is `NULL` until the first entry. -/
def parse_cache_lines :
    List (List Char) → Option (List (String × List String)) →
      Option (List (String × List String))
  | [], cache => cache
  | line :: rest, cache =>
    match parse_cache_line line with
    | none => parse_cache_lines rest cache
    | some (file, strv_extension_points) =>
      parse_cache_lines rest
        (some (g_hash_table_insert (cache.getD []) file strv_extension_points))

/-- The cache table built from the contents of a `giomodule.cache` file (lines
515-546). -/
def read_cache (data : String) : Option (List (String × List String)) :=
  parse_cache_lines (g_strsplit data.data '\n') none

/-- The entries that the lines of the file stand for, in file order. -/
def cache_entries (data : String) : List (String × List String) :=
  (g_strsplit data.data '\n').filterMap parse_cache_line

/-! ### Scanning a module directory -/

/-- The fields of a `GStatBuf` that the scan reads. -/
structure GStatBuf where
  st_mtime : Int
  st_ctime : Int
deriving DecidableEq, Repr

/-- The file system and the loader as the scan sees them: whether `g_module_supported`,
the names that `g_dir_read_name` yields for a directory that `g_dir_open` can open, the
path that `g_build_filename` makes of a directory and a name, what `g_stat` reports for
a path (`none` when it fails), and the text that `g_file_get_contents` reads (`none`
when it fails). -/
structure ScanHost where
  g_module_supported : Bool
  g_dir_open : String → Option (List String)
  g_build_filename : String → String → String
  g_stat : String → Option GStatBuf
  g_file_get_contents : String → Option String

/-- Lines 495-547 of `g_io_modules_scan_all_in_directory_with_scope`: the table `cache`
(`none` is `NULL`) and `cache_time`. -/
def scan_cache (f : ScanHost) (dirname : String) :
    Option (List (String × List String)) × Int :=
  match f.g_stat (f.g_build_filename dirname "giomodule.cache") with
  | none => (none, 0)
  | some statbuf =>
    match f.g_file_get_contents (f.g_build_filename dirname "giomodule.cache") with
    | none => (none, 0)
    | some data => (read_cache data, max statbuf.st_mtime statbuf.st_ctime)

/-- `g_io_module_new`: a new module object for the path, and its pointer. -/
def g_io_module_new (r : Registry) (filename : String) : Nat × Registry :=
  (r.modules.length,
   { r with modules := r.modules ++
      [{ filename := some filename, library := false, initialized := false }] })

/-- The body of the loop over `strv_extension_points` (lines 571-576): the point is
registered and the module is put in front of its `lazy_load_modules`. -/
def lazy_record (module : Nat) (r : Registry) (extension_point_name : String) : Registry :=
  (g_io_extension_point_register r extension_point_name).2.update_point
    (g_io_extension_point_register r extension_point_name).1
    (fun p => { p with lazy_load_modules := module :: p.lazy_load_modules })

/-- The `else` branch of the scan loop (lines 581-591): the module is used once and, if
that worked, unused again. -/
def eager_load (h : Host) (r : Registry) (module : Nat) : Registry :=
  match g_type_module_use h r module with
  | (true, r1) => g_type_module_unuse r1 module
  | (false, r1) => r1

/-- The condition of the `if` in the scan loop (lines 565-567): the points listed in the
cache for the name when the module is to be recorded as lazy, `none` when it is to be
loaded at once. -/
def lazy_points (f : ScanHost) (cache : Option (List (String × List String)))
    (cache_time : Int) (name path : String) : Option (List String) :=
  match cache_lookup cache name with
  | none => none
  | some strv_extension_points =>
    match f.g_stat path with
    | none => none
    | some statbuf =>
      if statbuf.st_ctime ≤ cache_time then some strv_extension_points else none

/-- Lines 554-594 of the scan loop: what happens to a name that `is_valid_module_name`
has accepted. -/
def scan_module (h : Host) (f : ScanHost) (dirname : String)
    (cache : Option (List (String × List String))) (cache_time : Int) (r : Registry)
    (name : String) : Registry :=
  let path := f.g_build_filename dirname name
  let module := g_io_module_new r path
  match lazy_points f cache cache_time name path with
  | some strv_extension_points => strv_extension_points.foldl (lazy_record module.1) module.2
  | none => eager_load h module.2 module.1

/-- The body of the `while` loop of the scan for one directory entry. -/
def scan_entry (h : Host) (f : ScanHost) (platform : Platform) (dirname : String)
    (cache : Option (List (String × List String))) (cache_time : Int)
    (st : Registry × Option GIOModuleScope) (name : String) :
    Registry × Option GIOModuleScope :=
  if (is_valid_module_name platform name st.2).1 then
    (scan_module h f dirname cache cache_time st.1 name,
     (is_valid_module_name platform name st.2).2)
  else (st.1, (is_valid_module_name platform name st.2).2)

/-- `g_io_modules_scan_all_in_directory_with_scope`: the registry and the scope
afterwards. -/
def g_io_modules_scan_all_in_directory_with_scope (h : Host) (f : ScanHost)
    (platform : Platform) (st : Registry × Option GIOModuleScope) (dirname : String) :
    Registry × Option GIOModuleScope :=
  if f.g_module_supported = false then st
  else
    match f.g_dir_open dirname with
    | none => st
    | some names =>
      names.foldl
        (scan_entry h f platform dirname (scan_cache f dirname).1 (scan_cache f dirname).2)
        st

/-- The `while` loop of the scan (lines 549-594) over the entries `names` of the
directory, from the registry and the scope `st`: the state in which the loop reaches the
entry that comes after `names`. -/
def scan_entries (h : Host) (f : ScanHost) (platform : Platform) (dirname : String)
    (names : List String) (st : Registry × Option GIOModuleScope) :
    Registry × Option GIOModuleScope :=
  names.foldl
    (scan_entry h f platform dirname (scan_cache f dirname).1 (scan_cache f dirname).2) st

/-- The module object that `g_type_module_use`, and `g_type_module_unuse` when the use
worked, leave behind for a new module with the file name `path`: not initialised when
`g_module_open_full` finds no library, not initialised and with the library pointer
still set when `load_symbols` fails, initialised and closed otherwise. -/
def used_module (h : Host) (path : String) : GIOModule :=
  match h.g_module_open path with
  | none => { filename := some path, library := false, initialized := false }
  | some lib =>
    if lib.symbols = false then
      { filename := some path, library := true, initialized := false }
    else { filename := some path, library := false, initialized := true }

/-- "The cache file of the directory can be read and lists `points` for `name`, and the
file `name` can be examined and was last changed no later than the cache file was
written or changed". -/
def cache_fresh (f : ScanHost) (dirname name : String) (points : List String) : Prop :=
  ∃ cache_stat data module_stat,
    f.g_stat (f.g_build_filename dirname "giomodule.cache") = some cache_stat ∧
    f.g_file_get_contents (f.g_build_filename dirname "giomodule.cache") = some data ∧
    cache_lookup (read_cache data) name = some points ∧
    f.g_stat (f.g_build_filename dirname name) = some module_stat ∧
    module_stat.st_ctime ≤ max cache_stat.st_mtime cache_stat.st_ctime

/-- "Every module on a lazy list of the registry is one of its first `n` modules". -/
def lazy_below (r : Registry) (n : Nat) : Prop :=
  ∀ p ∈ r.extension_points, ∀ m ∈ p.lazy_load_modules, m < n

instance (r : Registry) (n : Nat) : Decidable (lazy_below r n) := by
  unfold lazy_below; infer_instance

/-- "The point named `point_name` is registered and `module` is on its lazy list". -/
def on_lazy_list (r : Registry) (point_name : String) (module : Nat) : Prop :=
  ∃ ep p, g_io_extension_point_lookup r point_name = some ep ∧ r.point ep = some p ∧
    module ∈ p.lazy_load_modules

/-- "The module is on the lazy list of no point". -/
def on_no_lazy_list (r : Registry) (module : Nat) : Prop :=
  ∀ p ∈ r.extension_points, module ∉ p.lazy_load_modules

/-- "Every point of `r` is a point of `r2`, under the same pointer and name, and every
extension that it has in `r` it has in `r2`". -/
def extensions_kept (r r2 : Registry) : Prop :=
  ∀ ep p, r.point ep = some p →
    ∃ p2, r2.point ep = some p2 ∧ p2.name = p.name ∧ ∀ e ∈ p.extensions, e ∈ p2.extensions

/-! ### The module directories -/

/-- What `get_gio_module_dir` and `_g_io_modules_ensure_loaded` take from the build and
from the process apart from the environment: the platform, the macros `GIO_MODULE_DIR`
and `G_SEARCHPATH_SEPARATOR`, what `g_check_setuid` answers, on Windows the path
`lib/gio/modules` under the installation directory of the library, and on macOS the
directory `gio/modules` next to the library when `dladdr` finds the library and that
directory exists. -/
structure ModuleDirs where
  platform : Platform
  GIO_MODULE_DIR : String
  G_SEARCHPATH_SEPARATOR : Char
  g_check_setuid : Bool
  win32_module_dir : String
  relocated_dir : Option String

/-- `get_gio_module_dir`, with the environment as `g_getenv`. -/
def get_gio_module_dir (b : ModuleDirs) (g_getenv : String → Option String) : String :=
  match (if ! b.g_check_setuid then g_getenv "GIO_MODULE_DIR" else none) with
  | some module_dir => module_dir
  | none =>
    match b.platform with
    | Platform.windows => b.win32_module_dir
    | Platform.apple =>
      match b.relocated_dir with
      | some possible_dir => possible_dir
      | none => b.GIO_MODULE_DIR
    | Platform.unix => b.GIO_MODULE_DIR

/-- The directories that `_g_io_modules_ensure_loaded` passes to
`g_io_modules_scan_all_in_directory_with_scope`, in order, when `loaded_dirs` is still
unset (lines 1321-1341). -/
def ensure_loaded_directories (b : ModuleDirs) (g_getenv : String → Option String) :
    List String :=
  (match (if ! b.g_check_setuid then g_getenv "GIO_EXTRA_MODULES" else none) with
   | some module_path =>
     (g_strsplit module_path.data b.G_SEARCHPATH_SEPARATOR).map String.mk
   | none => []) ++ [get_gio_module_dir b g_getenv]

/-- The scans of `_g_io_modules_ensure_loaded` (lines 1316-1343): nothing when
`loaded_dirs` is set, otherwise every directory through one scope that blocks
duplicates.  The registration of the built-in points before and of the built-in types
after the scans is left out. -/
def ensure_loaded_scans (h : Host) (f : ScanHost) (b : ModuleDirs) (loaded_dirs : Bool)
    (r : Registry) : Registry :=
  if loaded_dirs then r
  else
    ((ensure_loaded_directories b h.g_getenv).foldl
      (g_io_modules_scan_all_in_directory_with_scope h f b.platform)
      (r, some (g_io_module_scope_new G_IO_MODULE_SCOPE_BLOCK_DUPLICATES))).1

/-! ### The default class of an extension point -/

/-- The state that `_g_io_module_get_default_type` works on: the registry; its own static
table `default_modules` (`none` while the pointer is `NULL`), which stores under a key
the class found (a class being known by its type) or `NULL` (`none`); and, as a record of
what happened, the types whose is-supported function was called, in order. -/
structure TypeResolver where
  registry : Registry
  default_modules : Option (List (String × Option GType))
  supported_calls : List GType

/-- `g_hash_table_lookup_extended (default_modules, extension_point, &key, &impl)` on
the table of classes: `none` when the key is not in the table, otherwise the value
stored, which may be `NULL`. -/
def class_cache_probe (st : TypeResolver) (extension_point : String) :
    Option (Option GType) :=
  match st.default_modules with
  | some table => (table.find? (fun e => e.1 = extension_point)).map (fun e => e.2)
  | none => none

/-- The result expression `impl ? G_OBJECT_CLASS_TYPE (impl) : G_TYPE_INVALID`. -/
def class_type (impl : Option GType) : GType :=
  match impl with
  | some type => type
  | none => G_TYPE_INVALID

/-- `try_class`: `is_supported type offset` is what the function at `offset` in the
class of `type` returns. -/
def try_class (is_supported : GType → Nat → Bool) (st : TypeResolver)
    (extension : GIOExtension) (is_supported_offset : Nat) : Option GType × TypeResolver :=
  if is_supported_offset = 0 then (some extension.type, st)
  else if is_supported extension.type is_supported_offset then
    (some extension.type, { st with supported_calls := st.supported_calls ++ [extension.type] })
  else (none, { st with supported_calls := st.supported_calls ++ [extension.type] })

/-- `print_help`, as far as the state of the class resolver goes. -/
def print_help_class (h : Host) (st : TypeResolver) (ep : Nat) : TypeResolver :=
  let q1 := g_io_extension_point_get_extensions h st.registry ep
  if q1.1 = [] then { st with registry := q1.2 }
  else
    let q2 := g_io_extension_point_get_extensions h q1.2 ep
    let q3 := g_io_extension_point_get_extensions h q2.2 ep
    { st with registry := q3.2 }

/-- The loop of `_g_io_module_get_default_type` (lines 860-869). -/
def try_classes (is_supported : GType → Nat → Bool) (is_supported_offset : Nat)
    (preferred : Option GIOExtension) :
    TypeResolver → List GIOExtension → Option GType × TypeResolver
  | st, [] => (none, st)
  | st, extension :: rest =>
    if preferred.map (fun e => e.addr) = some extension.addr then
      try_classes is_supported is_supported_offset preferred st rest
    else
      match (try_class is_supported st extension is_supported_offset).1 with
      | some impl => (some impl, (try_class is_supported st extension is_supported_offset).2)
      | none =>
        try_classes is_supported is_supported_offset preferred
          (try_class is_supported st extension is_supported_offset).2 rest

/-- Lines 837-871 of `_g_io_module_get_default_type`: the choice of the class for the
registered point `ep`. -/
def resolve_class (h : Host) (is_supported : GType → Nat → Bool) (st : TypeResolver)
    (ep : Nat) (envvar : Option String) (is_supported_offset : Nat) :
    Option GType × TypeResolver :=
  let st0 := if envvar.bind h.g_getenv = some "help" then print_help_class h st ep else st
  match (if envvar.bind h.g_getenv = some "help" then none else envvar.bind h.g_getenv) with
  | some name =>
    let q := g_io_extension_point_get_extension_by_name h st0.registry ep name
    match q.1 with
    | some preferred =>
      let t := try_class is_supported { st0 with registry := q.2 } preferred
        is_supported_offset
      match t.1 with
      | some impl => (some impl, t.2)
      | none =>
        let l := g_io_extension_point_get_extensions h t.2.registry ep
        try_classes is_supported is_supported_offset (some preferred)
          { t.2 with registry := l.2 } l.1
    | none =>
      let l := g_io_extension_point_get_extensions h q.2 ep
      try_classes is_supported is_supported_offset none { st0 with registry := l.2 } l.1
  | none =>
    let l := g_io_extension_point_get_extensions h st0.registry ep
    try_classes is_supported is_supported_offset none { st0 with registry := l.2 } l.1

/-- `_g_io_module_get_default_type`: the type returned and the state afterwards. -/
def _g_io_module_get_default_type (h : Host) (is_supported : GType → Nat → Bool)
    (st : TypeResolver) (extension_point : String) (envvar : Option String)
    (is_supported_offset : Nat) : GType × TypeResolver :=
  match class_cache_probe st extension_point with
  | some impl => (class_type impl, st)
  | none =>
    let st1 : TypeResolver :=
      { st with default_modules := some (st.default_modules.getD []),
                registry := h.ensure_loaded st.registry }
    match g_io_extension_point_lookup st1.registry extension_point with
    | none => (G_TYPE_INVALID, st1)
    | some ep =>
      let res := resolve_class h is_supported st1 ep envvar is_supported_offset
      (class_type res.1,
       { res.2 with
         default_modules :=
           some (g_hash_table_insert (res.2.default_modules.getD []) extension_point
             res.1) })

/-- A process that has not asked for a default class yet. -/
def TypeResolver.start (r : Registry) : TypeResolver :=
  { registry := r, default_modules := none, supported_calls := [] }

/-! ### Calls that change the registry -/

/-- One step of the program as far as the registry goes: a call of the registration
API, one of the two queries that load lazy modules, the creation of a module object, its
use and unuse, and the recording of a module as lazy at a point. -/
inductive Call where
  | api (op : Op)
  | get_extensions (extension_point : Nat)
  | get_extension_by_name (extension_point : Nat) (name : String)
  | module_new (filename : String)
  | module_use (module : Nat)
  | module_unuse (module : Nat)
  | lazy (module : Nat) (extension_point_name : String)
deriving DecidableEq, Repr

/-- The effect of one step on the registry. -/
def Call.apply (h : Host) (r : Registry) : Call → Registry
  | .api op => Op.apply h r op
  | .get_extensions ep => (g_io_extension_point_get_extensions h r ep).2
  | .get_extension_by_name ep name => (g_io_extension_point_get_extension_by_name h r ep name).2
  | .module_new filename => (g_io_module_new r filename).2
  | .module_use module => (g_type_module_use h r module).2
  | .module_unuse module => g_type_module_unuse r module
  | .lazy module name => lazy_record module r name

/-- "The module at `module` has been activated successfully at least once". -/
def was_initialized (r : Registry) (module : Nat) : Prop :=
  ∃ m, r.modules[module]? = some m ∧ m.initialized = true

/-- A loader that knows one library, `/m/libfoo.so`, whose `load` entry point registers
the type 21 at the point "P". -/
def Host.with_library : Host :=
  { Host.plain with
    g_module_open := fun path =>
      if path = "/m/libfoo.so" then
        some { symbols := true, load := [Op.implement (some "P") 21 (some "foo") 0] }
      else none }

/-- A registry with the point "P" and one module object for `/m/libfoo.so`, recorded as
lazy at "P" and not activated yet. -/
def lazy_registry : Registry :=
  lazy_record 0 (g_io_module_new (g_io_extension_point_register Registry.empty "P").2
    "/m/libfoo.so").2 "P"

/-- A loader that knows two libraries: `/m/libfoo.so`, whose `load` entry point
registers the type 21 at the point "P", and `/m/libnew.so`, which registers the type 22
there. -/
def Host.with_modules : Host :=
  { Host.plain with
    g_module_open := fun path =>
      if path = "/m/libfoo.so" then
        some { symbols := true, load := [Op.implement (some "P") 21 (some "foo") 0] }
      else if path = "/m/libnew.so" then
        some { symbols := true, load := [Op.implement (some "P") 22 (some "new") 5] }
      else none }

/-- A directory `/m` that holds `libfoo.so`, `libbar.so` and `libnew.so`, with a cache
file written at time 100 that lists the point "P" for `libfoo.so` and the point "Q" for
`libnew.so`; `libfoo.so` was last changed at 90, `libbar.so` at 95 and `libnew.so` at
120, after the cache was written. -/
def ScanHost.stale : ScanHost :=
  { g_module_supported := true
    g_dir_open := fun d =>
      if d = "/m" then some ["libfoo.so", "libbar.so", "libnew.so"] else none
    g_build_filename := fun d n => d ++ "/" ++ n
    g_stat := fun path =>
      if path = "/m/giomodule.cache" then some { st_mtime := 100, st_ctime := 100 }
      else if path = "/m/libfoo.so" then some { st_mtime := 90, st_ctime := 90 }
      else if path = "/m/libbar.so" then some { st_mtime := 95, st_ctime := 95 }
      else if path = "/m/libnew.so" then some { st_mtime := 120, st_ctime := 120 }
      else none
    g_file_get_contents := fun path =>
      if path = "/m/giomodule.cache" then some "libfoo.so: P\nlibnew.so: Q\n" else none }

/-- The registry of a process in which the point "P" is registered and nothing else has
happened. -/
def point_registry : Registry :=
  (g_io_extension_point_register Registry.empty "P").2

/-- A setuid process on Unix with the built-in directory `/usr/lib/gio/modules`. -/
def ModuleDirs.setuid : ModuleDirs :=
  { platform := Platform.unix, GIO_MODULE_DIR := "/usr/lib/gio/modules",
    G_SEARCHPATH_SEPARATOR := ':', g_check_setuid := true, win32_module_dir := "",
    relocated_dir := none }

/-! ## Theorems -/

/-! ## The registry: how one call changes the table -/

theorem hash_lookup_some {l : List GIOExtensionPoint} {n : String} {i : Nat}
    (hl : hash_lookup l n = some i) : ∃ p, l[i]? = some p ∧ p.name = n := by
  induction l generalizing i with
  | nil => simp [hash_lookup] at hl
  | cons a l ih =>
    unfold hash_lookup at hl
    split at hl
    · rename_i hn
      obtain rfl : 0 = i := by simpa using hl
      exact ⟨a, by simp, hn⟩
    · cases hr : hash_lookup l n with
      | none => simp [hr] at hl
      | some j =>
        simp [hr] at hl
        subst hl
        obtain ⟨p, hp, hpn⟩ := ih hr
        exact ⟨p, by simpa using hp, hpn⟩

theorem hash_lookup_append (l : List GIOExtensionPoint) (q : GIOExtensionPoint)
    (n : String) :
    hash_lookup (l ++ [q]) n =
      match hash_lookup l n with
      | some i => some i
      | none => if q.name = n then some l.length else none := by
  induction l with
  | nil => simp [hash_lookup]
  | cons a l ih =>
    by_cases ha : a.name = n
    · simp [hash_lookup, ha]
    · have hc : hash_lookup (a :: l ++ [q]) n =
          (hash_lookup (l ++ [q]) n).map (· + 1) := by
        simp [hash_lookup, ha]
      have hd : hash_lookup (a :: l) n = (hash_lookup l n).map (· + 1) := by
        simp [hash_lookup, ha]
      rw [hc, hd, ih]
      cases hash_lookup l n with
      | some i => simp
      | none => by_cases hq : q.name = n <;> simp [hq]

theorem hash_lookup_set {l : List GIOExtensionPoint} {i : Nat} {p q : GIOExtensionPoint}
    (hp : l[i]? = some p) (hq : q.name = p.name) (n : String) :
    hash_lookup (l.set i q) n = hash_lookup l n := by
  induction l generalizing i with
  | nil => simp at hp
  | cons a l ih =>
    cases i with
    | zero =>
      obtain rfl : a = p := by simpa using hp
      simp [hash_lookup, hq]
    | succ j =>
      have hp2 : l[j]? = some p := by simpa using hp
      simp [hash_lookup, ih hp2]

theorem register_step (h : Host) (G : GIOExtensionPoint → GType → Prop) (r : Registry)
    (name : String) :
    PointsStep h G r.extension_points
      (g_io_extension_point_register r name).2.extension_points := by
  unfold g_io_extension_point_register
  cases hl : hash_lookup r.extension_points name with
  | some i => exact PointsStep.same _
  | none => exact PointsStep.fresh _ _ hl

theorem set_required_type_step (h : Host) (G : GIOExtensionPoint → GType → Prop)
    (r : Registry) (ep : Nat) (t : GType) (hG : ∀ p, r.point ep = some p → G p t) :
    PointsStep h G r.extension_points
      (g_io_extension_point_set_required_type r ep t).extension_points := by
  unfold g_io_extension_point_set_required_type Registry.update_point
  cases hp : r.extension_points[ep]? with
  | none => exact PointsStep.same _
  | some p => exact PointsStep.retype _ _ _ _ hp (hG p hp)

theorem implement_step (h : Host) (G : GIOExtensionPoint → GType → Prop) (r : Registry)
    (epname : Option String) (type : GType) (ename : Option String) (priority : Int) :
    PointsStep h G r.extension_points
      (g_io_extension_point_implement h r epname type ename priority).2.extension_points := by
  unfold g_io_extension_point_implement
  cases epname with
  | none => exact PointsStep.same _
  | some n =>
    simp only
    cases hl : g_io_extension_point_lookup r n with
    | none => exact PointsStep.same _
    | some i =>
      simp only [Registry.point]
      cases hp : r.extension_points[i]? with
      | none => exact PointsStep.same _
      | some p =>
        simp only
        split
        · exact PointsStep.same _
        · rename_i hreq
          cases hf : p.extensions.find? (fun e => e.type = type) with
          | some e => exact PointsStep.same _
          | none =>
            simp only [Registry.update_point, hp]
            refine PointsStep.insert _ i p
              { addr := r.next_addr, name := ename, type := type, priority := priority }
              hp ?_ (by simpa using hf)
            by_cases h0 : p.required_type = 0
            · exact Or.inl h0
            · right
              simp only [not_and, Bool.not_eq_false] at hreq
              exact hreq h0

theorem apply_step (h : Host) (r : Registry) (op : Op) :
    PointsStep h Unguarded r.extension_points (Op.apply h r op).extension_points := by
  cases op with
  | register name => exact register_step h _ r name
  | set_required_type ep t => exact set_required_type_step h _ r ep t (fun _ _ => trivial)
  | implement epname type ename priority =>
    exact implement_step h _ r epname type ename priority

/-- Every property of single points that holds for a fresh point and survives a change of
the required type and an accepted insertion holds for all points after a step. -/
theorem step_pointwise {h : Host} {G : GIOExtensionPoint → GType → Prop}
    (Q : GIOExtensionPoint → Prop)
    (hfresh : ∀ name, Q { required_type := 0, name := name, extensions := [],
                          lazy_load_modules := [] })
    (hretype : ∀ p t, G p t → Q p → Q { p with required_type := t })
    (hins : ∀ p e, (p.required_type = 0 ∨ h.g_type_is_a e.type p.required_type = true) →
      p.extensions.find? (fun x => x.type = e.type) = none → Q p →
      Q { p with extensions := g_list_insert_sorted p.extensions e extension_prio_compare })
    {l l2 : List GIOExtensionPoint} (hs : PointsStep h G l l2) (hl : ∀ p ∈ l, Q p) :
    ∀ p ∈ l2, Q p := by
  cases hs with
  | same => exact hl
  | fresh name hn =>
    intro p hp
    rcases List.mem_append.mp hp with hp | hp
    · exact hl p hp
    · obtain rfl : p = _ := by simpa using hp
      exact hfresh name
  | retype i q t hq hG =>
    intro p hp
    have hqm : q ∈ l := List.getElem?_mem hq
    rcases List.mem_or_eq_of_mem_set hp with hp | rfl
    · exact hl p hp
    · exact hretype q t hG (hl q hqm)
  | insert i q e hq hreq hfind =>
    intro p hp
    have hqm : q ∈ l := List.getElem?_mem hq
    rcases List.mem_or_eq_of_mem_set hp with hp | rfl
    · exact hl p hp
    · exact hins q e hreq hfind (hl q hqm)

/-- The table after a run of calls is reached by steps. -/
theorem run_steps (h : Host) (r : Registry) (ops : List Op) :
    Relation.ReflTransGen (PointsStep h Unguarded) r.extension_points
      (run h r ops).extension_points := by
  induction ops generalizing r with
  | nil => exact Relation.ReflTransGen.refl
  | cons op rest ih =>
    exact Relation.ReflTransGen.head (apply_step h r op) (ih (Op.apply h r op))

theorem steps_pointwise {h : Host} {G : GIOExtensionPoint → GType → Prop}
    (Q : GIOExtensionPoint → Prop)
    (hfresh : ∀ name, Q { required_type := 0, name := name, extensions := [],
                          lazy_load_modules := [] })
    (hretype : ∀ p t, G p t → Q p → Q { p with required_type := t })
    (hins : ∀ p e, (p.required_type = 0 ∨ h.g_type_is_a e.type p.required_type = true) →
      p.extensions.find? (fun x => x.type = e.type) = none → Q p →
      Q { p with extensions := g_list_insert_sorted p.extensions e extension_prio_compare })
    {l l2 : List GIOExtensionPoint} (hs : Relation.ReflTransGen (PointsStep h G) l l2)
    (hl : ∀ p ∈ l, Q p) : ∀ p ∈ l2, Q p := by
  induction hs with
  | refl => exact hl
  | tail _ hstep ih => exact step_pointwise Q hfresh hretype hins hstep ih

/-! ## Sorted insertion -/

theorem extension_prio_compare_neg (a b : GIOExtension) :
    extension_prio_compare a b < 0 ↔ a.priority > b.priority := by
  unfold extension_prio_compare
  split
  · simp [*]
  · split <;> simp [*]

theorem mem_g_list_insert_sorted {α : Type} (l : List α) (e : α) (f : α → α → Int)
    (x : α) : x ∈ g_list_insert_sorted l e f ↔ x = e ∨ x ∈ l := by
  induction l with
  | nil => simp [g_list_insert_sorted]
  | cons a l ih =>
    unfold g_list_insert_sorted
    split
    · simp
    · simp only [List.mem_cons, ih]
      tauto

theorem g_list_insert_sorted_perm {α : Type} (l : List α) (e : α) (f : α → α → Int) :
    (g_list_insert_sorted l e f).Perm (e :: l) := by
  induction l with
  | nil => simp [g_list_insert_sorted]
  | cons a l ih =>
    unfold g_list_insert_sorted
    split
    · exact List.Perm.refl _
    · exact (List.Perm.cons a ih).trans (List.Perm.swap e a l)

theorem g_list_insert_sorted_sorted (l : List GIOExtension) (e : GIOExtension)
    (hl : prio_sorted l) : prio_sorted (g_list_insert_sorted l e extension_prio_compare) := by
  induction l with
  | nil => simp [g_list_insert_sorted, prio_sorted]
  | cons a l ih =>
    unfold prio_sorted at hl ih ⊢
    rw [List.pairwise_cons] at hl
    unfold g_list_insert_sorted
    split
    · rename_i hlt
      rw [extension_prio_compare_neg] at hlt
      refine List.pairwise_cons.mpr ⟨?_, List.pairwise_cons.mpr hl⟩
      intro x hx
      rcases List.mem_cons.mp hx with rfl | hx
      · omega
      · have := hl.1 x hx
        omega
    · rename_i hlt
      rw [extension_prio_compare_neg] at hlt
      refine List.pairwise_cons.mpr ⟨?_, ih hl.2⟩
      intro x hx
      rcases (mem_g_list_insert_sorted l e _ x).mp hx with rfl | hx
      · omega
      · exact hl.1 x hx

/-! ## Lazy loading only makes registration calls -/

theorem load_module_steps (h : Host) (r : Registry) (module : Nat) :
    Relation.ReflTransGen (PointsStep h Unguarded) r.extension_points
      (g_io_module_load_module h r module).2.extension_points := by
  unfold g_io_module_load_module
  split
  · exact Relation.ReflTransGen.refl
  · split
    · exact Relation.ReflTransGen.refl
    · split
      · exact Relation.ReflTransGen.refl
      · rename_i lib _
        split
        · exact Relation.ReflTransGen.refl
        · exact run_steps h r lib.load

theorem unload_module_points (r : Registry) (module : Nat) :
    (g_io_module_unload_module r module).extension_points = r.extension_points := by
  unfold g_io_module_unload_module
  cases r.modules[module]? <;> rfl

theorem lazy_load_module_steps (h : Host) (r : Registry) (module : Nat) :
    Relation.ReflTransGen (PointsStep h Unguarded) r.extension_points
      (lazy_load_module h r module).extension_points := by
  unfold lazy_load_module
  cases r.modules[module]? with
  | none => exact Relation.ReflTransGen.refl
  | some m =>
    simp only
    split
    · have hs := load_module_steps h r module
      unfold g_type_module_use
      cases hu : g_io_module_load_module h r module with
      | mk ok r1 =>
        rw [hu] at hs
        cases ok with
        | true =>
          simp only [g_type_module_unuse]
          rw [unload_module_points]
          exact hs
        | false => exact hs
    · exact Relation.ReflTransGen.refl

theorem lazy_load_list_steps (h : Host) (mods : List Nat) (r : Registry) :
    Relation.ReflTransGen (PointsStep h Unguarded) r.extension_points
      (mods.foldl (lazy_load_module h) r).extension_points := by
  induction mods generalizing r with
  | nil => exact Relation.ReflTransGen.refl
  | cons m rest ih =>
    exact (lazy_load_module_steps h r m).trans (ih (lazy_load_module h r m))

theorem lazy_load_modules_steps (h : Host) (r : Registry) (ep : Nat) :
    Relation.ReflTransGen (PointsStep h Unguarded) r.extension_points
      (lazy_load_modules h r ep).extension_points := by
  unfold lazy_load_modules
  cases r.point ep with
  | none => exact Relation.ReflTransGen.refl
  | some p => exact lazy_load_list_steps h p.lazy_load_modules r

/-- With no lazy module recorded at the point the query loads nothing. -/
theorem lazy_load_modules_nil (h : Host) (r : Registry) (ep : Nat)
    (hnil : ∀ p, r.point ep = some p → p.lazy_load_modules = []) :
    lazy_load_modules h r ep = r := by
  unfold lazy_load_modules
  cases hp : r.point ep with
  | none => rfl
  | some p => simp [hnil p hp]

/-! ## Invariants of the table -/

theorem step_lookup {h : Host} {G : GIOExtensionPoint → GType → Prop}
    {l l2 : List GIOExtensionPoint} (hs : PointsStep h G l l2) {n : String} {i : Nat}
    (hl : hash_lookup l n = some i) : hash_lookup l2 n = some i := by
  cases hs with
  | same => exact hl
  | fresh name hn => rw [hash_lookup_append, hl]
  | retype j q t hq hG =>
    exact (hash_lookup_set (q := { q with required_type := t }) hq rfl n).trans hl
  | insert j q e hq hreq hfind =>
    have hset := hash_lookup_set (p := q)
      (q := { q with
                extensions := g_list_insert_sorted q.extensions e extension_prio_compare })
      hq rfl n
    exact hset.trans hl

theorem steps_lookup {h : Host} {G : GIOExtensionPoint → GType → Prop}
    {l l2 : List GIOExtensionPoint} (hs : Relation.ReflTransGen (PointsStep h G) l l2)
    {n : String} {i : Nat} (hl : hash_lookup l n = some i) : hash_lookup l2 n = some i := by
  induction hs with
  | refl => exact hl
  | tail _ hstep ih => exact step_lookup hstep ih

theorem register_lookup (r : Registry) (name : String) :
    hash_lookup (g_io_extension_point_register r name).2.extension_points name =
      some (g_io_extension_point_register r name).1 := by
  unfold g_io_extension_point_register
  cases hl : hash_lookup r.extension_points name with
  | some i => simpa using hl
  | none => simp [hash_lookup_append, hl]

theorem register_of_lookup {r : Registry} {name : String} {i : Nat}
    (hl : hash_lookup r.extension_points name = some i) :
    g_io_extension_point_register r name = (i, r) := by
  unfold g_io_extension_point_register
  rw [hl]

theorem steps_sorted {h : Host} {G : GIOExtensionPoint → GType → Prop}
    {l l2 : List GIOExtensionPoint} (hs : Relation.ReflTransGen (PointsStep h G) l l2)
    (hl : ∀ p ∈ l, prio_sorted p.extensions) : ∀ p ∈ l2, prio_sorted p.extensions :=
  steps_pointwise (fun p => prio_sorted p.extensions)
    (fun _ => by simp [prio_sorted])
    (fun _ _ _ hp => hp)
    (fun p e _ _ hp => g_list_insert_sorted_sorted p.extensions e hp) hs hl

/-! ## What `g_io_extension_point_implement` does, case by case -/

theorem implement_unregistered {h : Host} {r : Registry} {pn : String}
    (hl : g_io_extension_point_lookup r pn = none) (type : GType) (ename : Option String)
    (priority : Int) :
    g_io_extension_point_implement h r (some pn) type ename priority = (none, r) := by
  simp [g_io_extension_point_implement, hl]

theorem implement_rejected {h : Host} {r : Registry} {pn : String} {ep : Nat}
    {p : GIOExtensionPoint} (hl : g_io_extension_point_lookup r pn = some ep)
    (hp : r.point ep = some p) {type : GType} (h0 : p.required_type ≠ 0)
    (hno : h.g_type_is_a type p.required_type = false) (ename : Option String)
    (priority : Int) :
    g_io_extension_point_implement h r (some pn) type ename priority = (none, r) := by
  simp [g_io_extension_point_implement, hl, hp, h0, hno]

theorem implement_existing {h : Host} {r : Registry} {pn : String} {ep : Nat}
    {p : GIOExtensionPoint} (hl : g_io_extension_point_lookup r pn = some ep)
    (hp : r.point ep = some p) {type : GType}
    (hok : p.required_type = 0 ∨ h.g_type_is_a type p.required_type = true)
    {e : GIOExtension} (hf : p.extensions.find? (fun x => x.type = type) = some e)
    (ename : Option String) (priority : Int) :
    g_io_extension_point_implement h r (some pn) type ename priority = (some e, r) := by
  have hc : ¬ (p.required_type ≠ 0 ∧ h.g_type_is_a type p.required_type = false) := by
    rintro ⟨h0, hno⟩
    rcases hok with hok | hok
    · exact h0 hok
    · rw [hok] at hno
      cases hno
  simp only [g_io_extension_point_implement, hl, hp, if_neg hc, hf]

theorem implement_new {h : Host} {r : Registry} {pn : String} {ep : Nat}
    {p : GIOExtensionPoint} (hl : g_io_extension_point_lookup r pn = some ep)
    (hp : r.point ep = some p) {type : GType}
    (hok : p.required_type = 0 ∨ h.g_type_is_a type p.required_type = true)
    (hf : p.extensions.find? (fun x => x.type = type) = none)
    (ename : Option String) (priority : Int) :
    g_io_extension_point_implement h r (some pn) type ename priority =
      (some { addr := r.next_addr, name := ename, type := type, priority := priority },
       { r with
         extension_points := r.extension_points.set ep
           { p with
             extensions := g_list_insert_sorted p.extensions
               { addr := r.next_addr, name := ename, type := type, priority := priority }
               extension_prio_compare }
         next_addr := r.next_addr + 1 }) := by
  have hc : ¬ (p.required_type ≠ 0 ∧ h.g_type_is_a type p.required_type = false) := by
    rintro ⟨h0, hno⟩
    rcases hok with hok | hok
    · exact h0 hok
    · rw [hok] at hno
      cases hno
  have hp2 : r.extension_points[ep]? = some p := hp
  simp only [g_io_extension_point_implement, hl, hp, if_neg hc, hf, Registry.update_point,
    hp2]

/-- A pointer that the table hands out points to a point of that name. -/
theorem lookup_point {r : Registry} {pn : String} {ep : Nat}
    (hl : g_io_extension_point_lookup r pn = some ep) :
    ∃ p, r.point ep = some p ∧ p.name = pn :=
  hash_lookup_some hl

theorem filter_g_list_insert_sorted (l : List GIOExtension) (e : GIOExtension) (k : Int)
    (hl : prio_sorted l) :
    (g_list_insert_sorted l e extension_prio_compare).filter (fun x => x.priority = k) =
      l.filter (fun x => x.priority = k) ++ (if e.priority = k then [e] else []) := by
  induction l with
  | nil =>
    by_cases hk : e.priority = k <;> simp [g_list_insert_sorted, hk]
  | cons a l ih =>
    unfold prio_sorted at hl ih
    rw [List.pairwise_cons] at hl
    unfold g_list_insert_sorted
    split
    · rename_i hlt
      rw [extension_prio_compare_neg] at hlt
      by_cases hk : e.priority = k
      · have hnone : (a :: l).filter (fun x => decide (x.priority = k)) = [] := by
          rw [List.filter_eq_nil_iff]
          intro x hx
          rcases List.mem_cons.mp hx with rfl | hx
          · simp only [decide_eq_true_eq]; omega
          · have := hl.1 x hx
            simp only [decide_eq_true_eq]; omega
        rw [List.filter_cons, hnone]
        simp [hk]
      · rw [List.filter_cons]
        simp [hk]
    · rw [List.filter_cons, List.filter_cons, ih hl.2]
      by_cases ha : a.priority = k <;> simp [ha]

theorem run_implement_calls (h : Host) (pn : String) (ep : Nat)
    (calls : List (GType × Option String × Int)) :
    ∀ (r : Registry) (p : GIOExtensionPoint),
      g_io_extension_point_lookup r pn = some ep → r.point ep = some p →
      (∀ c ∈ calls, p.required_type = 0 ∨ h.g_type_is_a c.1 p.required_type = true) →
      (calls.map (fun c => c.1)).Nodup →
      (∀ c ∈ calls, ∀ e ∈ p.extensions, e.type ≠ c.1) →
      prio_sorted p.extensions →
      ∃ p2, (run h r (calls.map (implement_call pn))).point ep = some p2 ∧
        p2.lazy_load_modules = p.lazy_load_modules ∧ prio_sorted p2.extensions ∧
        ∀ k, (p2.extensions.filter (fun e => e.priority = k)).map GIOExtension.registration =
          (p.extensions.filter (fun e => e.priority = k)).map GIOExtension.registration ++
            calls.filter (fun c => c.2.2 = k) := by
  induction calls with
  | nil =>
    intro r p _ hp _ _ _ hs
    exact ⟨p, hp, rfl, hs, fun k => by simp⟩
  | cons c rest ih =>
    intro r p hl hp hacc hnd hfresh hs
    have hf : p.extensions.find? (fun x => x.type = c.1) = none := by
      rw [List.find?_eq_none]
      intro x hx
      simpa using hfresh c (List.mem_cons_self _ _) x hx
    have himp := implement_new hl hp (hacc c (List.mem_cons_self _ _)) hf c.2.1 c.2.2
    have hp2 : r.extension_points[ep]? = some p := hp
    have hlt : ep < r.extension_points.length := by
      rcases List.getElem?_eq_some.mp hp2 with ⟨hlt, _⟩
      exact hlt
    rw [List.map_cons, List.nodup_cons] at hnd
    obtain ⟨p2, hp2', hlazy, hs2, hfilter⟩ := ih
      (g_io_extension_point_implement h r (some pn) c.1 c.2.1 c.2.2).2
      { p with
        extensions := g_list_insert_sorted p.extensions
          { addr := r.next_addr, name := c.2.1, type := c.1, priority := c.2.2 }
          extension_prio_compare }
      (by
        rw [himp]
        have hset := hash_lookup_set (p := p)
          (q := { p with
                  extensions := g_list_insert_sorted p.extensions
                    { addr := r.next_addr, name := c.2.1, type := c.1, priority := c.2.2 }
                    extension_prio_compare })
          hp2 rfl pn
        exact hset.trans hl)
      (by
        rw [himp]
        simp [Registry.point, hlt])
      (fun c2 hc2 => hacc c2 (List.mem_cons_of_mem _ hc2))
      hnd.2
      (by
        intro c2 hc2 e he
        rcases (mem_g_list_insert_sorted _ _ _ e).mp he with rfl | he
        · intro heq
          exact hnd.1 (List.mem_map.mpr ⟨c2, hc2, heq.symm⟩)
        · exact hfresh c2 (List.mem_cons_of_mem _ hc2) e he)
      (g_list_insert_sorted_sorted _ _ hs)
    refine ⟨p2, ?_, hlazy, hs2, fun k => ?_⟩
    · simpa [run, implement_call, Op.apply] using hp2'
    · rw [hfilter k]
      simp only [filter_g_list_insert_sorted _ _ k hs, List.map_append, List.append_assoc]
      congr 1
      by_cases hk : c.2.2 = k
      · subst hk
        simp [GIOExtension.registration]
      · simp [hk, GIOExtension.registration]

/-! ## One extension per type, and the required type -/

theorem steps_types_unique {h : Host} {G : GIOExtensionPoint → GType → Prop}
    {l l2 : List GIOExtensionPoint} (hs : Relation.ReflTransGen (PointsStep h G) l l2)
    (hl : ∀ p ∈ l, types_unique p.extensions) : ∀ p ∈ l2, types_unique p.extensions := by
  refine steps_pointwise (fun p => types_unique p.extensions)
    (fun _ => by simp [types_unique]) (fun _ _ _ hp => hp) ?_ hs hl
  intro p e _ hfind hp
  unfold types_unique at hp ⊢
  have hperm := (g_list_insert_sorted_perm p.extensions e extension_prio_compare).map
    (fun e => e.type)
  rw [hperm.nodup_iff, List.map_cons, List.nodup_cons]
  refine ⟨?_, hp⟩
  intro hmem
  obtain ⟨x, hx, hxe⟩ := List.mem_map.mp hmem
  rw [List.find?_eq_none] at hfind
  exact hfind x hx (by simpa using hxe)

theorem find_of_types_unique {l : List GIOExtension} (hl : types_unique l)
    {e : GIOExtension} (he : e ∈ l) :
    l.find? (fun x => x.type = e.type) = some e := by
  induction l with
  | nil => simp at he
  | cons a l ih =>
    unfold types_unique at hl ih
    rw [List.map_cons, List.nodup_cons] at hl
    rcases List.mem_cons.mp he with rfl | he
    · simp
    · have hne : a.type ≠ e.type := by
        intro heq
        exact hl.1 (List.mem_map.mpr ⟨e, he, heq.symm⟩)
      rw [List.find?_cons_of_neg _ (by simpa using hne)]
      exact ih hl.2 he

theorem apply_step_admissible (h : Host) (r : Registry) (op : Op)
    (ha : op.admissible h r = true) :
    PointsStep h (retype_guard h) r.extension_points (Op.apply h r op).extension_points := by
  cases op with
  | register name => exact register_step h _ r name
  | set_required_type ep t =>
    refine set_required_type_step h _ r ep t ?_
    intro p hp
    simp only [Op.admissible, hp, Bool.or_eq_true, beq_iff_eq, List.all_eq_true] at ha
    exact ha
  | implement epname type ename priority =>
    exact implement_step h _ r epname type ename priority

theorem step_required_type {h : Host} {l l2 : List GIOExtensionPoint}
    (hs : PointsStep h (retype_guard h) l l2) (hl : ∀ p ∈ l, required_type_respected h p) :
    ∀ p ∈ l2, required_type_respected h p := by
  refine step_pointwise (required_type_respected h) ?_ ?_ ?_ hs hl
  · intro name h0
    exact absurd rfl h0
  · intro p t hg _ h0 e he
    rcases hg with hg | hg
    · exact absurd hg h0
    · exact hg e he
  · intro p e hreq _ hp h0 x hx
    rcases (mem_g_list_insert_sorted _ _ _ x).mp hx with rfl | hx
    · rcases hreq with hreq | hreq
      · exact absurd hreq h0
      · exact hreq
    · exact hp h0 x hx

theorem run_admissible_required_type (h : Host) (ops : List Op) :
    ∀ r : Registry, run_admissible h r ops = true →
      (∀ p ∈ r.extension_points, required_type_respected h p) →
      ∀ p ∈ (run h r ops).extension_points, required_type_respected h p := by
  induction ops with
  | nil => intro r _ hr; exact hr
  | cons op rest ih =>
    intro r ha hr
    simp only [run_admissible, Bool.and_eq_true] at ha
    exact ih (Op.apply h r op) ha.2
      (step_required_type (apply_step_admissible h r op ha.1) hr)

/-! ## The claims about the registry -/

/-- C1: registering a name that was registered before, directly afterwards or after any
further registration calls, returns the pointer that the first registration returned and
changes nothing in the state (no point is created; required type, extension list and lazy
module list of every point stay as they are), and looking the name up gives that same
pointer. -/
theorem register_twice_identical (h : Host) (r : Registry) (name : String) (ops : List Op) :
    g_io_extension_point_register
        (run h (g_io_extension_point_register r name).2 ops) name =
      ((g_io_extension_point_register r name).1,
        run h (g_io_extension_point_register r name).2 ops) ∧
    g_io_extension_point_lookup
        (run h (g_io_extension_point_register r name).2 ops) name =
      some (g_io_extension_point_register r name).1 ∧
    g_io_extension_point_register (g_io_extension_point_register r name).2 name =
      g_io_extension_point_register r name := by
  have hl := steps_lookup (run_steps h (g_io_extension_point_register r name).2 ops)
    (register_lookup r name)
  refine ⟨register_of_lookup hl, hl, ?_⟩
  exact register_of_lookup (register_lookup r name)

/-- C2: in every state reached from the empty registry by register, set_required_type and
implement calls, the extension list of every point is in non-increasing priority order,
and so is the list that `g_io_extension_point_get_extensions` hands out for any
pointer. -/
theorem extensions_sorted_by_priority (h : Host) (ops : List Op) :
    (∀ p ∈ (run h Registry.empty ops).extension_points, prio_sorted p.extensions) ∧
    ∀ ep, prio_sorted
      (g_io_extension_point_get_extensions h (run h Registry.empty ops) ep).1 := by
  have hinv : ∀ p ∈ (run h Registry.empty ops).extension_points, prio_sorted p.extensions :=
    steps_sorted (run_steps h Registry.empty ops) (by simp [Registry.empty])
  refine ⟨hinv, fun ep => ?_⟩
  have hinv2 := steps_sorted (lazy_load_modules_steps h (run h Registry.empty ops) ep) hinv
  unfold g_io_extension_point_get_extensions
  simp only
  cases hp : (lazy_load_modules h (run h Registry.empty ops) ep).point ep with
  | none => simp [prio_sorted]
  | some p => exact hinv2 p (List.getElem?_mem hp)

/-- C3: let implement calls with pairwise distinct types, all accepted, be made at a
registered point whose list is sorted, holds none of these types yet and has no lazy
modules.  Then the list that `g_io_extension_point_get_extensions` returns is in
non-increasing priority order and, for every priority, its extensions of that priority
are the ones that were there before, followed by the calls of that priority in the order
in which they were made.  Registering priorities 5, 10, 10, 1 as "a", "b", "c", "d" at a
new point gives "b", "c", "a", "d". -/
theorem equal_priority_in_registration_order :
    (∀ (h : Host) (r : Registry) (pn : String) (ep : Nat) (p : GIOExtensionPoint)
      (calls : List (GType × Option String × Int)),
      g_io_extension_point_lookup r pn = some ep → r.point ep = some p →
      prio_sorted p.extensions → p.lazy_load_modules = [] →
      (∀ c ∈ calls, p.required_type = 0 ∨ h.g_type_is_a c.1 p.required_type = true) →
      (calls.map (fun c => c.1)).Nodup →
      (∀ c ∈ calls, ∀ e ∈ p.extensions, e.type ≠ c.1) →
      prio_sorted (g_io_extension_point_get_extensions h
        (run h r (calls.map (implement_call pn))) ep).1 ∧
      ∀ k, ((g_io_extension_point_get_extensions h
          (run h r (calls.map (implement_call pn))) ep).1.filter
            (fun e => e.priority = k)).map GIOExtension.registration =
        (p.extensions.filter (fun e => e.priority = k)).map GIOExtension.registration ++
          calls.filter (fun c => c.2.2 = k)) ∧
    (g_io_extension_point_get_extensions Host.plain
      (run Host.plain (g_io_extension_point_register Registry.empty "P").2
        [implement_call "P" (11, some "a", 5), implement_call "P" (12, some "b", 10),
         implement_call "P" (13, some "c", 10), implement_call "P" (14, some "d", 1)])
      0).1.map GIOExtension.registration =
      [(12, some "b", 10), (13, some "c", 10), (11, some "a", 5), (14, some "d", 1)] := by
  constructor
  · intro h r pn ep p calls hl hp hsorted hlazy hacc hnd hfresh
    obtain ⟨p2, hp2, hlazy2, hs2, hfilter⟩ := run_implement_calls h pn ep calls r p hl hp
      hacc hnd hfresh hsorted
    have hload : lazy_load_modules h (run h r (calls.map (implement_call pn))) ep =
        run h r (calls.map (implement_call pn)) := by
      apply lazy_load_modules_nil
      intro q hq
      rw [hp2] at hq
      cases hq
      rw [hlazy2, hlazy]
    simp only [g_io_extension_point_get_extensions, hload, hp2]
    exact ⟨hs2, hfilter⟩
  · decide

/-- C3, at the four calls with priorities 5, 10, 10, 1: the priority-10 extensions come
out as "b" then "c". -/
theorem equal_priority_in_registration_order_witness :
    g_io_extension_point_lookup (g_io_extension_point_register Registry.empty "P").2 "P" =
      some 0 ∧
    (demo_calls.map (fun c => c.1)).Nodup ∧
    ((g_io_extension_point_get_extensions Host.plain
        (run Host.plain (g_io_extension_point_register Registry.empty "P").2
          (demo_calls.map (implement_call "P"))) 0).1.filter
          (fun e => e.priority = 10)).map GIOExtension.registration =
      [(12, some "b", 10), (13, some "c", 10)] :=
  ⟨by decide, by decide,
   ((equal_priority_in_registration_order.1 Host.plain
      (g_io_extension_point_register Registry.empty "P").2 "P" 0
      { required_type := 0, name := "P", extensions := [], lazy_load_modules := [] }
      demo_calls (by decide) (by decide) (by decide) rfl (by decide) (by decide)
      (by decide)).2 10).trans (by decide)⟩

/-- C4 as stated fails: in `retyped_registry` type 5 is implemented at "P", yet a further
implement call with type 5 is rejected instead of returning that extension. -/
theorem reimplement_rejected_after_retype :
    g_io_extension_point_lookup retyped_registry "P" = some 0 ∧
    (∃ e ∈ (g_io_extension_point_get_extensions Host.plain retyped_registry 0).1,
      e.type = 5) ∧
    (g_io_extension_point_implement Host.plain retyped_registry (some "P") 5 (some "a")
      1).1 = none := by
  decide

/-- C4, amended: in every state reached from the empty registry by register,
set_required_type and implement calls, no extension list holds two extensions of one type;
and if `e` is in the list of the point named `pn` and its type passes the point's
required-type check (no required type, or the type satisfies it), then an implement call
with that type, whatever extension name and priority it passes, returns `e` itself and
leaves the state as it is. -/
theorem reimplement_returns_existing (h : Host) (ops : List Op) :
    (∀ p ∈ (run h Registry.empty ops).extension_points, types_unique p.extensions) ∧
    ∀ (pn : String) (ep : Nat) (p : GIOExtensionPoint) (e : GIOExtension)
      (ename : Option String) (priority : Int),
      g_io_extension_point_lookup (run h Registry.empty ops) pn = some ep →
      (run h Registry.empty ops).point ep = some p → e ∈ p.extensions →
      (p.required_type = 0 ∨ h.g_type_is_a e.type p.required_type = true) →
      g_io_extension_point_implement h (run h Registry.empty ops) (some pn) e.type ename
        priority = (some e, run h Registry.empty ops) := by
  have hinv : ∀ p ∈ (run h Registry.empty ops).extension_points,
      types_unique p.extensions :=
    steps_types_unique (run_steps h Registry.empty ops) (by simp [Registry.empty])
  refine ⟨hinv, ?_⟩
  intro pn ep p e ename priority hl hp he hok
  exact implement_existing hl hp hok
    (find_of_types_unique (hinv p (List.getElem?_mem hp)) he) ename priority

/-- C4 amended, at a concrete state: "P" holds type 5 as "a" with priority 1; implementing
type 5 again as "z" with priority 9 returns the extension "a" and changes nothing. -/
theorem reimplement_returns_existing_witness :
    g_io_extension_point_implement Host.plain
        (run Host.plain Registry.empty
          [Op.register "P", Op.implement (some "P") 5 (some "a") 1])
        (some "P") 5 (some "z") 9 =
      (some { addr := 1, name := some "a", type := 5, priority := 1 },
       run Host.plain Registry.empty
          [Op.register "P", Op.implement (some "P") 5 (some "a") 1]) :=
  (reimplement_returns_existing Host.plain
      [Op.register "P", Op.implement (some "P") 5 (some "a") 1]).2 "P" 0
    { required_type := 0, name := "P",
      extensions := [{ addr := 1, name := some "a", type := 5, priority := 1 }],
      lazy_load_modules := [] }
    { addr := 1, name := some "a", type := 5, priority := 1 } (some "z") 9
    (by decide) (by decide) (by decide) (by decide)

/-- C5: `g_io_extension_point_implement` returns `NULL` exactly when there is no
registered point of the given name (which includes a `NULL` name), or the point has a
required type and the given type does not satisfy it; every non-`NULL` result is an
extension of the given type and is in the list of the point of that name afterwards. -/
theorem implement_null_iff (h : Host) (r : Registry) (epname : Option String)
    (type : GType) (ename : Option String) (priority : Int) :
    ((g_io_extension_point_implement h r epname type ename priority).1 = none ↔
      (∀ n, epname = some n → g_io_extension_point_lookup r n = none) ∨
      ∃ n ep p, epname = some n ∧ g_io_extension_point_lookup r n = some ep ∧
        r.point ep = some p ∧ p.required_type ≠ 0 ∧
        h.g_type_is_a type p.required_type = false) ∧
    ∀ e, (g_io_extension_point_implement h r epname type ename priority).1 = some e →
      e.type = type ∧
      ∃ n ep p, epname = some n ∧
        g_io_extension_point_lookup
          (g_io_extension_point_implement h r epname type ename priority).2 n = some ep ∧
        (g_io_extension_point_implement h r epname type ename priority).2.point ep =
          some p ∧
        e ∈ p.extensions := by
  cases epname with
  | none => simp [g_io_extension_point_implement]
  | some n =>
    cases hl : g_io_extension_point_lookup r n with
    | none => simp [implement_unregistered hl, hl]
    | some ep =>
      obtain ⟨p, hp, _⟩ := lookup_point hl
      have hp2 : r.extension_points[ep]? = some p := hp
      by_cases hrej : p.required_type ≠ 0 ∧ h.g_type_is_a type p.required_type = false
      · rw [implement_rejected hl hp hrej.1 hrej.2]
        refine ⟨⟨fun _ => Or.inr ⟨n, ep, p, rfl, hl, hp, hrej.1, hrej.2⟩, fun _ => rfl⟩, ?_⟩
        intro e he
        cases he
      · have hok : p.required_type = 0 ∨ h.g_type_is_a type p.required_type = true := by
          by_cases h0 : p.required_type = 0
          · exact Or.inl h0
          · right
            simp only [not_and, Bool.not_eq_false] at hrej
            exact hrej h0
        have hnot : ¬ ((∀ m, some n = some m → g_io_extension_point_lookup r m = none) ∨
            ∃ m ep2 p2, some n = some m ∧ g_io_extension_point_lookup r m = some ep2 ∧
              r.point ep2 = some p2 ∧ p2.required_type ≠ 0 ∧
              h.g_type_is_a type p2.required_type = false) := by
          rintro (hnone | ⟨m, ep2, p2, hm, hl2, hp2', h0, hno⟩)
          · rw [hnone n rfl] at hl
            cases hl
          · obtain rfl : n = m := by simpa using hm
            rw [hl] at hl2
            obtain rfl : ep = ep2 := by simpa using hl2
            rw [hp] at hp2'
            obtain rfl : p = p2 := by simpa using hp2'
            exact hrej ⟨h0, hno⟩
        cases hf : p.extensions.find? (fun x => x.type = type) with
        | some e0 =>
          rw [implement_existing hl hp hok hf]
          refine ⟨⟨fun hc => (by cases hc), fun hc => absurd hc hnot⟩, ?_⟩
          intro e he
          obtain rfl : e0 = e := by simpa using he
          refine ⟨by simpa using List.find?_some hf, n, ep, p, rfl, hl, hp, ?_⟩
          exact List.mem_of_find?_eq_some hf
        | none =>
          rw [implement_new hl hp hok hf]
          refine ⟨⟨fun hc => (by cases hc), fun hc => absurd hc hnot⟩, ?_⟩
          intro e he
          obtain rfl : _ = e := by simpa using he
          have hlt : ep < r.extension_points.length := by
            rcases List.getElem?_eq_some.mp hp2 with ⟨hlt, _⟩
            exact hlt
          have hset := hash_lookup_set (p := p)
            (q := { p with
                    extensions := g_list_insert_sorted p.extensions
                      { addr := r.next_addr, name := ename, type := type,
                        priority := priority }
                      extension_prio_compare })
            hp2 rfl n
          refine ⟨rfl, n, ep,
            { p with
              extensions := g_list_insert_sorted p.extensions
                { addr := r.next_addr, name := ename, type := type, priority := priority }
                extension_prio_compare },
            rfl, hset.trans hl, ?_, ?_⟩
          · simp only [Registry.point, List.getElem?_set_self hlt]
          · exact (mem_g_list_insert_sorted _ _ _ _).mpr (Or.inl rfl)

/-- C6: an implement call that returns `NULL` leaves the whole state as it was; so every
query gives what it gave before: the extension lists (with no extension added for the
rejected type) and the lookup of every name, which for an unregistered name is still
not-found. -/
theorem rejected_implement_changes_nothing (h : Host) (r : Registry)
    (epname : Option String) (type : GType) (ename : Option String) (priority : Int)
    (hnull : (g_io_extension_point_implement h r epname type ename priority).1 = none) :
    (g_io_extension_point_implement h r epname type ename priority).2 = r ∧
    (∀ ep, g_io_extension_point_get_extensions h
        (g_io_extension_point_implement h r epname type ename priority).2 ep =
      g_io_extension_point_get_extensions h r ep) ∧
    ∀ n, g_io_extension_point_lookup
        (g_io_extension_point_implement h r epname type ename priority).2 n =
      g_io_extension_point_lookup r n := by
  have hstate : (g_io_extension_point_implement h r epname type ename priority).2 = r := by
    cases epname with
    | none => simp [g_io_extension_point_implement]
    | some n =>
      cases hl : g_io_extension_point_lookup r n with
      | none => rw [implement_unregistered hl]
      | some ep =>
        obtain ⟨p, hp, _⟩ := lookup_point hl
        by_cases hrej : p.required_type ≠ 0 ∧ h.g_type_is_a type p.required_type = false
        · rw [implement_rejected hl hp hrej.1 hrej.2]
        · have hok : p.required_type = 0 ∨ h.g_type_is_a type p.required_type = true := by
            by_cases h0 : p.required_type = 0
            · exact Or.inl h0
            · right
              simp only [not_and, Bool.not_eq_false] at hrej
              exact hrej h0
          cases hf : p.extensions.find? (fun x => x.type = type) with
          | some e0 => rw [implement_existing hl hp hok hf]
          | none =>
            rw [implement_new hl hp hok hf] at hnull
            cases hnull
  rw [hstate]
  exact ⟨rfl, fun _ => rfl, fun _ => rfl⟩

/-- C6, at a call that offers type 5 to a point requiring type 7: the list of the point is
as empty as before. -/
theorem rejected_implement_changes_nothing_witness :
    (g_io_extension_point_implement Host.plain strict_registry (some "P") 5 (some "a")
      1).1 = none ∧
    (g_io_extension_point_get_extensions Host.plain
      (g_io_extension_point_implement Host.plain strict_registry (some "P") 5 (some "a")
        1).2 0).1 = [] :=
  ⟨by decide,
   (congrArg Prod.fst
      ((rejected_implement_changes_nothing Host.plain strict_registry (some "P") 5
        (some "a") 1 (by decide)).2.1 0)).trans (by decide)⟩

/-- C7 as stated fails: `retyped_registry` is reached by register, implement and
set_required_type calls; its point has the required type 7 and holds an extension of
type 5, which does not satisfy 7. -/
theorem required_type_not_invariant :
    ∃ p ∈ retyped_registry.extension_points, p.required_type ≠ 0 ∧
      ∃ e ∈ p.extensions, Host.plain.g_type_is_a e.type p.required_type = false := by
  decide

/-- C7, amended: in every state reached from the empty registry by register,
set_required_type and implement calls of which every set_required_type call sets type 0 or
a type that all extensions already in the list of that point satisfy, every point with a
required type has only extensions that satisfy it. -/
theorem required_type_respected_when_set_first (h : Host) (ops : List Op)
    (hadm : run_admissible h Registry.empty ops = true) :
    ∀ p ∈ (run h Registry.empty ops).extension_points, required_type_respected h p :=
  run_admissible_required_type h ops Registry.empty hadm (by simp [Registry.empty])

/-- C7 amended, at a run that sets the required type before the extensions arrive: the
offer of type 5 is turned away, type 7 is taken. -/
theorem required_type_respected_when_set_first_witness :
    run_admissible Host.plain Registry.empty
      [Op.register "P", Op.set_required_type 0 7, Op.implement (some "P") 5 (some "a") 1,
       Op.implement (some "P") 7 (some "b") 2] = true ∧
    ∀ p ∈ (run Host.plain Registry.empty
      [Op.register "P", Op.set_required_type 0 7, Op.implement (some "P") 5 (some "a") 1,
       Op.implement (some "P") 7 (some "b") 2]).extension_points,
      required_type_respected Host.plain p :=
  ⟨by decide,
   required_type_respected_when_set_first Host.plain
    [Op.register "P", Op.set_required_type 0 7, Op.implement (some "P") 5 (some "a") 1,
     Op.implement (some "P") 7 (some "b") 2] (by decide)⟩

/-! ## The resolver: which candidates are tried -/

theorem Trial.nil (h : Host) (vf : GIOModuleVerifyFunc) (st : Resolver) :
    Trial h vf st st [] := by
  refine ⟨rfl, rfl, fun _ ha => ha, by simp, ?_⟩
  cases vf <;> simp [verify_calls]

theorem verify_calls_append (h : Host) (vf : GIOModuleVerifyFunc)
    (l1 l2 : List GIOExtension) :
    verify_calls h vf (l1 ++ l2) = verify_calls h vf l1 ++ verify_calls h vf l2 := by
  cases vf <;> simp [verify_calls]

theorem Trial.trans {h : Host} {vf : GIOModuleVerifyFunc} {s1 s2 s3 : Resolver}
    {t1 t2 : List GIOExtension} (h1 : Trial h vf s1 s2 t1) (h2 : Trial h vf s2 s3 t2) :
    Trial h vf s1 s3 (t1 ++ t2) := by
  obtain ⟨a1, b1, c1, d1, e1⟩ := h1
  obtain ⟨a2, b2, c2, d2, e2⟩ := h2
  refine ⟨a2.trans a1, b2.trans b1, fun a ha => c2 a (c1 a ha), ?_, ?_⟩
  · rw [d2, d1]; simp
  · rw [e2, e1, verify_calls_append]; simp

theorem try_implementation_trial (h : Host) (vf : GIOModuleVerifyFunc) (st : Resolver)
    (e : GIOExtension) : Trial h vf st (try_implementation h st e vf).2 [e] := by
  unfold try_implementation Trial verify_calls
  by_cases hi : h.g_type_is_a e.type h.G_TYPE_INITABLE = true
  · by_cases hn : h.g_initable_init e.type = true
    · cases vf <;> simp [hi, hn] <;> exact fun a ha => Or.inr ha
    · cases vf <;> simp [hi, hn]
  · cases vf with
    | none => simp [hi]; exact fun a ha => Or.inr ha
    | some f =>
      by_cases hf : f { addr := st.next_object, type := e.type } = true
      · simp [hi, hf]; exact fun a ha => Or.inr ha
      · simp [hi, hf]

theorem try_implementation_result (h : Host) (vf : GIOModuleVerifyFunc) (st : Resolver)
    (e : GIOExtension) (hv : verdict_by_type vf) :
    (usable h vf e = true →
      ∃ o, (try_implementation h st e vf).1 = some o ∧ o.type = e.type ∧
        o.addr ∈ (try_implementation h st e vf).2.live) ∧
    (usable h vf e = false → (try_implementation h st e vf).1 = none) := by
  unfold try_implementation usable
  by_cases hi : h.g_type_is_a e.type h.G_TYPE_INITABLE = true
  · by_cases hn : h.g_initable_init e.type = true <;> simp [hi, hn]
  · cases vf with
    | none => simp [hi]
    | some f =>
      have hsame : f { addr := st.next_object, type := e.type } =
          f { addr := 0, type := e.type } := hv f rfl _ _ rfl
      by_cases hf : f { addr := 0, type := e.type } = true
      · simp [hi, hf, hsame]
      · simp [hi, hf, hsame]

/-- The defining equations of `attempts`. -/
theorem attempts_cons (h : Host) (vf : GIOModuleVerifyFunc) (e : GIOExtension)
    (l : List GIOExtension) :
    attempts h vf (e :: l) = if usable h vf e then [e] else e :: attempts h vf l := rfl

/-- The loop tries the remaining candidates in order and returns an instance of the first
usable one. -/
theorem try_extensions_spec (h : Host) (vf : GIOModuleVerifyFunc)
    (preferred : Option GIOExtension) (hv : verdict_by_type vf) (l : List GIOExtension) :
    ∀ st : Resolver,
      Trial h vf st (try_extensions h vf preferred st l).2
        (attempts h vf (remaining preferred l)) ∧
      (try_extensions h vf preferred st l).1.map (fun o => o.type) =
        ((remaining preferred l).find? (usable h vf)).map (fun e => e.type) ∧
      ∀ o, (try_extensions h vf preferred st l).1 = some o →
        o.addr ∈ (try_extensions h vf preferred st l).2.live := by
  induction l with
  | nil =>
    intro st
    refine ⟨Trial.nil h vf st, rfl, ?_⟩
    intro o ho
    simp [try_extensions] at ho
  | cons e rest ih =>
    intro st
    by_cases hp : preferred.map (fun c => c.addr) = some e.addr
    · have hrem : remaining preferred (e :: rest) = remaining preferred rest := by
        simp [remaining, hp]
      have htry : try_extensions h vf preferred st (e :: rest) =
          try_extensions h vf preferred st rest := by
        simp [try_extensions, hp]
      rw [hrem, htry]
      exact ih st
    · have hrem : remaining preferred (e :: rest) = e :: remaining preferred rest := by
        unfold remaining
        exact List.filter_cons_of_pos (by simpa using hp)
      have htrial := try_implementation_trial h vf st e
      have hres := try_implementation_result h vf st e hv
      rw [hrem, attempts_cons]
      cases hu : usable h vf e with
      | true =>
        obtain ⟨o, ho, hot, hlive⟩ := hres.1 hu
        have htry : try_extensions h vf preferred st (e :: rest) =
            (some o, (try_implementation h st e vf).2) := by
          simp only [try_extensions, hp, if_false, ho]
        rw [htry]
        refine ⟨by simpa using htrial, by simp [List.find?, hu, hot], ?_⟩
        intro o2 ho2
        obtain rfl : o = o2 := by simpa using ho2
        exact hlive
      | false =>
        have hnone := hres.2 hu
        have htry : try_extensions h vf preferred st (e :: rest) =
            try_extensions h vf preferred (try_implementation h st e vf).2 rest := by
          simp only [try_extensions, hp, if_false, hnone]
        rw [htry]
        obtain ⟨ht, hr, hl⟩ := ih (try_implementation h st e vf).2
        refine ⟨?_, ?_, hl⟩
        · simpa using htrial.trans ht
        · rw [hr]
          simp [List.find?, hu]

/-! ## The resolver: the cache table -/

theorem lookup_extended_some {t : List (String × Option GObject)} {key : String} {i : Nat}
    (hl : g_hash_table_lookup_extended t key = some i) :
    ∃ cell, t[i]? = some (key, cell) := by
  induction t generalizing i with
  | nil => simp [g_hash_table_lookup_extended] at hl
  | cons a t ih =>
    obtain ⟨k, c⟩ := a
    unfold g_hash_table_lookup_extended at hl
    split at hl
    · rename_i hk
      obtain rfl : 0 = i := by simpa using hl
      exact ⟨c, by simp [hk]⟩
    · cases hr : g_hash_table_lookup_extended t key with
      | none => simp [hr] at hl
      | some j =>
        simp [hr] at hl
        subst hl
        obtain ⟨cell, hc⟩ := ih hr
        exact ⟨cell, by simpa using hc⟩

theorem lookup_extended_append {t : List (String × Option GObject)} {key : String}
    (hl : g_hash_table_lookup_extended t key = none) (cell : Option GObject) :
    g_hash_table_lookup_extended (t ++ [(key, cell)]) key = some t.length := by
  induction t with
  | nil => simp [g_hash_table_lookup_extended]
  | cons a t ih =>
    obtain ⟨k, c⟩ := a
    unfold g_hash_table_lookup_extended at hl
    split at hl
    · cases hl
    · rename_i hk
      have hr : g_hash_table_lookup_extended t key = none := by
        cases hr : g_hash_table_lookup_extended t key with
        | none => rfl
        | some j => simp [hr] at hl
      have hc : g_hash_table_lookup_extended ((k, c) :: t ++ [(key, cell)]) key =
          (g_hash_table_lookup_extended (t ++ [(key, cell)]) key).map (· + 1) := by
        simp [g_hash_table_lookup_extended, hk]
      rw [hc, ih hr]
      simp

theorem lookup_extended_set {t : List (String × Option GObject)} {i : Nat} {k : String}
    {c : Option GObject} (hp : t[i]? = some (k, c)) (c2 : Option GObject) (key : String) :
    g_hash_table_lookup_extended (t.set i (k, c2)) key =
      g_hash_table_lookup_extended t key := by
  induction t generalizing i with
  | nil => simp at hp
  | cons a t ih =>
    cases i with
    | zero =>
      obtain rfl : a = (k, c) := by simpa using hp
      simp [g_hash_table_lookup_extended]
    | succ j =>
      obtain ⟨k0, c0⟩ := a
      have hp2 : t[j]? = some (k, c) := by simpa using hp
      simp [g_hash_table_lookup_extended, ih hp2]

theorem keys_set {t : List (String × Option GObject)} {i : Nat} {k : String}
    {c : Option GObject} (hp : t[i]? = some (k, c)) (c2 : Option GObject) :
    (t.set i (k, c2)).map Prod.fst = t.map Prod.fst := by
  induction t generalizing i with
  | nil => simp at hp
  | cons a t ih =>
    cases i with
    | zero =>
      obtain rfl : a = (k, c) := by simpa using hp
      simp
    | succ j =>
      have hp2 : t[j]? = some (k, c) := by simpa using hp
      simp [ih hp2]

/-- What the probe reports is a cell stored under the key, and an object only if that
cell holds it and it is alive. -/
theorem cache_probe_some {st : Resolver} {name : String} {o : GObject}
    (hp : (cache_probe st name).2 = some o) :
    ∃ t i, st.default_modules = some t ∧ g_hash_table_lookup_extended t name = some i ∧
      t[i]? = some (name, some o) ∧ o.addr ∈ st.live ∧ (cache_probe st name).1 = some i := by
  unfold cache_probe at hp ⊢
  cases ht : st.default_modules with
  | none => simp [ht] at hp
  | some t =>
    cases hl : g_hash_table_lookup_extended t name with
    | none => simp [ht, hl] at hp
    | some i =>
      obtain ⟨cell, hc⟩ := lookup_extended_some hl
      simp only [ht, hl, hc, g_weak_ref_get] at hp
      cases cell with
      | none => simp at hp
      | some o2 =>
        by_cases hlive : o2.addr ∈ st.live
        · simp only [hlive, if_true] at hp
          obtain rfl : o2 = o := by simpa using hp
          exact ⟨t, i, rfl, hl, hc, hlive, by simp [hl]⟩
        · simp [hlive] at hp

/-- The probe of a table in which the cell under the key holds a live object. -/
theorem cache_probe_of_entry {st : Resolver} {name : String} {t : List (String × Option GObject)}
    {i : Nat} {o : GObject} (ht : st.default_modules = some t)
    (hl : g_hash_table_lookup_extended t name = some i) (hc : t[i]? = some (name, some o))
    (hlive : o.addr ∈ st.live) : cache_probe st name = (some i, some o) := by
  simp [cache_probe, ht, hl, hc, g_weak_ref_get, hlive]

/-! ## The resolver: what never touches the cache table -/

theorem try_implementation_frame (h : Host) (vf : GIOModuleVerifyFunc) (st : Resolver)
    (e : GIOExtension) :
    (try_implementation h st e vf).2.default_modules = st.default_modules ∧
    ∀ o, (try_implementation h st e vf).1 = some o →
      o.addr ∈ (try_implementation h st e vf).2.live := by
  unfold try_implementation
  by_cases hi : h.g_type_is_a e.type h.G_TYPE_INITABLE = true
  · by_cases hn : h.g_initable_init e.type = true <;> simp [hi, hn]
  · cases vf with
    | none => simp [hi]
    | some f =>
      by_cases hf : f { addr := st.next_object, type := e.type } = true <;> simp [hi, hf]

theorem try_extensions_frame (h : Host) (vf : GIOModuleVerifyFunc)
    (preferred : Option GIOExtension) (l : List GIOExtension) :
    ∀ st : Resolver,
      (try_extensions h vf preferred st l).2.default_modules = st.default_modules ∧
      ∀ o, (try_extensions h vf preferred st l).1 = some o →
        o.addr ∈ (try_extensions h vf preferred st l).2.live := by
  induction l with
  | nil =>
    intro st
    simp [try_extensions]
  | cons e rest ih =>
    intro st
    unfold try_extensions
    split
    · exact ih st
    · have hf := try_implementation_frame h vf st e
      cases hq : (try_implementation h st e vf).1 with
      | some o =>
        simp only
        refine ⟨hf.1, fun o2 ho2 => ?_⟩
        obtain rfl : o = o2 := by simpa using ho2
        exact hf.2 o hq
      | none =>
        simp only
        have hi := ih (try_implementation h st e vf).2
        exact ⟨hi.1.trans hf.1, hi.2⟩

theorem print_help_frame (h : Host) (st : Resolver) (ep : Nat) :
    (print_help h st ep).default_modules = st.default_modules ∧
    (print_help h st ep).live = st.live := by
  unfold print_help
  simp only
  split <;> exact ⟨rfl, rfl⟩

theorem resolve_with_frame (h : Host) (st : Resolver) (ep : Nat)
    (use_this : Option String) (vf : GIOModuleVerifyFunc) :
    (resolve_with h st ep use_this vf).2.default_modules = st.default_modules ∧
    ∀ o, (resolve_with h st ep use_this vf).1 = some o →
      o.addr ∈ (resolve_with h st ep use_this vf).2.live := by
  unfold resolve_with
  cases use_this with
  | none =>
    simp only
    exact try_extensions_frame h vf none _ _
  | some name =>
    simp only
    cases hq : (g_io_extension_point_get_extension_by_name h st.registry ep name).1 with
    | none =>
      simp only
      exact try_extensions_frame h vf none _ _
    | some preferred =>
      simp only
      have hf := try_implementation_frame h vf
        { st with
          registry := (g_io_extension_point_get_extension_by_name h st.registry ep name).2 }
        preferred
      cases ht : (try_implementation h
          { st with
            registry :=
              (g_io_extension_point_get_extension_by_name h st.registry ep name).2 }
          preferred vf).1 with
      | some impl =>
        simp only
        refine ⟨hf.1, fun o2 ho2 => ?_⟩
        obtain rfl : impl = o2 := by simpa using ho2
        exact hf.2 impl ht
      | none =>
        simp only
        have hx := try_extensions_frame h vf (some preferred)
          (g_io_extension_point_get_extensions h (try_implementation h
            { st with
              registry :=
                (g_io_extension_point_get_extension_by_name h st.registry ep name).2 }
            preferred vf).2.registry ep).1
          { (try_implementation h
              { st with
                registry :=
                  (g_io_extension_point_get_extension_by_name h st.registry ep name).2 }
              preferred vf).2 with
            registry := (g_io_extension_point_get_extensions h (try_implementation h
              { st with
                registry :=
                  (g_io_extension_point_get_extension_by_name h st.registry ep name).2 }
              preferred vf).2.registry ep).2 }
        exact ⟨hx.1.trans hf.1, hx.2⟩

theorem resolve_default_frame (h : Host) (st : Resolver) (ep : Nat)
    (envvar : Option String) (vf : GIOModuleVerifyFunc) :
    (resolve_default h st ep envvar vf).2.default_modules = st.default_modules ∧
    ∀ o, (resolve_default h st ep envvar vf).1 = some o →
      o.addr ∈ (resolve_default h st ep envvar vf).2.live := by
  have hdm : (if envvar.bind h.g_getenv = some "help" then print_help h st ep
      else st).default_modules = st.default_modules := by
    split
    · exact (print_help_frame h st ep).1
    · rfl
  unfold resolve_default
  have hw := resolve_with_frame h
    (if envvar.bind h.g_getenv = some "help" then print_help h st ep else st) ep
    (if envvar.bind h.g_getenv = some "help" then none else envvar.bind h.g_getenv) vf
  exact ⟨hw.1.trans hdm, hw.2⟩

/-! ## The resolver: the path past the cache -/

theorem get_default_cached {h : Host} {st : Resolver} {name : String} {o : GObject}
    (hc : (cache_probe st name).2 = some o) (envvar : Option String)
    (vf : GIOModuleVerifyFunc) :
    _g_io_module_get_default h st name envvar vf = (some o, st) := by
  simp only [_g_io_module_get_default, hc]

theorem get_default_unregistered {h : Host} {st : Resolver} {name : String}
    (hc : (cache_probe st name).2 = none)
    (hep : g_io_extension_point_lookup (h.ensure_loaded st.registry) name = none)
    (envvar : Option String) (vf : GIOModuleVerifyFunc) :
    _g_io_module_get_default h st name envvar vf = (none, after_ensure_loaded h st) := by
  have hep2 : g_io_extension_point_lookup (after_ensure_loaded h st).registry name = none :=
    hep
  simp only [_g_io_module_get_default, hc, hep2]

theorem get_default_uncached {h : Host} {st : Resolver} {name : String} {ep : Nat}
    (hc : (cache_probe st name).2 = none)
    (hep : g_io_extension_point_lookup (h.ensure_loaded st.registry) name = some ep)
    (envvar : Option String) (vf : GIOModuleVerifyFunc) :
    _g_io_module_get_default h st name envvar vf =
      ((resolve_default h (after_ensure_loaded h st) ep envvar vf).1,
       store_default (resolve_default h (after_ensure_loaded h st) ep envvar vf).2
         (cache_probe st name).1 name
         (resolve_default h (after_ensure_loaded h st) ep envvar vf).1) := by
  have hep2 : g_io_extension_point_lookup (after_ensure_loaded h st).registry name =
      some ep := hep
  simp only [_g_io_module_get_default, hc, hep2]

theorem store_default_fields (st : Resolver) (i : Option Nat) (name : String)
    (impl : Option GObject) :
    (store_default st i name impl).live = st.live ∧
    (store_default st i name impl).constructed = st.constructed ∧
    (store_default st i name impl).verified = st.verified ∧
    (store_default st i name impl).registry = st.registry := by
  cases i <;> exact ⟨rfl, rfl, rfl, rfl⟩

theorem remaining_none (l : List GIOExtension) : remaining none l = l := by
  simp [remaining]

theorem resolve_no_override {h : Host} {envvar : Option String}
    (henv : envvar.bind h.g_getenv = none) (st : Resolver) (ep : Nat)
    (vf : GIOModuleVerifyFunc) :
    resolve_default h st ep envvar vf =
      try_extensions h vf none
        { st with registry := (g_io_extension_point_get_extensions h st.registry ep).2 }
        (g_io_extension_point_get_extensions h st.registry ep).1 := by
  simp [resolve_default, resolve_with, henv]

/-- The uncached call without an override: the list is tried in order. -/
theorem uncached_no_override {h : Host} {st : Resolver} {name : String} {ep : Nat}
    {envvar : Option String} {vf : GIOModuleVerifyFunc} (hv : verdict_by_type vf)
    (henv : envvar.bind h.g_getenv = none) (hc : (cache_probe st name).2 = none)
    (hep : g_io_extension_point_lookup (h.ensure_loaded st.registry) name = some ep) :
    (_g_io_module_get_default h st name envvar vf).1.map (fun o => o.type) =
      ((g_io_extension_point_get_extensions h (h.ensure_loaded st.registry) ep).1.find?
        (usable h vf)).map (fun e => e.type) ∧
    (∀ o, (_g_io_module_get_default h st name envvar vf).1 = some o →
      o.addr ∈ (_g_io_module_get_default h st name envvar vf).2.live) ∧
    (_g_io_module_get_default h st name envvar vf).2.constructed.map (fun o => o.type) =
      st.constructed.map (fun o => o.type) ++
        (attempts h vf (g_io_extension_point_get_extensions h
          (h.ensure_loaded st.registry) ep).1).map (fun e => e.type) ∧
    (_g_io_module_get_default h st name envvar vf).2.verified.map (fun o => o.type) =
      st.verified.map (fun o => o.type) ++
        (verify_calls h vf (attempts h vf (g_io_extension_point_get_extensions h
          (h.ensure_loaded st.registry) ep).1)).map (fun e => e.type) := by
  rw [get_default_uncached hc hep, resolve_no_override henv]
  obtain ⟨⟨_, _, _, hcon, hver⟩, hres, hlive⟩ := try_extensions_spec h vf none hv
    (g_io_extension_point_get_extensions h (after_ensure_loaded h st).registry ep).1
    { after_ensure_loaded h st with
      registry :=
        (g_io_extension_point_get_extensions h (after_ensure_loaded h st).registry ep).2 }
  rw [remaining_none] at hcon hver hres
  simp only [store_default_fields]
  exact ⟨hres, hlive, hcon, hver⟩

theorem resolve_override {h : Host} {envvar : Option String} {n : String}
    (henv : envvar.bind h.g_getenv = some n) (hn : n ≠ "help") (st : Resolver) (ep : Nat)
    (vf : GIOModuleVerifyFunc) :
    resolve_default h st ep envvar vf = resolve_with h st ep (some n) vf := by
  simp [resolve_default, henv, hn]

/-- The override names `c`: `c` is tried first, and only if it fails the others are. -/
theorem resolve_with_preferred {h : Host} {vf : GIOModuleVerifyFunc}
    (hv : verdict_by_type vf) (st : Resolver) (ep : Nat) (n : String) {c : GIOExtension}
    (hnamed : (g_io_extension_point_get_extension_by_name h st.registry ep n).1 = some c) :
    (usable h vf c = true →
      (resolve_with h st ep (some n) vf).1.map (fun o => o.type) = some c.type ∧
      (resolve_with h st ep (some n) vf).2.constructed.map (fun o => o.type) =
        st.constructed.map (fun o => o.type) ++ [c.type]) ∧
    (usable h vf c = false →
      (resolve_with h st ep (some n) vf).1.map (fun o => o.type) =
        ((remaining (some c) (g_io_extension_point_get_extensions h
          (g_io_extension_point_get_extension_by_name h st.registry ep n).2 ep).1).find?
            (usable h vf)).map (fun e => e.type) ∧
      (resolve_with h st ep (some n) vf).2.constructed.map (fun o => o.type) =
        st.constructed.map (fun o => o.type) ++
          c.type :: (attempts h vf (remaining (some c)
            (g_io_extension_point_get_extensions h
              (g_io_extension_point_get_extension_by_name h st.registry ep n).2
              ep).1)).map (fun e => e.type)) := by
  have htrial := try_implementation_trial h vf
    { st with
      registry := (g_io_extension_point_get_extension_by_name h st.registry ep n).2 } c
  have hres := try_implementation_result h vf
    { st with
      registry := (g_io_extension_point_get_extension_by_name h st.registry ep n).2 } c hv
  obtain ⟨_, hreg, _, hcon, _⟩ := htrial
  constructor
  · intro hu
    obtain ⟨o, ho, hot, _⟩ := hres.1 hu
    simp only [resolve_with, hnamed, ho]
    exact ⟨by simpa using hot, by simpa using hcon⟩
  · intro hu
    have hnone := hres.2 hu
    simp only [resolve_with, hnamed, hnone]
    rw [hreg]
    obtain ⟨⟨_, _, _, hcon2, _⟩, hres2, _⟩ := try_extensions_spec h vf (some c) hv
      (g_io_extension_point_get_extensions h
        (g_io_extension_point_get_extension_by_name h st.registry ep n).2 ep).1
      { (try_implementation h
          { st with
            registry := (g_io_extension_point_get_extension_by_name h st.registry ep n).2 }
          c vf).2 with
        registry := (g_io_extension_point_get_extensions h
          (g_io_extension_point_get_extension_by_name h st.registry ep n).2 ep).2 }
    refine ⟨hres2, ?_⟩
    rw [hcon2]
    simp only at hcon
    rw [hcon]
    simp

theorem mem_remaining {c e : GIOExtension} {l : List GIOExtension}
    (he : e ∈ remaining (some c) l) : e ∈ l ∧ e.addr ≠ c.addr := by
  unfold remaining at he
  rw [List.mem_filter] at he
  refine ⟨he.1, ?_⟩
  intro heq
  simp [heq] at he

/-! ## The resolver: what a call leaves in the cache -/

theorem cache_probe_fst_some {st : Resolver} {name : String} {i : Nat}
    (hp : (cache_probe st name).1 = some i) :
    ∃ t cell, st.default_modules = some t ∧ g_hash_table_lookup_extended t name = some i ∧
      t[i]? = some (name, cell) := by
  unfold cache_probe at hp
  cases ht : st.default_modules with
  | none => simp [ht] at hp
  | some t =>
    cases hl : g_hash_table_lookup_extended t name with
    | none => simp [ht, hl] at hp
    | some j =>
      simp only [ht, hl] at hp
      obtain rfl : j = i := by simpa using hp
      obtain ⟨cell, hc⟩ := lookup_extended_some hl
      exact ⟨t, cell, rfl, hl, hc⟩

theorem cache_probe_fst_none {st : Resolver} {name : String}
    (hp : (cache_probe st name).1 = none) :
    g_hash_table_lookup_extended (st.default_modules.getD []) name = none := by
  unfold cache_probe at hp
  cases ht : st.default_modules with
  | none => simp [g_hash_table_lookup_extended]
  | some t =>
    cases hl : g_hash_table_lookup_extended t name with
    | none => simpa using hl
    | some j => simp [ht, hl] at hp

/-- A call that returns an object leaves it in the cell of the point, alive. -/
theorem get_default_caches {h : Host} {st : Resolver} {name : String}
    {envvar : Option String} {vf : GIOModuleVerifyFunc} {o : GObject}
    (hfirst : (_g_io_module_get_default h st name envvar vf).1 = some o) :
    ∃ i, cache_holds (_g_io_module_get_default h st name envvar vf).2 name i o ∧
      o.addr ∈ (_g_io_module_get_default h st name envvar vf).2.live := by
  cases hc : (cache_probe st name).2 with
  | some o2 =>
    rw [get_default_cached hc] at hfirst ⊢
    obtain rfl : o2 = o := by simpa using hfirst
    obtain ⟨t, i, ht, hl, hcell, hlive, _⟩ := cache_probe_some hc
    exact ⟨i, ⟨t, ht, hl, hcell⟩, hlive⟩
  | none =>
    cases hep : g_io_extension_point_lookup (h.ensure_loaded st.registry) name with
    | none =>
      rw [get_default_unregistered hc hep] at hfirst
      cases hfirst
    | some ep =>
      rw [get_default_uncached hc hep] at hfirst ⊢
      simp only at hfirst
      obtain ⟨hdm, hlive⟩ := resolve_default_frame h (after_ensure_loaded h st) ep envvar vf
      have hdm2 : (resolve_default h (after_ensure_loaded h st) ep envvar vf).2.default_modules
          = some (st.default_modules.getD []) := hdm
      simp only [store_default_fields, hfirst]
      cases hi : (cache_probe st name).1 with
      | none =>
        have hl := cache_probe_fst_none hi
        refine ⟨(st.default_modules.getD []).length,
          ⟨st.default_modules.getD [] ++ [(name, some o)], ?_, ?_, ?_⟩, hlive o hfirst⟩
        · simp only [store_default, hdm2, Option.getD_some]
        · exact lookup_extended_append hl (some o)
        · simp
      | some i =>
        obtain ⟨t, cell, ht, hl, hcell⟩ := cache_probe_fst_some hi
        have hdm3 : (resolve_default h (after_ensure_loaded h st) ep envvar
            vf).2.default_modules = some t := by
          rw [hdm2, ht]; rfl
        have hlt : i < t.length := by
          rcases List.getElem?_eq_some.mp hcell with ⟨hlt, _⟩
          exact hlt
        refine ⟨i, ⟨t.set i (name, some o), ?_, ?_, ?_⟩, hlive o hfirst⟩
        · simp only [store_default, hdm3, Option.map_some', hcell]
        · exact (lookup_extended_set hcell (some o) name).trans hl
        · simp [hlt]

/-- Once the object in the cell has been finalised the probe finds the cell but no
object. -/
theorem cache_probe_collected {st : Resolver} {name : String} {i : Nat} {o : GObject}
    (hh : cache_holds st name i o) : cache_probe (st.collect o) name = (some i, none) := by
  obtain ⟨t, ht, hl, hcell⟩ := hh
  simp [cache_probe, ht, hl, hcell, g_weak_ref_get, Resolver.collect]

/-- A call that finds the cell of the point without a live object keeps the keys of the
table as they are and leaves its result in the cache. -/
theorem get_default_refills {h : Host} {st : Resolver} {name : String} {i : Nat}
    {o : GObject} (ht : ∃ t, st.default_modules = some t ∧
      g_hash_table_lookup_extended t name = some i ∧ t[i]? = some (name, some o))
    (hdead : o.addr ∉ st.live) (envvar : Option String) (vf : GIOModuleVerifyFunc) :
    (_g_io_module_get_default h st name envvar vf).2.default_modules.map
        (fun t => t.map Prod.fst) = st.default_modules.map (fun t => t.map Prod.fst) ∧
    (cache_probe (_g_io_module_get_default h st name envvar vf).2 name).2 =
      (_g_io_module_get_default h st name envvar vf).1 := by
  obtain ⟨t, ht, hl, hcell⟩ := ht
  have hprobe : cache_probe st name = (some i, none) := by
    simp [cache_probe, ht, hl, hcell, g_weak_ref_get, hdead]
  have hc : (cache_probe st name).2 = none := by rw [hprobe]
  cases hep : g_io_extension_point_lookup (h.ensure_loaded st.registry) name with
  | none =>
    rw [get_default_unregistered hc hep]
    have hdm : (after_ensure_loaded h st).default_modules = some t := by
      simp [after_ensure_loaded, ht]
    refine ⟨by rw [hdm, ht], ?_⟩
    have hlive : (after_ensure_loaded h st).live = st.live := rfl
    simp [cache_probe, hdm, hl, hcell, g_weak_ref_get, hlive, hdead]
  | some ep =>
    rw [get_default_uncached hc hep, hprobe]
    obtain ⟨hdm, hlive⟩ := resolve_default_frame h (after_ensure_loaded h st) ep envvar vf
    have hdm2 : (resolve_default h (after_ensure_loaded h st) ep envvar
        vf).2.default_modules = some t := by
      rw [hdm]; simp [after_ensure_loaded, ht]
    have hlt : i < t.length := by
      rcases List.getElem?_eq_some.mp hcell with ⟨hlt, _⟩
      exact hlt
    have hstore : (store_default (resolve_default h (after_ensure_loaded h st) ep envvar
        vf).2 (some i) name (resolve_default h (after_ensure_loaded h st) ep envvar
        vf).1).default_modules = some (t.set i (name,
          (resolve_default h (after_ensure_loaded h st) ep envvar vf).1)) := by
      simp only [store_default, hdm2, Option.map_some', hcell]
    refine ⟨?_, ?_⟩
    · simp only [hstore, ht, Option.map_some']
      rw [keys_set hcell]
    · have hl2 := (lookup_extended_set hcell
        (resolve_default h (after_ensure_loaded h st) ep envvar vf).1 name).trans hl
      simp only [cache_probe, hstore, hl2, List.getElem?_set_self hlt, g_weak_ref_get,
        store_default_fields]
      cases hr : (resolve_default h (after_ensure_loaded h st) ep envvar vf).1 with
      | none => rfl
      | some o2 => simp [hlive o2 hr]

/-! ## The claims about the resolver -/

/-- C8: when the override variable is not given or not set, the cache holds no live
object for the point and the point is registered, `_g_io_module_get_default` returns
an instance of the first extension, in the order of
`g_io_extension_point_get_extensions`, whose instantiation succeeds; that object is
alive; the result is `NULL` exactly when no extension of the list succeeds; and the
candidates that were instantiated are those of the list up to and including the
winner. -/
theorem default_is_first_usable (h : Host) (st : Resolver) (name : String) (ep : Nat)
    (envvar : Option String) (vf : GIOModuleVerifyFunc) (hv : verdict_by_type vf)
    (henv : envvar.bind h.g_getenv = none) (hc : (cache_probe st name).2 = none)
    (hep : g_io_extension_point_lookup (h.ensure_loaded st.registry) name = some ep) :
    (_g_io_module_get_default h st name envvar vf).1.map (fun o => o.type) =
      ((g_io_extension_point_get_extensions h (h.ensure_loaded st.registry) ep).1.find?
        (usable h vf)).map (fun e => e.type) ∧
    ((_g_io_module_get_default h st name envvar vf).1 = none ↔
      ∀ e ∈ (g_io_extension_point_get_extensions h (h.ensure_loaded st.registry) ep).1,
        usable h vf e = false) ∧
    (∀ o, (_g_io_module_get_default h st name envvar vf).1 = some o →
      o.addr ∈ (_g_io_module_get_default h st name envvar vf).2.live) ∧
    (_g_io_module_get_default h st name envvar vf).2.constructed.map (fun o => o.type) =
      st.constructed.map (fun o => o.type) ++
        (attempts h vf (g_io_extension_point_get_extensions h
          (h.ensure_loaded st.registry) ep).1).map (fun e => e.type) := by
  obtain ⟨hres, hlive, hcon, _⟩ := uncached_no_override hv henv hc hep
  refine ⟨hres, ?_, hlive, hcon⟩
  constructor
  · intro hnone
    rw [hnone] at hres
    have hfind : (g_io_extension_point_get_extensions h (h.ensure_loaded st.registry)
        ep).1.find? (usable h vf) = none := by
      simpa using hres.symm
    intro e he
    have := List.find?_eq_none.mp hfind e he
    simpa using this
  · intro hall
    have hfind : (g_io_extension_point_get_extensions h (h.ensure_loaded st.registry)
        ep).1.find? (usable h vf) = none := by
      rw [List.find?_eq_none]
      intro e he
      simp [hall e he]
    rw [hfind] at hres
    simpa using hres

theorem demo_verify_by_type : verdict_by_type demo_verify := by
  intro f hf a b hab
  obtain rfl : (fun o : GObject => decide (o.type ≠ 12)) = f := by
    simpa [demo_verify] using hf
  simp [hab]

/-- C8, at the example: "b" (type 12) is turned down by the verify function, so the
default is an instance of "c" (type 13). -/
theorem default_is_first_usable_witness :
    (_g_io_module_get_default Host.plain (Resolver.start demo_registry) "P" none
      demo_verify).1.map (fun o => o.type) = some 13 :=
  ((default_is_first_usable Host.plain (Resolver.start demo_registry) "P" 0 none
      demo_verify demo_verify_by_type rfl (by decide) (by decide)).1).trans (by decide)

/-- C9 as stated fails: in `resolved_once` the variable names "d", an extension of the
point that would instantiate successfully, yet the call returns the cached instance of
"c" (type 13) and instantiates nothing; "d" is not tried at all. -/
theorem override_ignored_when_cached :
    (g_io_extension_point_get_extension_by_name (Host.with_env "d")
      resolved_once.registry 0 "d").1 =
        some { addr := 4, name := some "d", type := 14, priority := 1 } ∧
    usable (Host.with_env "d") demo_verify
      { addr := 4, name := some "d", type := 14, priority := 1 } = true ∧
    (_g_io_module_get_default (Host.with_env "d") resolved_once "P" (some "GIO_USE_P")
      demo_verify).1 = some { addr := 2, type := 13 } ∧
    (_g_io_module_get_default (Host.with_env "d") resolved_once "P" (some "GIO_USE_P")
      demo_verify).2.constructed = resolved_once.constructed := by
  decide

/-- C9, amended: when the cache holds no live object for the point, the point is
registered and the override variable names the extension `c` of the point (its value is
not "help"), `c` is instantiated first.  If that succeeds the result is an instance of
`c` and nothing else was instantiated.  If it fails, the result is an instance of the
first usable extension among the others in list order, the candidates instantiated after
`c` are taken from the others only, and none of the others is pointer-equal to `c`. -/
theorem override_tried_first (h : Host) (st : Resolver) (name : String) (ep : Nat)
    (envvar : Option String) (vf : GIOModuleVerifyFunc) (n : String) (c : GIOExtension)
    (hv : verdict_by_type vf) (henv : envvar.bind h.g_getenv = some n) (hn : n ≠ "help")
    (hc : (cache_probe st name).2 = none)
    (hep : g_io_extension_point_lookup (h.ensure_loaded st.registry) name = some ep)
    (hnamed : (g_io_extension_point_get_extension_by_name h (h.ensure_loaded st.registry)
      ep n).1 = some c) :
    (usable h vf c = true →
      (_g_io_module_get_default h st name envvar vf).1.map (fun o => o.type) =
        some c.type ∧
      (_g_io_module_get_default h st name envvar vf).2.constructed.map (fun o => o.type) =
        st.constructed.map (fun o => o.type) ++ [c.type]) ∧
    (usable h vf c = false →
      (_g_io_module_get_default h st name envvar vf).1.map (fun o => o.type) =
        ((remaining (some c) (g_io_extension_point_get_extensions h
          (g_io_extension_point_get_extension_by_name h (h.ensure_loaded st.registry)
            ep n).2 ep).1).find? (usable h vf)).map (fun e => e.type) ∧
      (_g_io_module_get_default h st name envvar vf).2.constructed.map (fun o => o.type) =
        st.constructed.map (fun o => o.type) ++
          c.type :: (attempts h vf (remaining (some c)
            (g_io_extension_point_get_extensions h
              (g_io_extension_point_get_extension_by_name h (h.ensure_loaded st.registry)
                ep n).2 ep).1)).map (fun e => e.type) ∧
      ∀ e ∈ remaining (some c) (g_io_extension_point_get_extensions h
          (g_io_extension_point_get_extension_by_name h (h.ensure_loaded st.registry)
            ep n).2 ep).1, e.addr ≠ c.addr) := by
  have hw := resolve_with_preferred hv (after_ensure_loaded h st) ep n hnamed
  rw [get_default_uncached hc hep, resolve_override henv hn]
  simp only [store_default_fields]
  refine ⟨hw.1, fun hu => ⟨(hw.2 hu).1, (hw.2 hu).2, fun e he => (mem_remaining he).2⟩⟩

/-- C9 amended, at the example.  With the variable set to "d", the extension of lowest
priority, its instance (type 14) is returned and it is the only object made.  With the
variable set to "b", which the verify function turns down, the result is an instance of
"c" (type 13) and "b" (type 12) was instantiated once. -/
theorem override_tried_first_witness :
    ((_g_io_module_get_default (Host.with_env "d") (Resolver.start demo_registry) "P"
        (some "GIO_USE_P") demo_verify).1.map (fun o => o.type) = some 14 ∧
     (_g_io_module_get_default (Host.with_env "d") (Resolver.start demo_registry) "P"
        (some "GIO_USE_P") demo_verify).2.constructed.map (fun o => o.type) = [14]) ∧
    (_g_io_module_get_default (Host.with_env "b") (Resolver.start demo_registry) "P"
        (some "GIO_USE_P") demo_verify).1.map (fun o => o.type) = some 13 ∧
    (_g_io_module_get_default (Host.with_env "b") (Resolver.start demo_registry) "P"
        (some "GIO_USE_P") demo_verify).2.constructed.map (fun o => o.type) = [12, 13] :=
  ⟨(override_tried_first (Host.with_env "d") (Resolver.start demo_registry) "P" 0
      (some "GIO_USE_P") demo_verify "d"
      { addr := 4, name := some "d", type := 14, priority := 1 }
      demo_verify_by_type rfl (by decide) (by decide) (by decide) (by decide)).1 (by decide),
   (((override_tried_first (Host.with_env "b") (Resolver.start demo_registry) "P" 0
      (some "GIO_USE_P") demo_verify "b"
      { addr := 2, name := some "b", type := 12, priority := 10 }
      demo_verify_by_type rfl (by decide) (by decide) (by decide) (by decide)).2
        (by decide)).1).trans (by decide),
   (((override_tried_first (Host.with_env "b") (Resolver.start demo_registry) "P" 0
      (some "GIO_USE_P") demo_verify "b"
      { addr := 2, name := some "b", type := 12, priority := 10 }
      demo_verify_by_type rfl (by decide) (by decide) (by decide) (by decide)).2
        (by decide)).2.1).trans (by decide)⟩

/-- C10: if a call of `_g_io_module_get_default` returns the object `o`, then the next
call for the same point returns `o` as well and leaves the whole state as it is, so it
instantiates nothing and calls no verify function.  Once `o` has been finalised, the
cache gives no object for the point, and the next call keeps the keys of the table (no
entry is added), leaves its own result in the cell of the point, and its result is that
of the choice among the extensions of the registered point; with no override set it
chooses as a first call does: it instantiates the candidates of the extension list in
order up to the first usable one and passes every non-initable one of them to the verify
function again. -/
theorem default_cached_until_collected (h : Host) (st : Resolver) (name : String)
    (envvar : Option String) (vf : GIOModuleVerifyFunc) (envvar2 : Option String)
    (vf2 : GIOModuleVerifyFunc) (o : GObject)
    (hfirst : (_g_io_module_get_default h st name envvar vf).1 = some o) :
    _g_io_module_get_default h (_g_io_module_get_default h st name envvar vf).2 name
        envvar2 vf2 = (some o, (_g_io_module_get_default h st name envvar vf).2) ∧
    (cache_probe ((_g_io_module_get_default h st name envvar vf).2.collect o) name).2 =
      none ∧
    (_g_io_module_get_default h
        ((_g_io_module_get_default h st name envvar vf).2.collect o) name envvar2
        vf2).2.default_modules.map (fun t => t.map Prod.fst) =
      (_g_io_module_get_default h st name envvar vf).2.default_modules.map
        (fun t => t.map Prod.fst) ∧
    (cache_probe (_g_io_module_get_default h
        ((_g_io_module_get_default h st name envvar vf).2.collect o) name envvar2 vf2).2
        name).2 =
      (_g_io_module_get_default h
        ((_g_io_module_get_default h st name envvar vf).2.collect o) name envvar2 vf2).1 ∧
    (∀ ep, g_io_extension_point_lookup
        (h.ensure_loaded (_g_io_module_get_default h st name envvar vf).2.registry) name =
        some ep →
      (_g_io_module_get_default h
          ((_g_io_module_get_default h st name envvar vf).2.collect o) name envvar2
          vf2).1 =
        (resolve_default h (after_ensure_loaded h
          ((_g_io_module_get_default h st name envvar vf).2.collect o)) ep envvar2
          vf2).1) ∧
    ∀ ep, verdict_by_type vf2 → envvar2.bind h.g_getenv = none →
      g_io_extension_point_lookup
        (h.ensure_loaded (_g_io_module_get_default h st name envvar vf).2.registry) name =
        some ep →
      (_g_io_module_get_default h
          ((_g_io_module_get_default h st name envvar vf).2.collect o) name envvar2
          vf2).1.map (fun x => x.type) =
        ((g_io_extension_point_get_extensions h
          (h.ensure_loaded (_g_io_module_get_default h st name envvar vf).2.registry)
          ep).1.find? (usable h vf2)).map (fun e => e.type) ∧
      (_g_io_module_get_default h
          ((_g_io_module_get_default h st name envvar vf).2.collect o) name envvar2
          vf2).2.constructed.map (fun x => x.type) =
        (_g_io_module_get_default h st name envvar vf).2.constructed.map (fun x => x.type)
          ++ (attempts h vf2 (g_io_extension_point_get_extensions h
            (h.ensure_loaded (_g_io_module_get_default h st name envvar vf).2.registry)
            ep).1).map (fun e => e.type) ∧
      (_g_io_module_get_default h
          ((_g_io_module_get_default h st name envvar vf).2.collect o) name envvar2
          vf2).2.verified.map (fun x => x.type) =
        (_g_io_module_get_default h st name envvar vf).2.verified.map (fun x => x.type)
          ++ (verify_calls h vf2 (attempts h vf2 (g_io_extension_point_get_extensions h
            (h.ensure_loaded (_g_io_module_get_default h st name envvar vf).2.registry)
            ep).1)).map (fun e => e.type) := by
  obtain ⟨i, hholds, hlive⟩ := get_default_caches hfirst
  have hprobe := cache_probe_collected hholds
  have hdead : o.addr ∉ ((_g_io_module_get_default h st name envvar vf).2.collect o).live := by
    simp [Resolver.collect]
  have hrefill := @get_default_refills h
    ((_g_io_module_get_default h st name envvar vf).2.collect o) name i o hholds hdead
    envvar2 vf2
  refine ⟨?_, by rw [hprobe], hrefill.1, hrefill.2, ?_, ?_⟩
  · obtain ⟨t, ht, hl, hcell⟩ := hholds
    exact get_default_cached
      (congrArg Prod.snd (cache_probe_of_entry ht hl hcell hlive)) envvar2 vf2
  · intro ep hep
    rw [@get_default_uncached h ((_g_io_module_get_default h st name envvar vf).2.collect o)
      name ep (by rw [hprobe]) hep]
  · intro ep hv henv hep
    obtain ⟨hres, _, hcon, hver⟩ := @uncached_no_override h
      ((_g_io_module_get_default h st name envvar vf).2.collect o) name ep envvar2 vf2
      hv henv (by rw [hprobe]) hep
    exact ⟨hres, hcon, hver⟩

/-- C10, at the example: the first call returns the object at address 2 (an instance of
"c") after two verify calls; the second call returns the same object and nothing else
happens; after the object has been finalised the third call verifies "b" and "c" again
(four verify calls in all) and the table still has the one key "P". -/
theorem default_cached_until_collected_witness :
    (_g_io_module_get_default Host.plain (Resolver.start demo_registry) "P" none
      demo_verify).1 = some { addr := 2, type := 13 } ∧
    _g_io_module_get_default Host.plain
        (_g_io_module_get_default Host.plain (Resolver.start demo_registry) "P" none
          demo_verify).2 "P" none demo_verify =
      (some { addr := 2, type := 13 },
        (_g_io_module_get_default Host.plain (Resolver.start demo_registry) "P" none
          demo_verify).2) ∧
    (_g_io_module_get_default Host.plain
        ((_g_io_module_get_default Host.plain (Resolver.start demo_registry) "P" none
          demo_verify).2.collect { addr := 2, type := 13 }) "P" none
        demo_verify).2.verified.map (fun x => x.type) = [12, 13, 12, 13] ∧
    (_g_io_module_get_default Host.plain
        ((_g_io_module_get_default Host.plain (Resolver.start demo_registry) "P" none
          demo_verify).2.collect { addr := 2, type := 13 }) "P" none
        demo_verify).2.default_modules.map (fun t => t.map Prod.fst) = some ["P"] :=
  ⟨by decide,
   (default_cached_until_collected Host.plain (Resolver.start demo_registry) "P" none
      demo_verify none demo_verify { addr := 2, type := 13 } (by decide)).1,
   ((default_cached_until_collected Host.plain (Resolver.start demo_registry) "P" none
      demo_verify none demo_verify { addr := 2, type := 13 } (by decide)).2.2.2.2.2 0
        demo_verify_by_type rfl (by decide)).2.2.trans (by decide),
   ((default_cached_until_collected Host.plain (Resolver.start demo_registry) "P" none
      demo_verify none demo_verify { addr := 2, type := 13 } (by decide)).2.2.1).trans
        (by decide)⟩

end GioModule

namespace GUnixMounts

/-! ## The mount table reader: strings and tables -/

theorem strcmp_chars_eq_zero (a b : List Char) : strcmp_chars a b = 0 ↔ a = b := by
  induction a generalizing b with
  | nil => cases b <;> simp [strcmp_chars]
  | cons x xs ih =>
    cases b with
    | nil => simp [strcmp_chars]
    | cons y ys =>
      unfold strcmp_chars
      by_cases hxy : x = y
      · simp [hxy, ih]
      · simp only [hxy, if_false, List.cons.injEq, false_and, iff_false]
        split <;> decide

theorem strcmp_eq_zero (a b : String) : strcmp a b = 0 ↔ a = b := by
  unfold strcmp
  rw [strcmp_chars_eq_zero]
  constructor
  · intro h
    exact String.ext h
  · intro h
    rw [h]

theorem g_strcmp0_eq_zero (a b : Option String) : g_strcmp0 a b = 0 ↔ a = b := by
  cases a <;> cases b <;> simp [g_strcmp0, strcmp_eq_zero]

theorem is_in_iff (value : String) (set : List String) : is_in value set = true ↔ value ∈ set := by
  unfold is_in
  rw [List.any_eq_true]
  constructor
  · rintro ⟨s, hs, hv⟩
    have : s = value := (strcmp_eq_zero s value).mp (by simpa using hv)
    exact this ▸ hs
  · intro hv
    exact ⟨value, hv, by simpa using (strcmp_eq_zero value value).mpr rfl⟩

theorem has_prefix_iff (str pre : String) :
    g_str_has_prefix str pre = true ↔ ∃ rest, str.data = pre.data ++ rest := by
  unfold g_str_has_prefix
  rw [List.isPrefixOf_iff_prefix]
  constructor
  · rintro ⟨t, ht⟩
    exact ⟨t, ht.symm⟩
  · rintro ⟨t, ht⟩
    exact ⟨t, ht.symm⟩

theorem has_suffix_iff (str suf : String) :
    g_str_has_suffix str suf = true ↔ ∃ front, str.data = front ++ suf.data := by
  unfold g_str_has_suffix
  rw [List.isSuffixOf_iff_suffix]
  constructor
  · rintro ⟨t, ht⟩
    exact ⟨t, ht.symm⟩
  · rintro ⟨t, ht⟩
    exact ⟨t, ht.symm⟩

theorem system_fs_type_iff (fs : Option String) :
    g_unix_is_system_fs_type fs = true ↔ ∃ t, fs = some t ∧ t ∈ ignore_fs := by
  cases fs with
  | none => simp [g_unix_is_system_fs_type]
  | some s =>
    unfold g_unix_is_system_fs_type
    by_cases he : s = ""
    · subst he
      simp only [if_true, Bool.false_eq_true, false_iff]
      rintro ⟨t, ht, hmem⟩
      obtain rfl : "" = t := by simpa using ht
      revert hmem
      decide
    · simp [he, is_in_iff]

theorem system_device_path_iff (device : Option String) :
    g_unix_is_system_device_path device = true ↔
      ∃ d, device = some d ∧ d ∈ ignore_devices := by
  cases device with
  | none => simp [g_unix_is_system_device_path]
  | some s =>
    unfold g_unix_is_system_device_path
    by_cases he : s = ""
    · subst he
      simp only [if_true, Bool.false_eq_true, false_iff]
      rintro ⟨t, ht, hmem⟩
      obtain rfl : "" = t := by simpa using ht
      revert hmem
      decide
    · simp [he, is_in_iff]

theorem mount_path_system_internal_iff (c : BuildConfig) (m : String) :
    g_unix_is_mount_path_system_internal c m = true ↔
      m ∈ ignore_mountpoints c ∨ (∃ rest, m.data = "/dev/".data ++ rest) ∨
      (∃ rest, m.data = "/proc/".data ++ rest) ∨ (∃ rest, m.data = "/sys/".data ++ rest) ∨
      (∃ front, m.data = front ++ "/.gvfs".data) := by
  unfold g_unix_is_mount_path_system_internal
  rw [← is_in_iff, ← has_prefix_iff, ← has_prefix_iff, ← has_prefix_iff, ← has_suffix_iff]
  by_cases h1 : is_in m (ignore_mountpoints c) = true
  · simp [h1]
  · by_cases h2 : g_str_has_prefix m "/dev/" = true
    · simp [h1, h2]
    · by_cases h3 : g_str_has_prefix m "/proc/" = true
      · simp [h1, h2, h3]
      · by_cases h4 : g_str_has_prefix m "/sys/" = true
        · simp [h1, h2, h3, h4]
        · by_cases h5 : g_str_has_suffix m "/.gvfs" = true <;> simp [h1, h2, h3, h4, h5]

theorem root_rule_iff (root : Option String) :
    (root ≠ none ∧ g_strcmp0 root (some "/") ≠ 0) ↔ ∃ r, root = some r ∧ r ≠ "/" := by
  cases root with
  | none => simp
  | some r => simp [g_strcmp0_eq_zero]

/-- The classifier is the disjunction of its four tests. -/
theorem guess_system_internal_eq (c : BuildConfig) (m : String) (fs device root : Option String) :
    guess_system_internal c m fs device root =
      (g_unix_is_system_fs_type fs || g_unix_is_system_device_path device ||
       g_unix_is_mount_path_system_internal c m ||
       decide (root ≠ none ∧ g_strcmp0 root (some "/") ≠ 0)) := by
  unfold guess_system_internal
  by_cases h1 : g_unix_is_system_fs_type fs = true
  · simp [h1]
  · by_cases h2 : g_unix_is_system_device_path device = true
    · simp [h1, h2]
    · by_cases h3 : g_unix_is_mount_path_system_internal c m = true
      · simp [h1, h2, h3]
      · by_cases h4 : (root ≠ none ∧ g_strcmp0 root (some "/") ≠ 0)
        · simp only [h1, h2, h3, if_false, h4, if_true]
          simp [h4]
        · simp only [h1, h2, h3, if_false, h4]
          simp [h4]

theorem guess_system_internal_spec (c : BuildConfig) (m : String)
    (fs device root : Option String) :
    guess_system_internal c m fs device root = true ↔
      system_internal_spec c m fs device root := by
  rw [guess_system_internal_eq]
  unfold system_internal_spec
  simp only [Bool.or_eq_true, decide_eq_true_eq, system_fs_type_iff, system_device_path_iff,
    mount_path_system_internal_iff, root_rule_iff, or_assoc]

/-! ## The claims about the classification of mounts -/

/-- C11: `guess_system_internal` is true exactly when the filesystem type is in the
table of system filesystems, or the device path is in the table of system devices, or
the mount path is one of the listed directories, begins with `/dev/`, `/proc/` or
`/sys/`, or ends with `/.gvfs`, or the root path is not `NULL` and is not `/`.  So
`("/proc", "proc", "proc", NULL)` gives true, `("/mnt/x", "ext4", "/dev/sda2",
"/subvol")` gives true, and `("/home/user/mnt", "ext4", "/dev/sda2", "/")` gives false
(in a build whose two configured directories are not `/home/user/mnt`). -/
theorem system_internal_classification :
    (∀ (c : BuildConfig) (m : String) (fs device root : Option String),
      guess_system_internal c m fs device root = true ↔
        system_internal_spec c m fs device root) ∧
    (∀ c : BuildConfig,
      guess_system_internal c "/proc" (some "proc") (some "proc") none = true) ∧
    (∀ c : BuildConfig, c.GLIB_LOCALSTATEDIR ≠ "/home/user/mnt" →
      c.GLIB_RUNSTATEDIR ≠ "/home/user/mnt" →
      guess_system_internal c "/home/user/mnt" (some "ext4") (some "/dev/sda2") (some "/") =
        false) ∧
    (∀ c : BuildConfig,
      guess_system_internal c "/mnt/x" (some "ext4") (some "/dev/sda2") (some "/subvol") =
        true) := by
  refine ⟨guess_system_internal_spec, ?_, ?_, ?_⟩
  · intro c
    exact (guess_system_internal_spec c _ _ _ _).mpr (Or.inl ⟨"proc", rfl, by decide⟩)
  · intro c h1 h2
    rw [Bool.eq_false_iff]
    intro hg
    rcases (guess_system_internal_spec c _ _ _ _).mp hg with
      ⟨t, ht, hm⟩ | ⟨d, hd, hm⟩ | hm | hp | hp | hp | hp | ⟨r, hr, hne⟩
    · obtain rfl : "ext4" = t := by simpa using ht
      revert hm
      decide
    · obtain rfl : "/dev/sda2" = d := by simpa using hd
      revert hm
      decide
    · simp only [ignore_mountpoints, List.mem_cons, List.mem_singleton] at hm
      rcases hm with hm | hm | hm | hm | hm | hm | hm | hm | hm | hm | hm | hm | hm | hm |
        hm | hm | hm | hm | hm | hm | hm | hm | hm | hm | hm | hm | hm | hm | hm | hm | hm |
        hm | hm | hm | hm | hm | hm | hm | hm | hm | hm | hm
      all_goals first
        | exact h1 hm.symm
        | exact h2 hm.symm
        | (revert hm; decide)
    · have := (has_prefix_iff "/home/user/mnt" "/dev/").mpr hp
      revert this
      decide
    · have := (has_prefix_iff "/home/user/mnt" "/proc/").mpr hp
      revert this
      decide
    · have := (has_prefix_iff "/home/user/mnt" "/sys/").mpr hp
      revert this
      decide
    · have := (has_suffix_iff "/home/user/mnt" "/.gvfs").mpr hp
      revert this
      decide
    · obtain rfl : "/" = r := by simpa using hr
      exact hne rfl
  · intro c
    exact (guess_system_internal_spec c _ _ _ _).mpr
      (Or.inr (Or.inr (Or.inr (Or.inr (Or.inr (Or.inr (Or.inr
        ⟨"/subvol", rfl, by decide⟩)))))))

/-- C11, in the usual build: `/home/user/mnt` on `/dev/sda2` with root `/` is not
system-internal. -/
theorem system_internal_classification_witness :
    guess_system_internal BuildConfig.usual "/home/user/mnt" (some "ext4")
      (some "/dev/sda2") (some "/") = false :=
  system_internal_classification.2.2.1 BuildConfig.usual (by decide) (by decide)

/-- C12 as stated fails: `/dev/loop0` begins with `/dev/loop`, yet
`g_unix_is_system_device_path` returns false for it, and an ordinary mount from that
device is not classified system-internal. -/
theorem loop_device_not_system :
    g_str_has_prefix "/dev/loop0" "/dev/loop" = true ∧
    g_unix_is_system_device_path (some "/dev/loop0") = false ∧
    g_unix_mount_entry_is_system_internal
      (create_unix_mount_entry BuildConfig.usual (some "/dev/loop0") "/home/user/image" none
        (some "ext4") (some "rw") false) = false := by
  decide

/-- C12, amended: `g_unix_is_system_device_path` returns true exactly for the members of
the table `none`, `sunrpc`, `devpts`, `nfsd`, `/dev/loop`, `/dev/vn`, compared as whole
strings; and an entry whose device path is in the table is classified
system-internal. -/
theorem system_device_path_exact :
    (∀ device : Option String, g_unix_is_system_device_path device = true ↔
      device = some "none" ∨ device = some "sunrpc" ∨ device = some "devpts" ∨
      device = some "nfsd" ∨ device = some "/dev/loop" ∨ device = some "/dev/vn") ∧
    ∀ (c : BuildConfig) (device : Option String) (mount_path : String)
      (root fs options : Option String) (ro : Bool),
      g_unix_is_system_device_path device = true →
      g_unix_mount_entry_is_system_internal
        (create_unix_mount_entry c device mount_path root fs options ro) = true := by
  constructor
  · intro device
    rw [system_device_path_iff]
    constructor
    · rintro ⟨d, rfl, hd⟩
      simpa [ignore_devices] using hd
    · intro h
      rcases h with h | h | h | h | h | h <;> exact ⟨_, h, by decide⟩
  · intro c device mount_path root fs options ro hd
    simp [g_unix_mount_entry_is_system_internal, create_unix_mount_entry,
      guess_system_internal_eq, hd]

/-- C12 amended, at the device `/dev/loop` itself. -/
theorem system_device_path_exact_witness :
    g_unix_mount_entry_is_system_internal
      (create_unix_mount_entry BuildConfig.usual (some "/dev/loop") "/home/user/image" none
        (some "ext4") (some "rw") false) = true :=
  system_device_path_exact.2 BuildConfig.usual (some "/dev/loop") "/home/user/image" none
    (some "ext4") (some "rw") false (by decide)

/-- C13 as stated fails: the entry for `/mnt/x` on `/dev/sda2` with type `ext4` and root
path `/subvol` is system-internal although none of the three functions says so. -/
theorem system_internal_beyond_three :
    g_unix_mount_entry_is_system_internal
      (create_unix_mount_entry BuildConfig.usual (some "/dev/sda2") "/mnt/x" (some "/subvol")
        (some "ext4") (some "rw") false) = true ∧
    (g_unix_is_system_fs_type (some "ext4") || g_unix_is_system_device_path (some "/dev/sda2")
      || g_unix_is_mount_path_system_internal BuildConfig.usual "/mnt/x") = false := by
  decide

/-- C13, amended: for every entry built by `create_unix_mount_entry`,
`g_unix_mount_entry_is_system_internal` is the Boolean OR of `g_unix_is_system_fs_type`
on its filesystem type, `g_unix_is_system_device_path` on its device path,
`g_unix_is_mount_path_system_internal` on its mount path, and of "the root path is not
`NULL` and is not `/`"; for an entry whose root path is `NULL` or `/` it is the OR of
the three functions. -/
theorem system_internal_is_or_of_four (c : BuildConfig) (device : Option String)
    (mount_path : String) (root fs options : Option String) (ro : Bool) :
    g_unix_mount_entry_is_system_internal
        (create_unix_mount_entry c device mount_path root fs options ro) =
      (g_unix_is_system_fs_type fs || g_unix_is_system_device_path device ||
       g_unix_is_mount_path_system_internal c mount_path ||
       decide (root ≠ none ∧ root ≠ some "/")) ∧
    ((root = none ∨ root = some "/") →
      g_unix_mount_entry_is_system_internal
          (create_unix_mount_entry c device mount_path root fs options ro) =
        (g_unix_is_system_fs_type fs || g_unix_is_system_device_path device ||
         g_unix_is_mount_path_system_internal c mount_path)) := by
  have hfour : g_unix_mount_entry_is_system_internal
        (create_unix_mount_entry c device mount_path root fs options ro) =
      (g_unix_is_system_fs_type fs || g_unix_is_system_device_path device ||
       g_unix_is_mount_path_system_internal c mount_path ||
       decide (root ≠ none ∧ root ≠ some "/")) := by
    simp only [g_unix_mount_entry_is_system_internal, create_unix_mount_entry,
      guess_system_internal_eq]
    congr 2
    simp only [ne_eq, g_strcmp0_eq_zero]
  refine ⟨hfour, fun hroot => ?_⟩
  rw [hfour]
  rcases hroot with rfl | rfl <;> simp

/-- C13 amended, at an entry with root path `/`: `/proc` is system-internal because its
filesystem type and its mount path are. -/
theorem system_internal_is_or_of_four_witness :
    g_unix_mount_entry_is_system_internal
        (create_unix_mount_entry BuildConfig.usual (some "proc") "/proc" (some "/")
          (some "proc") none false) =
      (g_unix_is_system_fs_type (some "proc") || g_unix_is_system_device_path (some "proc") ||
       g_unix_is_mount_path_system_internal BuildConfig.usual "/proc") :=
  (system_internal_is_or_of_four BuildConfig.usual (some "proc") "/proc" (some "/")
    (some "proc") none false).2 (Or.inr rfl)

/-! ## Comparing, copying and finding mount entries -/

theorem gboolean_sub_eq_zero (a b : Bool) : gboolean a - gboolean b = 0 ↔ a = b := by
  cases a <;> cases b <;> simp [gboolean]

theorem compare_eq_zero_iff (a b : GUnixMountEntry) :
    g_unix_mount_entry_compare a b = 0 ↔
      a.mount_path = b.mount_path ∧ a.device_path = b.device_path ∧
      a.root_path = b.root_path ∧ a.filesystem_type = b.filesystem_type ∧
      a.options = b.options ∧ a.is_read_only = b.is_read_only := by
  have k1 : g_strcmp0 (some a.mount_path) (some b.mount_path) = 0 ↔
      a.mount_path = b.mount_path := by
    rw [g_strcmp0_eq_zero]
    simp
  have k2 := g_strcmp0_eq_zero a.device_path b.device_path
  have k3 := g_strcmp0_eq_zero a.root_path b.root_path
  have k4 := g_strcmp0_eq_zero a.filesystem_type b.filesystem_type
  have k5 := g_strcmp0_eq_zero a.options b.options
  have k6 := gboolean_sub_eq_zero a.is_read_only b.is_read_only
  unfold g_unix_mount_entry_compare
  by_cases h1 : g_strcmp0 (some a.mount_path) (some b.mount_path) = 0
  · rw [if_neg (not_not.mpr h1)]
    by_cases h2 : g_strcmp0 a.device_path b.device_path = 0
    · rw [if_neg (not_not.mpr h2)]
      by_cases h3 : g_strcmp0 a.root_path b.root_path = 0
      · rw [if_neg (not_not.mpr h3)]
        by_cases h4 : g_strcmp0 a.filesystem_type b.filesystem_type = 0
        · rw [if_neg (not_not.mpr h4)]
          by_cases h5 : g_strcmp0 a.options b.options = 0
          · rw [if_neg (not_not.mpr h5)]
            by_cases h6 : gboolean a.is_read_only - gboolean b.is_read_only = 0
            · rw [if_neg (not_not.mpr h6)]
              exact ⟨fun _ => ⟨k1.mp h1, k2.mp h2, k3.mp h3, k4.mp h4, k5.mp h5, k6.mp h6⟩,
                fun _ => rfl⟩
            · rw [if_pos h6]
              exact ⟨fun hz => absurd hz h6, fun hc => absurd (k6.mpr hc.2.2.2.2.2) h6⟩
          · rw [if_pos h5]
            exact ⟨fun hz => absurd hz h5, fun hc => absurd (k5.mpr hc.2.2.2.2.1) h5⟩
        · rw [if_pos h4]
          exact ⟨fun hz => absurd hz h4, fun hc => absurd (k4.mpr hc.2.2.2.1) h4⟩
      · rw [if_pos h3]
        exact ⟨fun hz => absurd hz h3, fun hc => absurd (k3.mpr hc.2.2.1) h3⟩
    · rw [if_pos h2]
      exact ⟨fun hz => absurd hz h2, fun hc => absurd (k2.mpr hc.2.1) h2⟩
  · rw [if_pos h1]
    exact ⟨fun hz => absurd hz h1, fun hc => absurd (k1.mpr hc.1) h1⟩

/-- C14: `g_unix_mount_entry_compare (a, b)` is 0 exactly when `a` and `b` agree in mount
path, device path, root path, filesystem type, options and read-only flag; and whatever
the two system-internal flags are set to, the result is the same. -/
theorem compare_zero_iff_fields_equal (a b : GUnixMountEntry) :
    (g_unix_mount_entry_compare a b = 0 ↔
      a.mount_path = b.mount_path ∧ a.device_path = b.device_path ∧
      a.root_path = b.root_path ∧ a.filesystem_type = b.filesystem_type ∧
      a.options = b.options ∧ a.is_read_only = b.is_read_only) ∧
    ∀ x y : Bool,
      g_unix_mount_entry_compare { a with is_system_internal := x }
        { b with is_system_internal := y } = g_unix_mount_entry_compare a b :=
  ⟨compare_eq_zero_iff a b, fun _ _ => rfl⟩

/-- C15: the copy of an entry has every field of the entry, so it is the same record,
and `g_unix_mount_entry_compare` of the entry with its copy is 0. -/
theorem copy_equal_and_compares_zero (e : GUnixMountEntry) :
    (g_unix_mount_entry_copy e).mount_path = e.mount_path ∧
    (g_unix_mount_entry_copy e).device_path = e.device_path ∧
    (g_unix_mount_entry_copy e).root_path = e.root_path ∧
    (g_unix_mount_entry_copy e).filesystem_type = e.filesystem_type ∧
    (g_unix_mount_entry_copy e).options = e.options ∧
    (g_unix_mount_entry_copy e).is_read_only = e.is_read_only ∧
    (g_unix_mount_entry_copy e).is_system_internal = e.is_system_internal ∧
    g_unix_mount_entry_copy e = e ∧
    g_unix_mount_entry_compare e (g_unix_mount_entry_copy e) = 0 :=
  ⟨rfl, rfl, rfl, rfl, rfl, rfl, rfl, rfl,
   (compare_eq_zero_iff e (g_unix_mount_entry_copy e)).mpr ⟨rfl, rfl, rfl, rfl, rfl, rfl⟩⟩

theorem entry_at_loop_eq (path : String) (l : List GUnixMountEntry) :
    ∀ found : Option GUnixMountEntry,
      entry_at_loop path l found =
        match (l.filter (fun e => e.mount_path = path)).getLast? with
        | some e => some e
        | none => found := by
  induction l with
  | nil => intro found; rfl
  | cons a l ih =>
    intro found
    unfold entry_at_loop
    by_cases h : path = a.mount_path
    · have hs : strcmp path a.mount_path = 0 := (strcmp_eq_zero _ _).mpr h
      have hf : (a :: l).filter (fun e => decide (e.mount_path = path)) =
          a :: l.filter (fun e => decide (e.mount_path = path)) :=
        List.filter_cons_of_pos (by simp [h])
      rw [if_pos hs, ih, hf, List.getLast?_cons]
      cases (l.filter (fun e => decide (e.mount_path = path))).getLast? <;> rfl
    · have hs : ¬ strcmp path a.mount_path = 0 := fun hz => h ((strcmp_eq_zero _ _).mp hz)
      have hf : (a :: l).filter (fun e => decide (e.mount_path = path)) =
          l.filter (fun e => decide (e.mount_path = path)) :=
        List.filter_cons_of_neg (by simpa using fun e => h e.symm)
      rw [if_neg hs, ih, hf]

/-- C16: `g_unix_mount_entry_at` returns the last of the entries of the list whose mount
path equals the given path, and returns `NULL` exactly when no entry of the list has
that mount path. -/
theorem entry_at_is_last_match (s : MonitorState) (mounts : List GUnixMountEntry)
    (path : String) (time_read : Option Nat) :
    (g_unix_mount_entry_at s mounts path time_read).1 =
      (mounts.filter (fun e => e.mount_path = path)).getLast? ∧
    ((g_unix_mount_entry_at s mounts path time_read).1 = none ↔
      ∀ e ∈ mounts, e.mount_path ≠ path) := by
  have hres : (g_unix_mount_entry_at s mounts path time_read).1 =
      (mounts.filter (fun e => e.mount_path = path)).getLast? := by
    simp only [g_unix_mount_entry_at, g_unix_mount_entries_get, entry_at_loop_eq]
    cases (mounts.filter (fun e => decide (e.mount_path = path))).getLast? <;> rfl
  refine ⟨hres, ?_⟩
  rw [hres, List.getLast?_eq_none_iff, List.filter_eq_nil_iff]
  simp

/-! ## The timestamp of the mounts -/

/-- C17 as stated fails: with the mounts in `/proc/self/mountinfo` and no watch running,
the timestamp handed out at clock reading 100 counts as changed at clock reading 200,
although neither the table nor the monitoring state has changed. -/
theorem unwatched_proc_always_changed :
    g_unix_mount_entries_changed_since (MonitorState.proc_unwatched 200)
      (get_mounts_timestamp (MonitorState.proc_unwatched 100)) = true := by
  decide

/-- C17, amended: let `T` be the timestamp that `g_unix_mount_entries_get` hands out in
state `s`, and let `s2` be a later state with the same monitored file.  If the file is
outside `/proc`, `g_unix_mount_entries_changed_since (T)` is true exactly when the
modification time that `stat` reports has changed (a failing `stat` counting as 0).  If
the file is in `/proc` (or there is none) and the watch is running in both states, it is
true exactly when `mount_poller_time` has changed.  So in both cases it is false when
nothing has changed.  If the file is in `/proc` (or there is none) and the watch is not
running, it is true exactly when the monotonic clock reads differently. -/
theorem changed_since_by_state (s s2 : MonitorState) (mounts : List GUnixMountEntry)
    (v : Nat) (hfile : s2.monitor_file = s.monitor_file) :
    (g_unix_mount_entries_get s mounts (some v)).2 = some (get_mounts_timestamp s) ∧
    (∀ f, s.monitor_file = some f → g_str_has_prefix f "/proc/" = false →
      (g_unix_mount_entries_changed_since s2 (get_mounts_timestamp s) = true ↔
        s2.st_mtime.getD 0 ≠ s.st_mtime.getD 0)) ∧
    ((∀ f, s.monitor_file = some f → g_str_has_prefix f "/proc/" = true) →
      s.watch_running = true → s2.watch_running = true →
      (g_unix_mount_entries_changed_since s2 (get_mounts_timestamp s) = true ↔
        s2.mount_poller_time ≠ s.mount_poller_time)) ∧
    ((∀ f, s.monitor_file = some f → g_str_has_prefix f "/proc/" = true) →
      s.watch_running = false → s2.watch_running = false →
      (g_unix_mount_entries_changed_since s2 (get_mounts_timestamp s) = true ↔
        s2.monotonic_time ≠ s.monotonic_time)) := by
  refine ⟨rfl, ?_, ?_, ?_⟩
  · intro f hf hp
    have hf2 : s2.monitor_file = some f := hfile.trans hf
    simp only [g_unix_mount_entries_changed_since, get_mounts_timestamp, hf, hf2, hp]
    cases s.st_mtime <;> cases s2.st_mtime <;> simp
  · intro hproc hw hw2
    cases hf : s.monitor_file with
    | none =>
      have hf2 : s2.monitor_file = none := hfile.trans hf
      simp [g_unix_mount_entries_changed_since, get_mounts_timestamp, hf, hf2, hw, hw2]
    | some f =>
      have hf2 : s2.monitor_file = some f := hfile.trans hf
      simp [g_unix_mount_entries_changed_since, get_mounts_timestamp, hf, hf2, hw, hw2,
        hproc f hf]
  · intro hproc hw hw2
    cases hf : s.monitor_file with
    | none =>
      have hf2 : s2.monitor_file = none := hfile.trans hf
      simp [g_unix_mount_entries_changed_since, get_mounts_timestamp, hf, hf2, hw, hw2]
    | some f =>
      have hf2 : s2.monitor_file = some f := hfile.trans hf
      simp [g_unix_mount_entries_changed_since, get_mounts_timestamp, hf, hf2, hw, hw2,
        hproc f hf]

/-- C17 amended, with the mounts in `/etc/mtab`: nothing changed, so not changed; the
file modified one second later, so changed. -/
theorem changed_since_by_state_witness :
    g_unix_mount_entries_changed_since MonitorState.etc_mtab
      (get_mounts_timestamp MonitorState.etc_mtab) = false ∧
    g_unix_mount_entries_changed_since
      { MonitorState.etc_mtab with st_mtime := some 1700000001, monotonic_time := 9000 }
      (get_mounts_timestamp MonitorState.etc_mtab) = true :=
  ⟨by
    have h := (changed_since_by_state MonitorState.etc_mtab MonitorState.etc_mtab [] 0
      rfl).2.1 "/etc/mtab" rfl (by decide)
    rw [Bool.eq_false_iff]
    intro hc
    exact (h.mp hc) rfl,
   ((changed_since_by_state MonitorState.etc_mtab
      { MonitorState.etc_mtab with st_mtime := some 1700000001, monotonic_time := 9000 }
      [] 0 rfl).2.1 "/etc/mtab" rfl (by decide)).mpr (by decide)⟩

/-! ## Reading a table that cannot be read -/

/-- C18, at a table that cannot be opened, with the mounts timestamp 1700000000 and the
caller's variables holding 5 and 7: the mntent variant returns `NULL` but stores the
timestamp in `time_read_out` and leaves `n_entries_out` at 7; the libmount variant
stores the timestamp as well, sets `n_entries_out` to 0 and returns an array. -/
theorem unreadable_table_outputs :
    g_unix_mount_entries_get_from_file Backend.mntent BuildConfig.usual MountsHost.unreadable
        MonitorState.etc_mtab (some "/nonexistent") (some 5) (some 7) =
      (none, some 1700000000, some 7) ∧
    g_unix_mount_entries_get_from_file Backend.libmount BuildConfig.usual
        MountsHost.unreadable MonitorState.etc_mtab (some "/nonexistent") (some 5) (some 7) =
      (some [], some 1700000000, some 0) := by
  decide

end GUnixMounts

namespace GioModule

/-! ## Module scopes -/

theorem is_valid_bad_name {platform : Platform} {b : String}
    (hbad : module_name_ok platform b = false) (scope : Option GIOModuleScope) :
    is_valid_module_name platform b scope = (false, scope) := by
  simp [is_valid_module_name, hbad]

theorem is_valid_blocked {platform : Platform} {b : String} {sc : GIOModuleScope}
    (hin : b ∈ sc.basenames) :
    is_valid_module_name platform b (some sc) = (false, some sc) := by
  unfold is_valid_module_name
  split
  · rfl
  · simp [_g_io_module_scope_contains, hin]

theorem is_valid_first {platform : Platform} {b : String} {sc : GIOModuleScope}
    (hflag : sc.flags &&& G_IO_MODULE_SCOPE_BLOCK_DUPLICATES ≠ 0)
    (hok : module_name_ok platform b = true) (hnot : b ∉ sc.basenames) :
    is_valid_module_name platform b (some sc) =
      (true, some (g_io_module_scope_block sc b)) := by
  simp [is_valid_module_name, hok, _g_io_module_scope_contains, hnot, hflag]

/-- What a run of checks through a duplicate-blocking scope accepts and blocks. -/
theorem valid_entries_scope (platform : Platform) (names : List String) :
    ∀ sc : GIOModuleScope, sc.flags &&& G_IO_MODULE_SCOPE_BLOCK_DUPLICATES ≠ 0 →
      ∃ sc2, (valid_entries platform names (some sc)).2 = some sc2 ∧
        sc2.flags = sc.flags ∧
        (∀ x, x ∈ sc2.basenames ↔
          x ∈ sc.basenames ∨ x ∈ (valid_entries platform names (some sc)).1) ∧
        (valid_entries platform names (some sc)).1.Nodup ∧
        (valid_entries platform names (some sc)).1.Sublist names ∧
        ∀ x, x ∈ (valid_entries platform names (some sc)).1 ↔
          x ∈ names ∧ module_name_ok platform x = true ∧ x ∉ sc.basenames := by
  induction names with
  | nil =>
    intro sc _
    exact ⟨sc, rfl, rfl, by simp [valid_entries], by simp [valid_entries],
      by simp [valid_entries], by simp [valid_entries]⟩
  | cons n rest ih =>
    intro sc hflag
    by_cases hok : module_name_ok platform n = true
    · by_cases hin : n ∈ sc.basenames
      · have hv := @is_valid_blocked platform n sc hin
        obtain ⟨sc2, h2, hf, hb, hnd, hsub, hmem⟩ := ih sc hflag
        have hve : valid_entries platform (n :: rest) (some sc) =
            valid_entries platform rest (some sc) := by
          simp [valid_entries, hv]
        rw [hve]
        refine ⟨sc2, h2, hf, hb, hnd, hsub.cons n, fun x => ?_⟩
        rw [hmem x]
        constructor
        · rintro ⟨hx, hxo, hxn⟩
          exact ⟨List.mem_cons_of_mem _ hx, hxo, hxn⟩
        · rintro ⟨hx, hxo, hxn⟩
          rcases List.mem_cons.mp hx with rfl | hx
          · exact absurd hin hxn
          · exact ⟨hx, hxo, hxn⟩
      · have hv := is_valid_first hflag hok hin
        have hflag2 : (g_io_module_scope_block sc n).flags &&&
            G_IO_MODULE_SCOPE_BLOCK_DUPLICATES ≠ 0 := hflag
        obtain ⟨sc2, h2, hf, hb, hnd, hsub, hmem⟩ := ih (g_io_module_scope_block sc n) hflag2
        have hve : valid_entries platform (n :: rest) (some sc) =
            (n :: (valid_entries platform rest (some (g_io_module_scope_block sc n))).1,
             (valid_entries platform rest (some (g_io_module_scope_block sc n))).2) := by
          simp [valid_entries, hv]
        rw [hve]
        have hblock : ∀ x, x ∈ (g_io_module_scope_block sc n).basenames ↔
            x = n ∨ x ∈ sc.basenames := by
          intro x
          simp [g_io_module_scope_block]
        refine ⟨sc2, h2, hf, fun x => ?_, ?_, hsub.cons₂ n, fun x => ?_⟩
        · rw [hb x, hblock x]
          simp only [List.mem_cons]
          tauto
        · refine List.nodup_cons.mpr ⟨?_, hnd⟩
          intro hn
          have := ((hmem n).mp hn).2.2
          exact this ((hblock n).mpr (Or.inl rfl))
        · simp only [List.mem_cons, hmem x, hblock x]
          constructor
          · rintro (rfl | ⟨hx, hxo, hxn⟩)
            · exact ⟨Or.inl rfl, hok, hin⟩
            · exact ⟨Or.inr hx, hxo, fun hc => hxn (Or.inr hc)⟩
          · rintro ⟨hx, hxo, hxn⟩
            by_cases hxe : x = n
            · exact Or.inl hxe
            · rcases hx with hx | hx
              · exact absurd hx hxe
              · exact Or.inr ⟨hx, hxo, fun hc => hc.elim hxe hxn⟩
    · have hbad : module_name_ok platform n = false := by simpa using hok
      have hv := is_valid_bad_name hbad (some sc)
      obtain ⟨sc2, h2, hf, hb, hnd, hsub, hmem⟩ := ih sc hflag
      have hve : valid_entries platform (n :: rest) (some sc) =
          valid_entries platform rest (some sc) := by
        simp [valid_entries, hv]
      rw [hve]
      refine ⟨sc2, h2, hf, hb, hnd, hsub.cons n, fun x => ?_⟩
      rw [hmem x]
      constructor
      · rintro ⟨hx, hxo, hxn⟩
        exact ⟨List.mem_cons_of_mem _ hx, hxo, hxn⟩
      · rintro ⟨hx, hxo, hxn⟩
        rcases List.mem_cons.mp hx with rfl | hx
        · rw [hbad] at hxo
          cases hxo
        · exact ⟨hx, hxo, hxn⟩

/-- C19: in a scope with the block-duplicates flag, a basename that passes the naming
check and is not blocked yet is accepted by `is_valid_module_name` and blocked by that
very check; whatever further names are checked through the scope, a later check of the
basename rejects it; the names accepted in a run of checks (several directories scanned
through the scope) are those names of the run that pass the naming check and were not
blocked before, each of them once, in the order of the run; a basename that fails the
naming check is rejected with the scope left as it is.  On Unix the naming check is
"begins with `lib` and ends with `.so`". -/
theorem scope_blocks_duplicates (platform : Platform) (sc : GIOModuleScope)
    (hflag : sc.flags &&& G_IO_MODULE_SCOPE_BLOCK_DUPLICATES ≠ 0) :
    (∀ b, module_name_ok platform b = true → b ∉ sc.basenames →
      is_valid_module_name platform b (some sc) =
        (true, some (g_io_module_scope_block sc b)) ∧
      b ∈ (g_io_module_scope_block sc b).basenames) ∧
    (∀ b names, module_name_ok platform b = true → b ∉ sc.basenames →
      (is_valid_module_name platform b
        (valid_entries platform names (some (g_io_module_scope_block sc b))).2).1 =
        false) ∧
    (∀ names, (valid_entries platform names (some sc)).1.Nodup ∧
      (valid_entries platform names (some sc)).1.Sublist names ∧
      ∀ x, x ∈ (valid_entries platform names (some sc)).1 ↔
        x ∈ names ∧ module_name_ok platform x = true ∧ x ∉ sc.basenames) ∧
    (∀ b (scope : Option GIOModuleScope), module_name_ok platform b = false →
      is_valid_module_name platform b scope = (false, scope)) ∧
    ∀ b, module_name_ok Platform.unix b = true ↔
      (∃ rest, b.data = "lib".data ++ rest) ∧ ∃ front, b.data = front ++ ".so".data := by
  refine ⟨?_, ?_, ?_, ?_, ?_⟩
  · intro b hok hnot
    exact ⟨is_valid_first hflag hok hnot, by simp [g_io_module_scope_block]⟩
  · intro b names _ _
    have hflag2 : (g_io_module_scope_block sc b).flags &&&
        G_IO_MODULE_SCOPE_BLOCK_DUPLICATES ≠ 0 := hflag
    obtain ⟨sc2, h2, _, hb, _⟩ :=
      valid_entries_scope platform names (g_io_module_scope_block sc b) hflag2
    rw [h2]
    have hin : b ∈ sc2.basenames :=
      (hb b).mpr (Or.inl (by simp [g_io_module_scope_block]))
    rw [is_valid_blocked hin]
  · intro names
    obtain ⟨_, _, _, _, hnd, hsub, hmem⟩ := valid_entries_scope platform names sc hflag
    exact ⟨hnd, hsub, hmem⟩
  · intro b scope hbad
    exact is_valid_bad_name hbad scope
  · intro b
    rw [← GUnixMounts.has_prefix_iff, ← GUnixMounts.has_suffix_iff]
    unfold module_name_ok
    cases GUnixMounts.g_str_has_prefix b "lib" <;>
      cases GUnixMounts.g_str_has_suffix b ".so" <;> simp

/-- C19, for a new scope with the flag and two directories that both hold `libfoo.so`:
one module, for the first file. -/
theorem scope_blocks_duplicates_witness :
    (valid_entries Platform.unix ["libfoo.so", "notes.txt", "libfoo.so"]
      (some (g_io_module_scope_new G_IO_MODULE_SCOPE_BLOCK_DUPLICATES))).1 = ["libfoo.so"] ∧
    (valid_entries Platform.unix ["libfoo.so", "notes.txt", "libfoo.so"]
      (some (g_io_module_scope_new G_IO_MODULE_SCOPE_BLOCK_DUPLICATES))).1.Nodup :=
  ⟨by decide,
   ((scope_blocks_duplicates Platform.unix
      (g_io_module_scope_new G_IO_MODULE_SCOPE_BLOCK_DUPLICATES) (by decide)).2.2.1
      ["libfoo.so", "notes.txt", "libfoo.so"]).1⟩

/-! ## The module cache file -/

theorem strchr_some (c : Char) :
    ∀ (l : List Char) (i : Nat), strchr l c = some i ↔
      ∃ pre rest, l = pre ++ c :: rest ∧ c ∉ pre ∧ pre.length = i := by
  intro l
  induction l with
  | nil =>
    intro i
    simp [strchr]
  | cons x xs ih =>
    intro i
    unfold strchr
    by_cases hx : x = c
    · rw [if_pos hx]
      constructor
      · intro h
        cases h
        exact ⟨[], xs, by simp [hx], by simp, rfl⟩
      · rintro ⟨pre, rest, hl, hnot, hlen⟩
        cases pre with
        | nil => simp at hlen; rw [hlen]
        | cons p ps =>
          simp only [List.cons_append, List.cons.injEq] at hl
          exact absurd (List.mem_cons.mpr (Or.inl (hl.1 ▸ hx.symm))) hnot
    · rw [if_neg hx]
      constructor
      · intro h
        cases hs : strchr xs c with
        | none => rw [hs] at h; cases h
        | some j =>
          rw [hs] at h
          simp only [Option.map_some', Option.some.injEq] at h
          obtain ⟨pre, rest, hl, hnot, hlen⟩ := (ih j).mp hs
          refine ⟨x :: pre, rest, by simp [hl], ?_, by simp [hlen, h]⟩
          intro hc
          rcases List.mem_cons.mp hc with hc | hc
          · exact hx hc.symm
          · exact hnot hc
      · rintro ⟨pre, rest, hl, hnot, hlen⟩
        cases pre with
        | nil =>
          simp only [List.nil_append, List.cons.injEq] at hl
          exact absurd hl.1 hx
        | cons p ps =>
          simp only [List.cons_append, List.cons.injEq] at hl
          have hs : strchr xs c = some ps.length :=
            (ih ps.length).mpr ⟨ps, rest, hl.2, fun hc => hnot (List.mem_cons_of_mem _ hc), rfl⟩
          rw [hs]
          simp only [Option.map_some', Option.some.injEq]
          simpa using hlen

theorem strchr_none (c : Char) :
    ∀ l : List Char, strchr l c = none ↔ c ∉ l := by
  intro l
  induction l with
  | nil => simp [strchr]
  | cons x xs ih =>
    unfold strchr
    by_cases hx : x = c
    · simp [hx]
    · rw [if_neg hx]
      simp only [Option.map_eq_none', ih, List.mem_cons, not_or]
      constructor
      · intro h
        exact ⟨fun hc => hx hc.symm, h⟩
      · intro h
        exact h.2

theorem split_pieces_ne_nil (d : Char) : ∀ l : List Char, split_pieces d l ≠ [] := by
  intro l
  induction l with
  | nil => simp [split_pieces]
  | cons x xs ih =>
    unfold split_pieces
    by_cases hx : x = d
    · simp [hx]
    · rw [if_neg hx]
      split <;> simp

/-- The pieces hold no delimiter, and joined with the delimiter they give the text. -/
theorem split_pieces_spec (d : Char) :
    ∀ l : List Char, (∀ p ∈ split_pieces d l, d ∉ p) ∧
      [d].intercalate (split_pieces d l) = l := by
  intro l
  induction l with
  | nil => simp [split_pieces, List.intercalate]
  | cons x xs ih =>
    obtain ⟨ih1, ih2⟩ := ih
    unfold split_pieces
    by_cases hx : x = d
    · rw [if_pos hx]
      refine ⟨?_, ?_⟩
      · intro p hp
        rcases List.mem_cons.mp hp with rfl | hp
        · simp
        · exact ih1 p hp
      · cases hs : split_pieces d xs with
        | nil => exact absurd hs (split_pieces_ne_nil d xs)
        | cons q qs =>
          rw [hs] at ih2
          rw [← ih2, hx]
          simp [List.intercalate, List.intersperse]
    · rw [if_neg hx]
      cases hs : split_pieces d xs with
      | nil => exact absurd hs (split_pieces_ne_nil d xs)
      | cons q qs =>
        rw [hs] at ih1 ih2
        refine ⟨?_, ?_⟩
        · intro p hp
          rcases List.mem_cons.mp hp with rfl | hp
          · intro hc
            rcases List.mem_cons.mp hc with hc | hc
            · exact hx hc.symm
            · exact ih1 q (List.mem_cons_self _ _) hc
          · exact ih1 p (List.mem_cons_of_mem _ hp)
        · rw [← ih2]
          cases qs <;> simp [List.intercalate, List.intersperse]

theorem find_filter_ne (t : List (String × List String)) (k name : String)
    (hne : k ≠ name) :
    (t.filter (fun e => e.1 ≠ k)).find? (fun e => e.1 = name) =
      t.find? (fun e => e.1 = name) := by
  induction t with
  | nil => rfl
  | cons e es ih =>
    by_cases hk : e.1 = k
    · have hn : ¬ e.1 = name := fun h => hne (hk.symm.trans h)
      rw [List.filter_cons_of_neg (by simpa using hk), List.find?_cons_of_neg _ (by simpa using hn)]
      exact ih
    · rw [List.filter_cons_of_pos (by simpa using hk)]
      by_cases hn : e.1 = name
      · rw [List.find?_cons_of_pos _ (by simpa using hn),
          List.find?_cons_of_pos _ (by simpa using hn)]
      · rw [List.find?_cons_of_neg _ (by simpa using hn),
          List.find?_cons_of_neg _ (by simpa using hn)]
        exact ih

theorem lookup_insert (cache : Option (List (String × List String))) (k name : String)
    (v : List String) :
    cache_lookup (some (g_hash_table_insert (cache.getD []) k v)) name =
      if k = name then some v else cache_lookup cache name := by
  unfold cache_lookup g_hash_table_insert
  by_cases hk : k = name
  · simp [hk]
  · rw [if_neg hk]
    simp only [List.find?_cons, decide_eq_true_eq, hk, decide_False]
    rw [find_filter_ne _ k name hk]
    cases cache <;> simp

/-- Looking a name up after the loop over the lines: the last line with that key
decides, and a name no line has is looked up in the table the loop started from. -/
theorem lookup_parse_cache_lines (name : String) :
    ∀ (lines : List (List Char)) (cache : Option (List (String × List String))),
      cache_lookup (parse_cache_lines lines cache) name =
        match (lines.filterMap parse_cache_line).reverse.find? (fun e => e.1 = name) with
        | some e => some e.2
        | none => cache_lookup cache name := by
  intro lines
  induction lines with
  | nil =>
    intro cache
    simp [parse_cache_lines]
  | cons line rest ih =>
    intro cache
    cases hp : parse_cache_line line with
    | none =>
      have h1 : parse_cache_lines (line :: rest) cache = parse_cache_lines rest cache := by
        simp [parse_cache_lines, hp]
      rw [h1, ih cache]
      simp [List.filterMap_cons, hp]
    | some kv =>
      obtain ⟨k, v⟩ := kv
      have h1 : parse_cache_lines (line :: rest) cache =
          parse_cache_lines rest (some (g_hash_table_insert (cache.getD []) k v)) := by
        simp [parse_cache_lines, hp]
      rw [h1, ih, lookup_insert]
      simp only [List.filterMap_cons, hp, List.reverse_cons, List.find?_append]
      cases hf : List.find? (fun e => decide (e.1 = name))
          (List.filterMap parse_cache_line rest).reverse with
      | some e => simp
      | none =>
        by_cases hk : k = name
        · simp [hk]
        · simp [hk]

theorem parse_cache_line_some (line : List Char) (k : String) (v : List String) :
    parse_cache_line line = some (k, v) ↔
      ∃ pre rest, line = pre ++ ':' :: rest ∧ ':' ∉ pre ∧ pre ≠ [] ∧
        pre.head? ≠ some '#' ∧ k = String.mk pre ∧
        v = (g_strsplit (rest.dropWhile g_ascii_isspace) ',').map String.mk := by
  unfold parse_cache_line
  constructor
  · intro h
    by_cases hh : line.head? = some '#'
    · rw [if_pos hh] at h
      cases h
    · rw [if_neg hh] at h
      cases hs : strchr line ':' with
      | none => rw [hs] at h; cases h
      | some colon =>
        rw [hs] at h
        simp only at h
        by_cases hc : colon = 0
        · rw [if_pos hc] at h
          cases h
        · rw [if_neg hc] at h
          obtain ⟨pre, rest, hl, hnot, hlen⟩ := (strchr_some ':' line colon).mp hs
          have hpre : pre ≠ [] := by
            intro hp
            rw [hp] at hlen
            exact hc hlen.symm
          have htake : line.take colon = pre := by
            rw [hl, ← hlen]
            simp
          have hdrop : line.drop (colon + 1) = rest := by
            rw [hl, ← hlen]
            simp
          rw [htake, hdrop] at h
          simp only [Option.some.injEq, Prod.mk.injEq] at h
          refine ⟨pre, rest, hl, hnot, hpre, ?_, h.1.symm, h.2.symm⟩
          intro hp
          apply hh
          cases pre with
          | nil => exact absurd rfl hpre
          | cons p ps =>
            rw [hl]
            simpa using hp
  · rintro ⟨pre, rest, hl, hnot, hpre, hhead, hk, hv⟩
    have hh : ¬ line.head? = some '#' := by
      intro hp
      apply hhead
      cases pre with
      | nil => exact absurd rfl hpre
      | cons p ps =>
        rw [hl] at hp
        simpa using hp
    rw [if_neg hh]
    have hs : strchr line ':' = some pre.length :=
      (strchr_some ':' line pre.length).mpr ⟨pre, rest, hl, hnot, rfl⟩
    rw [hs]
    simp only
    have hc : ¬ pre.length = 0 := by
      intro hz
      exact hpre (List.length_eq_zero.mp hz)
    rw [if_neg hc]
    have htake : line.take pre.length = pre := by
      rw [hl]
      simp
    have hdrop : line.drop (pre.length + 1) = rest := by
      rw [hl]
      simp
    rw [htake, hdrop, hk, hv]

theorem parse_cache_line_none (line : List Char) :
    parse_cache_line line = none ↔
      line.head? = some '#' ∨ ':' ∉ line ∨ line.head? = some ':' := by
  unfold parse_cache_line
  by_cases hh : line.head? = some '#'
  · simp [hh]
  · rw [if_neg hh]
    cases hs : strchr line ':' with
    | none =>
      simp only [true_iff]
      exact Or.inr (Or.inl ((strchr_none ':' line).mp hs))
    | some colon =>
      obtain ⟨pre, rest, hl, hnot, hlen⟩ := (strchr_some ':' line colon).mp hs
      simp only
      by_cases hc : colon = 0
      · rw [if_pos hc]
        simp only [true_iff]
        refine Or.inr (Or.inr ?_)
        rw [hc] at hlen
        rw [hl, List.length_eq_zero.mp hlen]
        rfl
      · rw [if_neg hc]
        constructor
        · intro h
          cases h
        · intro h
          exfalso
          rcases h with h | h | h
          · exact hh h
          · apply h
            rw [hl]
            simp
          · cases pre with
            | nil => exact hc hlen.symm
            | cons p ps =>
              rw [hl] at h
              simp only [List.cons_append, List.head?_cons, Option.some.injEq] at h
              exact hnot (List.mem_cons.mpr (Or.inl h.symm))

/-- C20: the loop over the lines of `giomodule.cache` stores an entry for a line exactly
when the line does not start with `#`, holds a `:`, and its first `:` is not its first
character; the key is the text before the first `:`, the value is the text after that
`:` with its leading ASCII whitespace dropped and then cut at every `,` (the pieces hold
no `,` and, joined by `,`, give the text back; an empty text gives no piece).  Every
other line (first character `#`, no `:`, first character `:`) stores nothing, and the
loop goes on: the table read from a file answers a lookup with the value of the last
line that has the key, and with nothing for a key that no line has. -/
theorem cache_line_entries :
    (∀ line k v, parse_cache_line line = some (k, v) ↔
      ∃ pre rest, line = pre ++ ':' :: rest ∧ ':' ∉ pre ∧ pre ≠ [] ∧
        pre.head? ≠ some '#' ∧ k = String.mk pre ∧
        v = (g_strsplit (rest.dropWhile g_ascii_isspace) ',').map String.mk) ∧
    (∀ line, parse_cache_line line = none ↔
      line.head? = some '#' ∨ ':' ∉ line ∨ line.head? = some ':') ∧
    (∀ text, text ≠ [] → (∀ p ∈ g_strsplit text ',', ',' ∉ p) ∧
      [','].intercalate (g_strsplit text ',') = text) ∧
    g_strsplit [] ',' = [] ∧
    ∀ data name, cache_lookup (read_cache data) name =
      ((cache_entries data).reverse.find? (fun e => e.1 = name)).map (fun e => e.2) := by
  refine ⟨parse_cache_line_some, parse_cache_line_none, ?_, rfl, ?_⟩
  · intro text htext
    unfold g_strsplit
    rw [if_neg htext]
    exact split_pieces_spec ',' text
  · intro data name
    unfold read_cache cache_entries
    rw [lookup_parse_cache_lines]
    cases List.find? (fun e => decide (e.1 = name))
      (List.filterMap parse_cache_line (g_strsplit data.data '\n')).reverse <;>
      simp [cache_lookup]

/-- C20 on the lines of a small cache file. -/
theorem cache_line_entries_witness :
    parse_cache_line "libgvfsdbus.so: gio-vfs,gio-volume-monitor".data =
      some ("libgvfsdbus.so", ["gio-vfs", "gio-volume-monitor"]) ∧
    parse_cache_line "# generated".data = none ∧
    parse_cache_line "no colon here".data = none ∧
    parse_cache_line ":gio-vfs".data = none ∧
    parse_cache_line ":a:b".data = none ∧
    [','].intercalate (g_strsplit "a,,b".data ',') = "a,,b".data :=
  ⟨by decide,
   (cache_line_entries.2.1 _).mpr (Or.inl (by decide)),
   (cache_line_entries.2.1 _).mpr (Or.inr (Or.inl (by decide))),
   (cache_line_entries.2.1 _).mpr (Or.inr (Or.inr (by decide))),
   (cache_line_entries.2.1 _).mpr (Or.inr (Or.inr (by decide))),
   (cache_line_entries.2.2.1 _ (by decide)).2⟩

end GioModule

namespace GUnixMounts

/-! ## The mount points of the static table -/

theorem ignored_mount_path_iff (mount_path : String) :
    ignored_mount_path mount_path = true ↔
      mount_path = "ignore" ∨ mount_path = "swap" ∨ mount_path = "none" := by
  unfold ignored_mount_path
  simp only [decide_eq_true_eq, strcmp_eq_zero]

theorem mntent_points_loop_eq (h : MountPointsHost) :
    ∀ (rows : List mntent) (return_array : List GUnixMountPoint),
      mntent_points_loop h rows return_array =
        return_array ++
          (rows.filter (fun m => decide (m.mnt_dir ≠ "ignore" ∧ m.mnt_dir ≠ "swap" ∧
            m.mnt_dir ≠ "none" ∧ h.hasmntopt m "bind" = none))).map
            (mntent_mount_point h) := by
  intro rows
  induction rows with
  | nil => intro acc; simp [mntent_points_loop]
  | cons m rest ih =>
    intro acc
    unfold mntent_points_loop
    by_cases hi : ignored_mount_path m.mnt_dir = true
    · have hi2 := (ignored_mount_path_iff _).mp hi
      rw [if_pos hi, ih, List.filter_cons_of_neg]
      simp only [decide_eq_true_eq]
      tauto
    · have hi2 : ¬ (m.mnt_dir = "ignore" ∨ m.mnt_dir = "swap" ∨ m.mnt_dir = "none") :=
        fun hc => hi ((ignored_mount_path_iff _).mpr hc)
      rw [if_neg hi]
      cases hb : h.hasmntopt m "bind" with
      | some pos =>
        rw [if_pos (by simp), ih, List.filter_cons_of_neg]
        simp [hb]
      | none =>
        rw [if_neg (by simp), ih, List.filter_cons_of_pos]
        · simp
        · simp only [decide_eq_true_eq]
          tauto

theorem libmount_points_loop_eq (h : MountPointsHost) :
    ∀ (rows : List libmnt_fs) (return_array : List GUnixMountPoint),
      libmount_points_loop h rows return_array =
        return_array ++
          (rows.filter (fun fs => decide (fs.target ≠ "ignore" ∧ fs.target ≠ "swap" ∧
            fs.target ≠ "none" ∧ libmount_bind h fs = false))).map
            (libmount_mount_point h) := by
  intro rows
  induction rows with
  | nil => intro acc; simp [libmount_points_loop]
  | cons m rest ih =>
    intro acc
    unfold libmount_points_loop
    by_cases hi : ignored_mount_path m.target = true
    · have hi2 := (ignored_mount_path_iff _).mp hi
      rw [if_pos hi, ih, List.filter_cons_of_neg]
      simp only [decide_eq_true_eq]
      tauto
    · have hi2 : ¬ (m.target = "ignore" ∨ m.target = "swap" ∨ m.target = "none") :=
        fun hc => hi ((ignored_mount_path_iff _).mpr hc)
      rw [if_neg hi]
      cases hb : libmount_bind h m with
      | true =>
        rw [if_pos rfl, ih, List.filter_cons_of_neg]
        simp [hb]
      | false =>
        rw [if_neg (by simp), ih, List.filter_cons_of_pos]
        · simp
        · simp only [decide_eq_true_eq]
          tauto

/-- C22: for a table that can be read, both variants of
`_g_unix_mount_points_get_from_file` return, in table order, one point for every row
whose mount path is none of `ignore`, `swap` and `none` and which is not marked as a bind
mount (the option `bind` for `hasmntopt`, the flag `MS_BIND` of its options for
libmount), and nothing else; the point of a row has the mount path of the row, so no
point of the list has the mount path `ignore`, `swap` or `none`; the count stored is the
length of the list. -/
theorem mount_points_skip_ignored_and_bind (h : MountPointsHost)
    (table_path : Option String) (time_read_out n_points_out : Option Nat) :
    (∀ rows, h.setmntent table_path = some rows →
      _g_unix_mount_points_get_from_file Backend.mntent h table_path time_read_out
          n_points_out =
        (some ((rows.filter (fun m => decide (m.mnt_dir ≠ "ignore" ∧ m.mnt_dir ≠ "swap" ∧
            m.mnt_dir ≠ "none" ∧ h.hasmntopt m "bind" = none))).map (mntent_mount_point h)),
         store_out time_read_out (get_mount_points_timestamp h),
         store_out n_points_out
           ((rows.filter (fun m => decide (m.mnt_dir ≠ "ignore" ∧ m.mnt_dir ≠ "swap" ∧
             m.mnt_dir ≠ "none" ∧ h.hasmntopt m "bind" = none))).length))) ∧
    (∀ rows, h.mnt_table_parse_fstab table_path = some rows →
      _g_unix_mount_points_get_from_file Backend.libmount h table_path time_read_out
          n_points_out =
        (some ((rows.filter (fun fs => decide (fs.target ≠ "ignore" ∧ fs.target ≠ "swap" ∧
            fs.target ≠ "none" ∧ libmount_bind h fs = false))).map
            (libmount_mount_point h)),
         store_out time_read_out (get_mount_points_timestamp h),
         store_out n_points_out
           ((rows.filter (fun fs => decide (fs.target ≠ "ignore" ∧ fs.target ≠ "swap" ∧
             fs.target ≠ "none" ∧ libmount_bind h fs = false))).length))) ∧
    (∀ m, (mntent_mount_point h m).mount_path = m.mnt_dir) ∧
    (∀ fs, (libmount_mount_point h fs).mount_path = fs.target) ∧
    ∀ b points,
      (_g_unix_mount_points_get_from_file b h table_path time_read_out n_points_out).1 =
        some points →
      ∀ p ∈ points, p.mount_path ≠ "ignore" ∧ p.mount_path ≠ "swap" ∧
        p.mount_path ≠ "none" := by
  have hm : ∀ m, (mntent_mount_point h m).mount_path = m.mnt_dir := fun _ => rfl
  have hl : ∀ fs, (libmount_mount_point h fs).mount_path = fs.target := fun _ => rfl
  refine ⟨?_, ?_, hm, hl, ?_⟩
  · intro rows hr
    simp only [_g_unix_mount_points_get_from_file, hr, mntent_points_loop_eq,
      List.nil_append, g_ptr_array_free, List.length_map]
  · intro rows hr
    simp only [_g_unix_mount_points_get_from_file, hr, libmount_points_loop_eq,
      List.nil_append, g_ptr_array_free, List.length_map]
  · intro b points hp p hpm
    cases b with
    | libmount =>
      cases hr : h.mnt_table_parse_fstab table_path with
      | none =>
        simp only [_g_unix_mount_points_get_from_file, hr, g_ptr_array_free,
          Option.some.injEq] at hp
        subst hp
        cases hpm
      | some rows =>
        simp only [_g_unix_mount_points_get_from_file, hr, libmount_points_loop_eq,
          List.nil_append, g_ptr_array_free, Option.some.injEq] at hp
        subst hp
        obtain ⟨fs, hfs, rfl⟩ := List.mem_map.mp hpm
        have hk := (List.mem_filter.mp hfs).2
        simp only [decide_eq_true_eq] at hk
        rw [hl]
        exact ⟨hk.1, hk.2.1, hk.2.2.1⟩
    | mntent =>
      cases hr : h.setmntent table_path with
      | none =>
        simp only [_g_unix_mount_points_get_from_file, hr] at hp
        cases hp
      | some rows =>
        simp only [_g_unix_mount_points_get_from_file, hr, mntent_points_loop_eq,
          List.nil_append, g_ptr_array_free, Option.some.injEq] at hp
        subst hp
        obtain ⟨m, hmm, rfl⟩ := List.mem_map.mp hpm
        have hk := (List.mem_filter.mp hmm).2
        simp only [decide_eq_true_eq] at hk
        rw [hm]
        exact ⟨hk.1, hk.2.1, hk.2.2.1⟩

/-- C22 on an fstab with the rows `/`, `swap`, a bind mount and `/home`: two points, for
`/` and for `/home`, in this order. -/
theorem mount_points_skip_ignored_and_bind_witness :
    (_g_unix_mount_points_get_from_file Backend.mntent MountPointsHost.demo
        (some "/etc/fstab") none (some 9)).2.2 = some 2 ∧
    ((_g_unix_mount_points_get_from_file Backend.mntent MountPointsHost.demo
        (some "/etc/fstab") none (some 9)).1.map
      (fun l => l.map (fun p => p.mount_path))) = some ["/", "/home"] := by
  have h := (mount_points_skip_ignored_and_bind MountPointsHost.demo (some "/etc/fstab")
    none (some 9)).1 _ rfl
  rw [h]
  decide

/-! ## The mount monitor -/

/-- C23, at a poll that finds a new mount: `mount_change_poller` notices that the active
mounts changed and emits `MOUNTPOINTS_CHANGED`, while `proc_mounts_changed` and
`mtab_file_changed_cb` emit `MOUNTS_CHANGED` for the same kind of change and
`fstab_file_changed` emits `MOUNTPOINTS_CHANGED` for a change of the fstab file. -/
theorem poller_emits_mountpoints_changed :
    (mount_change_poller (MountMonitor.started [] 10) [usb_mount] 20).emitted =
      [MonitorSignal.MOUNTPOINTS_CHANGED] ∧
    (proc_mounts_changed (MountMonitor.started [] 10) true false (some 0) 20).emitted =
      [MonitorSignal.MOUNTS_CHANGED] ∧
    (mtab_file_changed_cb (MountMonitor.started [] 10)).emitted =
      [MonitorSignal.MOUNTS_CHANGED] ∧
    (fstab_file_changed (MountMonitor.started [] 10) GFileMonitorEvent.CHANGED).emitted =
      [MonitorSignal.MOUNTPOINTS_CHANGED] := by
  decide

/-- C28, at a table with two records of the device `/dev/root` on a system where
`/dev/root` resolves to `/dev/sda1`: the second record is looked up under `/dev/root`,
the first was stored under `/dev/sda1`, so both are kept and the list has two entries
with the device path `/dev/sda1`. -/
theorem dev_root_records_kept_twice :
    (_g_unix_mounts_get_from_file Backend.mntent BuildConfig.usual MountsHost.dev_root
        MonitorState.etc_mtab (some "/etc/mtab") none none).1.map
      (fun l => l.map (fun e => (e.mount_path, e.device_path))) =
      some [("/", some "/dev/sda1"), ("/mnt/bind", some "/dev/sda1")] := by
  decide

theorem poller_has_changed_cons (a b : GUnixMountEntry) (l1 l2 : List GUnixMountEntry) :
    poller_has_changed (a :: l1) (b :: l2) =
      if g_unix_mount_entry_compare a b ≠ 0 then true else poller_has_changed l1 l2 := by
  unfold poller_has_changed
  by_cases hc : g_unix_mount_entry_compare a b ≠ 0
  · simp [poller_loop, hc]
  · simp only [poller_loop, if_neg hc]

theorem poller_has_changed_iff :
    ∀ new old : List GUnixMountEntry,
      poller_has_changed new old = true ↔
        new.length ≠ old.length ∨
        ∃ (i : Nat) (a b : GUnixMountEntry), new[i]? = some a ∧ old[i]? = some b ∧ g_unix_mount_entry_compare a b ≠ 0 := by
  intro new
  induction new with
  | nil =>
    intro old
    cases old with
    | nil => simp [poller_has_changed, poller_loop]
    | cons b l2 => simp [poller_has_changed, poller_loop]
  | cons a l1 ih =>
    intro old
    cases old with
    | nil => simp [poller_has_changed, poller_loop]
    | cons b l2 =>
      rw [poller_has_changed_cons]
      by_cases hc : g_unix_mount_entry_compare a b ≠ 0
      · rw [if_pos hc]
        simp only [true_iff]
        exact Or.inr ⟨0, a, b, by simp, by simp, hc⟩
      · rw [if_neg hc, ih l2]
        constructor
        · rintro (hlen | ⟨i, x, y, hx, hy, hxy⟩)
          · exact Or.inl (by simpa using hlen)
          · exact Or.inr ⟨i + 1, x, y, by simpa using hx, by simpa using hy, hxy⟩
        · rintro (hlen | ⟨i, x, y, hx, hy, hxy⟩)
          · exact Or.inl (by simpa using hlen)
          · cases i with
            | zero =>
              simp only [List.getElem?_cons_zero, Option.some.injEq] at hx hy
              subst hx
              subst hy
              exact absurd hxy hc
            | succ j =>
              exact Or.inr ⟨j, x, y, by simpa using hx, by simpa using hy, hxy⟩

/-- C29: `mount_change_poller` finds a change exactly when the list just read and the
snapshot differ in length or hold, at some position, two entries for which
`g_unix_mount_entry_compare` is not 0.  When it finds none, `mount_poller_time` and the
record of emitted signals stay as they are; when it finds one, `mount_poller_time` is
set to the clock reading and one signal is emitted.  In both cases the snapshot is the
list just read afterwards. -/
theorem poller_reports_exactly_differences (s : MountMonitor)
    (current_mounts : List GUnixMountEntry) (now : Nat) :
    (poller_has_changed current_mounts s.mount_poller_mounts = true ↔
      current_mounts.length ≠ s.mount_poller_mounts.length ∨
      ∃ (i : Nat) (a b : GUnixMountEntry), current_mounts[i]? = some a ∧ s.mount_poller_mounts[i]? = some b ∧
        g_unix_mount_entry_compare a b ≠ 0) ∧
    (poller_has_changed current_mounts s.mount_poller_mounts = false →
      (mount_change_poller s current_mounts now).mount_poller_time = s.mount_poller_time ∧
      (mount_change_poller s current_mounts now).emitted = s.emitted) ∧
    (poller_has_changed current_mounts s.mount_poller_mounts = true →
      (mount_change_poller s current_mounts now).mount_poller_time = now ∧
      ∃ signal, (mount_change_poller s current_mounts now).emitted = s.emitted ++ [signal]) ∧
    (mount_change_poller s current_mounts now).mount_poller_mounts = current_mounts := by
  refine ⟨poller_has_changed_iff _ _, ?_, ?_, ?_⟩
  · intro hn
    simp [mount_change_poller, hn]
  · intro hc
    simp [mount_change_poller, hc, g_context_specific_group_emit]
  · unfold mount_change_poller
    cases poller_has_changed current_mounts s.mount_poller_mounts <;>
      simp [g_context_specific_group_emit]

/-- C29 at a snapshot of one mount: the same list again changes nothing, an empty list is
a change. -/
theorem poller_reports_exactly_differences_witness :
    (mount_change_poller (MountMonitor.started [usb_mount] 10) [usb_mount] 20).mount_poller_time
      = 10 ∧
    (mount_change_poller (MountMonitor.started [usb_mount] 10) [] 20).mount_poller_time = 20 :=
  ⟨((poller_reports_exactly_differences (MountMonitor.started [usb_mount] 10) [usb_mount]
      20).2.1 (by decide)).1,
   ((poller_reports_exactly_differences (MountMonitor.started [usb_mount] 10) []
      20).2.2.1 (by decide)).1⟩

/-- C30, at two `CHANGED` events that arrive before the main loop runs an idle
callback: `mtab_file_changed_id` is still 0 after the first event and after the second,
so each event attaches an idle source of its own, two are pending, and when the main
loop runs them `MOUNTS_CHANGED` is emitted twice. -/
theorem burst_emits_once_per_event :
    (mtab_file_changed (MountMonitor.started [] 0) GFileMonitorEvent.CHANGED).mtab_file_changed_id
      = 0 ∧
    (mtab_file_changed (mtab_file_changed (MountMonitor.started [] 0)
      GFileMonitorEvent.CHANGED) GFileMonitorEvent.CHANGED).idle_sources = 2 ∧
    (dispatch_idle_sources (mtab_file_changed (mtab_file_changed (MountMonitor.started [] 0)
      GFileMonitorEvent.CHANGED) GFileMonitorEvent.CHANGED)).emitted =
      [MonitorSignal.MOUNTS_CHANGED, MonitorSignal.MOUNTS_CHANGED] := by
  decide

end GUnixMounts

namespace GioModule

/-! ## The module directories -/

theorem scan_env (h : Host) (e : String → Option String) (f : ScanHost)
    (platform : Platform) :
    g_io_modules_scan_all_in_directory_with_scope { h with g_getenv := e } f platform =
      g_io_modules_scan_all_in_directory_with_scope h f platform :=
  rfl

theorem get_gio_module_dir_setuid (b : ModuleDirs) (hsetuid : b.g_check_setuid = true)
    (env : String → Option String) :
    get_gio_module_dir b env = get_gio_module_dir b (fun _ => none) := by
  simp [get_gio_module_dir, hsetuid]

theorem ensure_loaded_directories_setuid (b : ModuleDirs)
    (hsetuid : b.g_check_setuid = true) (env : String → Option String) :
    ensure_loaded_directories b env = [get_gio_module_dir b (fun _ => none)] := by
  simp [ensure_loaded_directories, get_gio_module_dir, hsetuid]

/-- C21: in a setuid process `get_gio_module_dir` returns the same directory for any two
environments, on Unix the directory of the macro `GIO_MODULE_DIR`; the only directory
that `_g_io_modules_ensure_loaded` scans is that one, whatever `GIO_EXTRA_MODULES`
holds; and the registry after its scans is the same for any two environments. -/
theorem setuid_ignores_environment (b : ModuleDirs) (hsetuid : b.g_check_setuid = true) :
    (∀ env1 env2 : String → Option String,
      get_gio_module_dir b env1 = get_gio_module_dir b env2) ∧
    (∀ env : String → Option String, b.platform = Platform.unix →
      get_gio_module_dir b env = b.GIO_MODULE_DIR) ∧
    (∀ env1 env2 : String → Option String,
      ensure_loaded_directories b env1 = [get_gio_module_dir b env2]) ∧
    ∀ (h : Host) (f : ScanHost) (loaded_dirs : Bool) (r : Registry)
      (env1 env2 : String → Option String),
      ensure_loaded_scans { h with g_getenv := env1 } f b loaded_dirs r =
        ensure_loaded_scans { h with g_getenv := env2 } f b loaded_dirs r := by
  refine ⟨?_, ?_, ?_, ?_⟩
  · intro env1 env2
    rw [get_gio_module_dir_setuid b hsetuid env1, get_gio_module_dir_setuid b hsetuid env2]
  · intro env hp
    simp [get_gio_module_dir, hsetuid, hp]
  · intro env1 env2
    rw [ensure_loaded_directories_setuid b hsetuid env1,
      get_gio_module_dir_setuid b hsetuid env2]
  · intro h f loaded_dirs r env1 env2
    unfold ensure_loaded_scans
    simp only [scan_env, ensure_loaded_directories_setuid b hsetuid]

/-- C21 for a setuid process whose environment names `/tmp/evil` in both variables: the
module directory is the built-in one and nothing else is scanned. -/
theorem setuid_ignores_environment_witness :
    get_gio_module_dir ModuleDirs.setuid (fun _ => some "/tmp/evil") =
      "/usr/lib/gio/modules" ∧
    ensure_loaded_directories ModuleDirs.setuid (fun _ => some "/tmp/evil") =
      ["/usr/lib/gio/modules"] :=
  ⟨(setuid_ignores_environment ModuleDirs.setuid rfl).2.1 _ rfl,
   ((setuid_ignores_environment ModuleDirs.setuid rfl).2.2.1 _ (fun _ => none)).trans
     (by decide)⟩

/-! ## The `initialized` flag of a module -/

theorem update_point_modules (r : Registry) (ep : Nat)
    (g : GIOExtensionPoint → GIOExtensionPoint) :
    (r.update_point ep g).modules = r.modules := by
  unfold Registry.update_point
  cases r.extension_points[ep]? <;> rfl

theorem register_modules (r : Registry) (name : String) :
    (g_io_extension_point_register r name).2.modules = r.modules := by
  unfold g_io_extension_point_register
  cases hash_lookup r.extension_points name <;> rfl

theorem apply_modules (h : Host) (r : Registry) (op : Op) :
    (Op.apply h r op).modules = r.modules := by
  cases op with
  | register name => exact register_modules r name
  | set_required_type ep t =>
    exact update_point_modules r ep _
  | implement epname type ename priority =>
    simp only [Op.apply, g_io_extension_point_implement]
    repeat' split
    all_goals first | rfl | exact update_point_modules r _ _

theorem run_modules (h : Host) (ops : List Op) :
    ∀ r : Registry, (run h r ops).modules = r.modules := by
  induction ops with
  | nil => intro r; rfl
  | cons op rest ih =>
    intro r
    have h1 : run h r (op :: rest) = run h (Op.apply h r op) rest := rfl
    rw [h1, ih, apply_modules]

theorem was_initialized_set {l : List GIOModule} {module k : Nat} {m m2 : GIOModule}
    (hm : l[module]? = some m) (hkeep : m.initialized = true → m2.initialized = true)
    (hk : ∃ x, l[k]? = some x ∧ x.initialized = true) :
    ∃ x, (l.set module m2)[k]? = some x ∧ x.initialized = true := by
  obtain ⟨x, hx, hxi⟩ := hk
  by_cases hmk : module = k
  · subst hmk
    have hlt : module < l.length := (List.getElem?_eq_some.mp hm).1
    rw [hm] at hx
    obtain rfl : m = x := by simpa using hx
    exact ⟨m2, List.getElem?_set_self hlt, hkeep hxi⟩
  · exact ⟨x, by rw [List.getElem?_set_ne hmk]; exact hx, hxi⟩

theorem load_keeps_initialized (h : Host) (r : Registry) (module k : Nat)
    (hk : was_initialized r k) :
    was_initialized (g_io_module_load_module h r module).2 k := by
  unfold g_io_module_load_module
  cases hm : r.modules[module]? with
  | none => exact hk
  | some m =>
    simp only
    cases hf : m.filename with
    | none => exact hk
    | some filename =>
      simp only
      cases ho : h.g_module_open filename with
      | none => exact was_initialized_set hm (fun hi => hi) hk
      | some lib =>
        simp only
        split
        · exact was_initialized_set hm (fun hi => hi) hk
        · have hrm : (run h r lib.load).modules = r.modules := run_modules h lib.load r
          unfold was_initialized
          simp only [hrm]
          exact was_initialized_set hm (fun _ => rfl) hk

theorem unload_keeps_initialized (r : Registry) (module k : Nat)
    (hk : was_initialized r k) :
    was_initialized (g_io_module_unload_module r module) k := by
  unfold g_io_module_unload_module
  cases hm : r.modules[module]? with
  | none => exact hk
  | some m => exact was_initialized_set hm (fun hi => hi) hk

theorem load_sets_initialized (h : Host) (r : Registry) (module : Nat)
    (hok : (g_io_module_load_module h r module).1 = true) :
    was_initialized (g_io_module_load_module h r module).2 module := by
  unfold g_io_module_load_module at hok ⊢
  cases hm : r.modules[module]? with
  | none => simp [hm] at hok
  | some m =>
    simp only [hm] at hok ⊢
    cases hf : m.filename with
    | none => simp [hf] at hok
    | some filename =>
      simp only [hf] at hok ⊢
      cases ho : h.g_module_open filename with
      | none => simp [ho] at hok
      | some lib =>
        simp only [ho] at hok ⊢
        by_cases hs : lib.symbols = false
        · simp [hs] at hok
        · rw [if_neg hs]
          have hrm : (run h r lib.load).modules = r.modules := run_modules h lib.load r
          have hlt : module < r.modules.length := (List.getElem?_eq_some.mp hm).1
          unfold was_initialized
          simp only [hrm]
          exact ⟨_, List.getElem?_set_self hlt, rfl⟩

theorem eager_keeps_initialized (h : Host) (r : Registry) (module k : Nat)
    (hk : was_initialized r k) : was_initialized (eager_load h r module) k := by
  unfold eager_load g_type_module_use
  have hl := load_keeps_initialized h r module k hk
  cases hu : g_io_module_load_module h r module with
  | mk ok r1 =>
    rw [hu] at hl
    cases ok with
    | true => exact unload_keeps_initialized r1 module k hl
    | false => exact hl

theorem lazy_load_module_eq (h : Host) (r : Registry) (module : Nat) (m : GIOModule)
    (hm : r.modules[module]? = some m) :
    lazy_load_module h r module = if m.initialized then r else eager_load h r module := by
  unfold lazy_load_module eager_load
  rw [hm]
  cases hi : m.initialized <;> simp [hi]

theorem lazy_load_module_initialized (h : Host) (r : Registry) (module : Nat)
    (hi : was_initialized r module) : lazy_load_module h r module = r := by
  obtain ⟨m, hm, hmi⟩ := hi
  rw [lazy_load_module_eq h r module m hm, hmi]
  rfl

theorem lazy_load_module_keeps (h : Host) (r : Registry) (module k : Nat)
    (hk : was_initialized r k) : was_initialized (lazy_load_module h r module) k := by
  cases hm : r.modules[module]? with
  | none =>
    have : lazy_load_module h r module = r := by simp [lazy_load_module, hm]
    rw [this]
    exact hk
  | some m =>
    rw [lazy_load_module_eq h r module m hm]
    cases m.initialized with
    | true => exact hk
    | false => exact eager_keeps_initialized h r module k hk

theorem lazy_load_modules_keeps (h : Host) (r : Registry) (ep k : Nat)
    (hk : was_initialized r k) : was_initialized (lazy_load_modules h r ep) k := by
  unfold lazy_load_modules
  cases r.point ep with
  | none => exact hk
  | some p =>
    simp only
    generalize p.lazy_load_modules = mods
    induction mods generalizing r with
    | nil => exact hk
    | cons m rest ih => exact ih (lazy_load_module h r m) (lazy_load_module_keeps h r m k hk)

theorem lazy_record_modules (module : Nat) (r : Registry) (name : String) :
    (lazy_record module r name).modules = r.modules := by
  unfold lazy_record
  rw [update_point_modules, register_modules]

theorem call_keeps_initialized (h : Host) (r : Registry) (c : Call) (k : Nat)
    (hk : was_initialized r k) : was_initialized (Call.apply h r c) k := by
  cases c with
  | api op =>
    unfold was_initialized
    simp only [Call.apply, apply_modules]
    exact hk
  | get_extensions ep => exact lazy_load_modules_keeps h r ep k hk
  | get_extension_by_name ep name => exact lazy_load_modules_keeps h r ep k hk
  | module_new filename =>
    obtain ⟨m, hm, hmi⟩ := hk
    have hlt : k < r.modules.length := (List.getElem?_eq_some.mp hm).1
    exact ⟨m, by simp [Call.apply, g_io_module_new, List.getElem?_append_left hlt, hm], hmi⟩
  | module_use module => exact load_keeps_initialized h r module k hk
  | module_unuse module => exact unload_keeps_initialized r module k hk
  | lazy module name =>
    unfold was_initialized
    simp only [Call.apply, lazy_record_modules]
    exact hk

theorem calls_keep_initialized (h : Host) (calls : List Call) (k : Nat) :
    ∀ r : Registry, was_initialized r k → was_initialized (calls.foldl (Call.apply h) r) k := by
  induction calls with
  | nil => intro r hk; exact hk
  | cons c rest ih =>
    intro r hk
    exact ih (Call.apply h r c) (call_keeps_initialized h r c k hk)

/-- C25: both queries run `lazy_load_modules` on the point first, which goes through
the lazy modules of the point in order; for a module whose `initialized` flag is set it
does nothing, for one whose flag is not set it uses the module and, if that worked,
unuses it again.  A use that works sets the flag, the unuse leaves it set, no step of the
program resets it, and a module whose flag is set is left alone by every later query. -/
theorem lazy_modules_activated_once (h : Host) (r : Registry) :
    (∀ ep, (g_io_extension_point_get_extensions h r ep).2 = lazy_load_modules h r ep) ∧
    (∀ ep name,
      (g_io_extension_point_get_extension_by_name h r ep name).2 =
        lazy_load_modules h r ep) ∧
    (∀ ep p, r.point ep = some p →
      lazy_load_modules h r ep = p.lazy_load_modules.foldl (lazy_load_module h) r) ∧
    (∀ (r1 : Registry) (module : Nat) (m : GIOModule), r1.modules[module]? = some m →
      lazy_load_module h r1 module =
        if m.initialized then r1 else eager_load h r1 module) ∧
    (∀ (r1 : Registry) (module : Nat), (g_type_module_use h r1 module).1 = true →
      was_initialized (g_type_module_use h r1 module).2 module ∧
      was_initialized (g_type_module_unuse (g_type_module_use h r1 module).2 module)
        module) ∧
    (∀ (module : Nat) (calls : List Call), was_initialized r module →
      was_initialized (calls.foldl (Call.apply h) r) module) ∧
    ∀ (module : Nat) (calls : List Call), was_initialized r module →
      lazy_load_module h (calls.foldl (Call.apply h) r) module =
        calls.foldl (Call.apply h) r := by
  refine ⟨fun _ => rfl, fun _ _ => rfl, ?_, ?_, ?_, ?_, ?_⟩
  · intro ep p hp
    simp [lazy_load_modules, hp]
  · intro r1 module m hm
    exact lazy_load_module_eq h r1 module m hm
  · intro r1 module hok
    have hs := load_sets_initialized h r1 module hok
    exact ⟨hs, unload_keeps_initialized _ module module hs⟩
  · intro module calls hi
    exact calls_keep_initialized h calls module r hi
  · intro module calls hi
    exact lazy_load_module_initialized h _ module (calls_keep_initialized h calls module r hi)

/-- C25 on a registry with one lazy module at the point "P": the first query activates
it, which registers the type 21 and sets the flag; the second query changes nothing. -/
theorem lazy_modules_activated_once_witness :
    (g_io_extension_point_get_extensions Host.with_library lazy_registry 0).1.map
      (fun e => e.type) = [21] ∧
    (g_io_extension_point_get_extensions Host.with_library lazy_registry 0).2.modules =
      [{ filename := some "/m/libfoo.so", library := false, initialized := true }] ∧
    (g_io_extension_point_get_extensions Host.with_library
      (g_io_extension_point_get_extensions Host.with_library lazy_registry 0).2 0).2 =
      (g_io_extension_point_get_extensions Host.with_library lazy_registry 0).2 := by
  refine ⟨by decide, by decide, ?_⟩
  have h1 := (lazy_modules_activated_once Host.with_library
    (g_io_extension_point_get_extensions Host.with_library lazy_registry 0).2).1 0
  rw [h1]
  decide

/-! ## Scanning a directory: lazy or at once -/

/-- "The point named `name` is registered and has `module` in its lazy list". -/
theorem lazy_record_self (module : Nat) (r : Registry) (name : String) :
    ∃ ep p, g_io_extension_point_lookup (lazy_record module r name) name = some ep ∧
      (lazy_record module r name).point ep = some p ∧ module ∈ p.lazy_load_modules := by
  have hl := register_lookup r name
  obtain ⟨p0, hp0, hn0⟩ := hash_lookup_some hl
  have hlt := (List.getElem?_eq_some.mp hp0).1
  refine ⟨(g_io_extension_point_register r name).1,
    { p0 with lazy_load_modules := module :: p0.lazy_load_modules }, ?_, ?_, ?_⟩
  · unfold lazy_record g_io_extension_point_lookup Registry.update_point
    rw [hp0]
    simp only
    exact (@hash_lookup_set _ _ p0
      { p0 with lazy_load_modules := module :: p0.lazy_load_modules } hp0 rfl name).trans hl
  · unfold lazy_record Registry.point Registry.update_point
    rw [hp0]
    simp only
    exact List.getElem?_set_self hlt
  · exact List.mem_cons_self _ _

theorem lazy_record_other (module : Nat) (r : Registry) (name other : String)
    (hp : ∃ ep p, g_io_extension_point_lookup r other = some ep ∧ r.point ep = some p ∧
      module ∈ p.lazy_load_modules) :
    ∃ ep p, g_io_extension_point_lookup (lazy_record module r name) other = some ep ∧
      (lazy_record module r name).point ep = some p ∧ module ∈ p.lazy_load_modules := by
  obtain ⟨ep, p, hlk, hpt, hmem⟩ := hp
  have hl := register_lookup r name
  obtain ⟨p0, hp0, hn0⟩ := hash_lookup_some hl
  have hlt : ep < r.extension_points.length := (List.getElem?_eq_some.mp hpt).1
  -- the registration keeps the lookup of `other` and the point behind it
  have hlk1 : hash_lookup (g_io_extension_point_register r name).2.extension_points other =
      some ep := by
    unfold g_io_extension_point_register
    cases hr : hash_lookup r.extension_points name with
    | some i => exact hlk
    | none =>
      simp only
      rw [hash_lookup_append]
      unfold g_io_extension_point_lookup at hlk
      rw [hlk]
  have hpt1 : (g_io_extension_point_register r name).2.extension_points[ep]? = some p := by
    unfold g_io_extension_point_register
    cases hr : hash_lookup r.extension_points name with
    | some i => exact hpt
    | none =>
      simp only
      rw [List.getElem?_append_left hlt]
      exact hpt
  have hlookup : g_io_extension_point_lookup (lazy_record module r name) other = some ep := by
    unfold lazy_record g_io_extension_point_lookup Registry.update_point
    rw [hp0]
    simp only
    exact (@hash_lookup_set _ _ p0
      { p0 with lazy_load_modules := module :: p0.lazy_load_modules } hp0 rfl other).trans hlk1
  by_cases he : (g_io_extension_point_register r name).1 = ep
  · have hpp : p0 = p := by
      rw [he, hpt1] at hp0
      exact (Option.some.inj hp0).symm
    refine ⟨ep, { p0 with lazy_load_modules := module :: p0.lazy_load_modules }, hlookup,
      ?_, List.mem_cons_self _ _⟩
    unfold lazy_record Registry.point Registry.update_point
    rw [hp0]
    simp only
    rw [he]
    exact List.getElem?_set_self (List.getElem?_eq_some.mp hpt1).1
  · refine ⟨ep, p, hlookup, ?_, hmem⟩
    unfold lazy_record Registry.point Registry.update_point
    rw [hp0]
    simp only
    rw [List.getElem?_set_ne he]
    exact hpt1

theorem lazy_fold_other (module : Nat) (names : List String) (other : String) :
    ∀ r : Registry,
      (∃ ep p, g_io_extension_point_lookup r other = some ep ∧ r.point ep = some p ∧
        module ∈ p.lazy_load_modules) →
      ∃ ep p, g_io_extension_point_lookup (names.foldl (lazy_record module) r) other =
          some ep ∧
        (names.foldl (lazy_record module) r).point ep = some p ∧
        module ∈ p.lazy_load_modules := by
  induction names with
  | nil => intro r hp; exact hp
  | cons n rest ih =>
    intro r hp
    exact ih (lazy_record module r n) (lazy_record_other module r n other hp)

theorem lazy_fold_records (module : Nat) (names : List String) :
    ∀ r : Registry, ∀ name ∈ names,
      ∃ ep p, g_io_extension_point_lookup (names.foldl (lazy_record module) r) name =
          some ep ∧
        (names.foldl (lazy_record module) r).point ep = some p ∧
        module ∈ p.lazy_load_modules := by
  induction names with
  | nil => intro r name hn; cases hn
  | cons n rest ih =>
    intro r name hn
    by_cases hr : name ∈ rest
    · exact ih (lazy_record module r n) name hr
    · rcases List.mem_cons.mp hn with rfl | hn2
      · exact lazy_fold_other module rest name _ (lazy_record_self module r name)
      · exact absurd hn2 hr

theorem lazy_fold_modules (module : Nat) (names : List String) :
    ∀ r : Registry, (names.foldl (lazy_record module) r).modules = r.modules := by
  induction names with
  | nil => intro r; rfl
  | cons n rest ih =>
    intro r
    exact (ih (lazy_record module r n)).trans (lazy_record_modules module r n)

theorem eager_load_steps (h : Host) (r : Registry) (module : Nat) :
    Relation.ReflTransGen (PointsStep h Unguarded) r.extension_points
      (eager_load h r module).extension_points := by
  unfold eager_load g_type_module_use
  have hs := load_module_steps h r module
  cases hu : g_io_module_load_module h r module with
  | mk ok r1 =>
    rw [hu] at hs
    cases ok with
    | true =>
      simp only [g_type_module_unuse]
      rw [unload_module_points]
      exact hs
    | false => exact hs

theorem lazy_points_some (f : ScanHost) (cache : Option (List (String × List String)))
    (cache_time : Int) (name path : String) (points : List String) :
    lazy_points f cache cache_time name path = some points ↔
      cache_lookup cache name = some points ∧
      ∃ statbuf, f.g_stat path = some statbuf ∧ statbuf.st_ctime ≤ cache_time := by
  unfold lazy_points
  cases cache_lookup cache name with
  | none => simp
  | some strv =>
    cases f.g_stat path with
    | none => simp
    | some statbuf =>
      by_cases hc : statbuf.st_ctime ≤ cache_time
      · simp [hc]
      · simp [hc]

theorem step_on_lazy {h : Host} {G : GIOExtensionPoint → GType → Prop}
    {l l2 : List GIOExtensionPoint} (hs : PointsStep h G l l2) (point_name : String)
    (k : Nat)
    (hk : ∃ ep p, hash_lookup l point_name = some ep ∧ l[ep]? = some p ∧
      k ∈ p.lazy_load_modules) :
    ∃ ep p, hash_lookup l2 point_name = some ep ∧ l2[ep]? = some p ∧
      k ∈ p.lazy_load_modules := by
  obtain ⟨ep, p, hlk, hpt, hmem⟩ := hk
  have hlt : ep < l.length := (List.getElem?_eq_some.mp hpt).1
  cases hs with
  | same => exact ⟨ep, p, hlk, hpt, hmem⟩
  | fresh name hn =>
    refine ⟨ep, p, ?_, ?_, hmem⟩
    · rw [hash_lookup_append, hlk]
    · rw [List.getElem?_append_left hlt]
      exact hpt
  | retype i q t hq hG =>
    by_cases hi : i = ep
    · subst hi
      have hqp : q = p := by
        rw [hq] at hpt
        exact Option.some.inj hpt
      subst hqp
      exact ⟨i, { q with required_type := t },
        (@hash_lookup_set _ _ q { q with required_type := t } hq rfl point_name).trans hlk,
        List.getElem?_set_self hlt, hmem⟩
    · exact ⟨ep, p,
        (@hash_lookup_set _ _ q { q with required_type := t } hq rfl point_name).trans hlk,
        by rw [List.getElem?_set_ne hi]; exact hpt, hmem⟩
  | insert i q e hq hreq hfind =>
    by_cases hi : i = ep
    · subst hi
      have hqp : q = p := by
        rw [hq] at hpt
        exact Option.some.inj hpt
      subst hqp
      exact ⟨i,
        { q with
          extensions := g_list_insert_sorted q.extensions e extension_prio_compare },
        (@hash_lookup_set _ _ q
          { q with
            extensions := g_list_insert_sorted q.extensions e extension_prio_compare }
          hq rfl point_name).trans hlk,
        List.getElem?_set_self hlt, hmem⟩
    · exact ⟨ep, p,
        (@hash_lookup_set _ _ q
          { q with
            extensions := g_list_insert_sorted q.extensions e extension_prio_compare }
          hq rfl point_name).trans hlk,
        by rw [List.getElem?_set_ne hi]; exact hpt, hmem⟩

theorem steps_on_lazy {h : Host} {G : GIOExtensionPoint → GType → Prop}
    {l l2 : List GIOExtensionPoint} (hs : Relation.ReflTransGen (PointsStep h G) l l2)
    (point_name : String) (k : Nat)
    (hk : ∃ ep p, hash_lookup l point_name = some ep ∧ l[ep]? = some p ∧
      k ∈ p.lazy_load_modules) :
    ∃ ep p, hash_lookup l2 point_name = some ep ∧ l2[ep]? = some p ∧
      k ∈ p.lazy_load_modules := by
  induction hs with
  | refl => exact hk
  | tail _ hstep ih => exact step_on_lazy hstep point_name k ih

theorem step_ext_kept {h : Host} {G : GIOExtensionPoint → GType → Prop}
    {l l2 : List GIOExtensionPoint} (hs : PointsStep h G l l2) (ep : Nat)
    (p : GIOExtensionPoint) (hpt : l[ep]? = some p) :
    ∃ p2, l2[ep]? = some p2 ∧ p2.name = p.name ∧ ∀ e ∈ p.extensions, e ∈ p2.extensions := by
  have hlt : ep < l.length := (List.getElem?_eq_some.mp hpt).1
  cases hs with
  | same => exact ⟨p, hpt, rfl, fun _ he => he⟩
  | fresh name hn =>
    exact ⟨p, by rw [List.getElem?_append_left hlt]; exact hpt, rfl, fun _ he => he⟩
  | retype i q t hq hG =>
    by_cases hi : i = ep
    · subst hi
      have hqp : q = p := by
        rw [hq] at hpt
        exact Option.some.inj hpt
      subst hqp
      exact ⟨{ q with required_type := t }, List.getElem?_set_self hlt, rfl,
        fun _ he => he⟩
    · exact ⟨p, by rw [List.getElem?_set_ne hi]; exact hpt, rfl, fun _ he => he⟩
  | insert i q e hq hreq hfind =>
    by_cases hi : i = ep
    · subst hi
      have hqp : q = p := by
        rw [hq] at hpt
        exact Option.some.inj hpt
      subst hqp
      exact ⟨{ q with
               extensions := g_list_insert_sorted q.extensions e extension_prio_compare },
        List.getElem?_set_self hlt, rfl,
        fun x hx => (mem_g_list_insert_sorted _ _ _ x).mpr (Or.inr hx)⟩
    · exact ⟨p, by rw [List.getElem?_set_ne hi]; exact hpt, rfl, fun _ he => he⟩

theorem steps_ext_kept {h : Host} {G : GIOExtensionPoint → GType → Prop}
    {l l2 : List GIOExtensionPoint} (hs : Relation.ReflTransGen (PointsStep h G) l l2)
    (ep : Nat) (p : GIOExtensionPoint) (hpt : l[ep]? = some p) :
    ∃ p2, l2[ep]? = some p2 ∧ p2.name = p.name ∧ ∀ e ∈ p.extensions, e ∈ p2.extensions := by
  induction hs with
  | refl => exact ⟨p, hpt, rfl, fun _ he => he⟩
  | tail _ hstep ih =>
    obtain ⟨p1, hp1, hn1, he1⟩ := ih
    obtain ⟨p2, hp2, hn2, he2⟩ := step_ext_kept hstep ep p1 hp1
    exact ⟨p2, hp2, hn2.trans hn1, fun e he => he2 e (he1 e he)⟩

theorem extensions_kept_refl (r : Registry) : extensions_kept r r :=
  fun _ p hp => ⟨p, hp, rfl, fun _ he => he⟩

theorem extensions_kept_trans {r1 r2 r3 : Registry} (h12 : extensions_kept r1 r2)
    (h23 : extensions_kept r2 r3) : extensions_kept r1 r3 := by
  intro ep p hp
  obtain ⟨p2, hp2, hn2, he2⟩ := h12 ep p hp
  obtain ⟨p3, hp3, hn3, he3⟩ := h23 ep p2 hp2
  exact ⟨p3, hp3, hn3.trans hn2, fun e he => he3 e (he2 e he)⟩

theorem extensions_kept_of_points {r r2 : Registry}
    (hp : r2.extension_points = r.extension_points) : extensions_kept r r2 := by
  intro ep p hpt
  refine ⟨p, ?_, rfl, fun _ he => he⟩
  unfold Registry.point at hpt ⊢
  rw [hp]
  exact hpt

/-! ### What using a module does to the table of modules -/

theorem load_modules_other (h : Host) (r : Registry) (module k : Nat) (hk : k ≠ module) :
    (g_io_module_load_module h r module).2.modules[k]? = r.modules[k]? := by
  have hne : module ≠ k := fun hc => hk hc.symm
  unfold g_io_module_load_module
  cases hm : r.modules[module]? with
  | none => rfl
  | some m =>
    simp only
    cases hf : m.filename with
    | none => rfl
    | some filename =>
      simp only
      cases ho : h.g_module_open filename with
      | none => exact List.getElem?_set_ne hne
      | some lib =>
        simp only
        split
        · exact List.getElem?_set_ne hne
        · simp only [run_modules]
          exact List.getElem?_set_ne hne

theorem load_modules_length (h : Host) (r : Registry) (module : Nat) :
    (g_io_module_load_module h r module).2.modules.length = r.modules.length := by
  unfold g_io_module_load_module
  cases hm : r.modules[module]? with
  | none => rfl
  | some m =>
    simp only
    cases hf : m.filename with
    | none => rfl
    | some filename =>
      simp only
      cases ho : h.g_module_open filename with
      | none => simp
      | some lib =>
        simp only
        split
        · simp
        · simp [run_modules]

theorem unload_modules_other (r : Registry) (module k : Nat) (hk : k ≠ module) :
    (g_io_module_unload_module r module).modules[k]? = r.modules[k]? := by
  have hne : module ≠ k := fun hc => hk hc.symm
  unfold g_io_module_unload_module
  cases hm : r.modules[module]? with
  | none => rfl
  | some m => exact List.getElem?_set_ne hne

theorem unload_modules_length (r : Registry) (module : Nat) :
    (g_io_module_unload_module r module).modules.length = r.modules.length := by
  unfold g_io_module_unload_module
  cases hm : r.modules[module]? with
  | none => rfl
  | some m => simp

theorem eager_modules_other (h : Host) (r : Registry) (module k : Nat) (hk : k ≠ module) :
    (eager_load h r module).modules[k]? = r.modules[k]? := by
  unfold eager_load g_type_module_use
  have hl := load_modules_other h r module k hk
  cases hu : g_io_module_load_module h r module with
  | mk ok r1 =>
    rw [hu] at hl
    cases ok with
    | true =>
      simp only [g_type_module_unuse]
      rw [unload_modules_other r1 module k hk]
      exact hl
    | false => exact hl

theorem eager_modules_length (h : Host) (r : Registry) (module : Nat) :
    (eager_load h r module).modules.length = r.modules.length := by
  unfold eager_load g_type_module_use
  have hl := load_modules_length h r module
  cases hu : g_io_module_load_module h r module with
  | mk ok r1 =>
    rw [hu] at hl
    cases ok with
    | true =>
      simp only [g_type_module_unuse]
      rw [unload_modules_length]
      exact hl
    | false => exact hl

theorem eager_module_self (h : Host) (r : Registry) (module : Nat) (path : String)
    (hm : r.modules[module]? =
      some { filename := some path, library := false, initialized := false }) :
    (eager_load h r module).modules[module]? = some (used_module h path) := by
  have hlt : module < r.modules.length := (List.getElem?_eq_some.mp hm).1
  unfold eager_load g_type_module_use g_io_module_load_module used_module
  rw [hm]
  simp only
  cases ho : h.g_module_open path with
  | none =>
    simp only
    exact List.getElem?_set_self hlt
  | some lib =>
    simp only
    by_cases hs : lib.symbols = false
    · rw [if_pos hs, if_pos hs]
      simp only
      exact List.getElem?_set_self hlt
    · rw [if_neg hs, if_neg hs]
      simp only [g_type_module_unuse, g_io_module_unload_module, run_modules]
      rw [List.getElem?_set_self hlt]
      simp only [List.set_set]
      exact List.getElem?_set_self hlt

theorem eager_points_of_load (h : Host) (r : Registry) (module : Nat) (path : String)
    (lib : ModuleLibrary)
    (hm : r.modules[module]? =
      some { filename := some path, library := false, initialized := false })
    (ho : h.g_module_open path = some lib) (hs : lib.symbols = true) :
    (eager_load h r module).extension_points = (run h r lib.load).extension_points := by
  unfold eager_load g_type_module_use g_io_module_load_module
  rw [hm]
  simp only [ho]
  rw [if_neg (by rw [hs]; simp)]
  simp only [g_type_module_unuse]
  rw [unload_module_points]

/-! ### What one entry of the directory does to the registry -/

theorem register_points_mem (r : Registry) (name : String) (p : GIOExtensionPoint)
    (hp : p ∈ (g_io_extension_point_register r name).2.extension_points) :
    p ∈ r.extension_points ∨ p.lazy_load_modules = [] := by
  unfold g_io_extension_point_register at hp
  cases hl : hash_lookup r.extension_points name with
  | some i =>
    rw [hl] at hp
    exact Or.inl hp
  | none =>
    rw [hl] at hp
    rcases List.mem_append.mp hp with hp | hp
    · exact Or.inl hp
    · obtain rfl : p = _ := by simpa using hp
      exact Or.inr rfl

theorem lazy_record_mem (module : Nat) (r : Registry) (name : String)
    (p : GIOExtensionPoint) (x : Nat)
    (hp : p ∈ (lazy_record module r name).extension_points)
    (hx : x ∈ p.lazy_load_modules) :
    x = module ∨ ∃ q ∈ r.extension_points, x ∈ q.lazy_load_modules := by
  have hl := register_lookup r name
  obtain ⟨p0, hp0, hn0⟩ := hash_lookup_some hl
  unfold lazy_record Registry.update_point at hp
  rw [hp0] at hp
  simp only at hp
  have hold : ∀ q ∈ (g_io_extension_point_register r name).2.extension_points,
      x ∈ q.lazy_load_modules → ∃ q2 ∈ r.extension_points, x ∈ q2.lazy_load_modules := by
    intro q hq hxq
    rcases register_points_mem r name q hq with hq | hq
    · exact ⟨q, hq, hxq⟩
    · rw [hq] at hxq
      cases hxq
  rcases List.mem_or_eq_of_mem_set hp with hp | rfl
  · exact Or.inr (hold p hp hx)
  · rcases List.mem_cons.mp hx with hx | hx
    · exact Or.inl hx
    · exact Or.inr (hold p0 (List.getElem?_mem hp0) hx)

theorem lazy_fold_mem (module : Nat) (names : List String) (x : Nat) :
    ∀ (r : Registry) (p : GIOExtensionPoint),
      p ∈ (names.foldl (lazy_record module) r).extension_points →
      x ∈ p.lazy_load_modules →
      x = module ∨ ∃ q ∈ r.extension_points, x ∈ q.lazy_load_modules := by
  induction names with
  | nil => intro r p hp hx; exact Or.inr ⟨p, hp, hx⟩
  | cons n rest ih =>
    intro r p hp hx
    rcases ih (lazy_record module r n) p hp hx with hm | ⟨q, hq, hxq⟩
    · exact Or.inl hm
    · exact lazy_record_mem module r n q x hq hxq

theorem lazy_record_on_lazy (module : Nat) (r : Registry) (name other : String) (k : Nat)
    (hk : on_lazy_list r other k) : on_lazy_list (lazy_record module r name) other k := by
  obtain ⟨ep, p, hlk, hpt, hmem⟩ := hk
  have hl := register_lookup r name
  obtain ⟨p0, hp0, hn0⟩ := hash_lookup_some hl
  have hlt : ep < r.extension_points.length := (List.getElem?_eq_some.mp hpt).1
  have hlk1 : hash_lookup (g_io_extension_point_register r name).2.extension_points other =
      some ep := by
    unfold g_io_extension_point_register
    cases hr : hash_lookup r.extension_points name with
    | some i => exact hlk
    | none =>
      simp only
      rw [hash_lookup_append]
      unfold g_io_extension_point_lookup at hlk
      rw [hlk]
  have hpt1 : (g_io_extension_point_register r name).2.extension_points[ep]? = some p := by
    unfold g_io_extension_point_register
    cases hr : hash_lookup r.extension_points name with
    | some i => exact hpt
    | none =>
      simp only
      rw [List.getElem?_append_left hlt]
      exact hpt
  have hlookup : g_io_extension_point_lookup (lazy_record module r name) other = some ep := by
    unfold lazy_record g_io_extension_point_lookup Registry.update_point
    rw [hp0]
    simp only
    exact (@hash_lookup_set _ _ p0
      { p0 with lazy_load_modules := module :: p0.lazy_load_modules } hp0 rfl other).trans hlk1
  by_cases he : (g_io_extension_point_register r name).1 = ep
  · have hpp : p0 = p := by
      rw [he, hpt1] at hp0
      exact (Option.some.inj hp0).symm
    refine ⟨ep, { p0 with lazy_load_modules := module :: p0.lazy_load_modules }, hlookup,
      ?_, List.mem_cons_of_mem _ (by rw [hpp]; exact hmem)⟩
    unfold lazy_record Registry.point Registry.update_point
    rw [hp0]
    simp only
    rw [he]
    exact List.getElem?_set_self (List.getElem?_eq_some.mp hpt1).1
  · refine ⟨ep, p, hlookup, ?_, hmem⟩
    unfold lazy_record Registry.point Registry.update_point
    rw [hp0]
    simp only
    rw [List.getElem?_set_ne he]
    exact hpt1

theorem lazy_fold_on_lazy (module : Nat) (names : List String) (other : String) (k : Nat) :
    ∀ r : Registry, on_lazy_list r other k →
      on_lazy_list (names.foldl (lazy_record module) r) other k := by
  induction names with
  | nil => intro r hk; exact hk
  | cons n rest ih =>
    intro r hk
    exact ih (lazy_record module r n) (lazy_record_on_lazy module r n other k hk)

theorem lazy_record_ext_kept (module : Nat) (r : Registry) (name : String) :
    extensions_kept r (lazy_record module r name) := by
  intro ep p hpt
  have hl := register_lookup r name
  obtain ⟨p0, hp0, hn0⟩ := hash_lookup_some hl
  have hlt : ep < r.extension_points.length := (List.getElem?_eq_some.mp hpt).1
  have hpt1 : (g_io_extension_point_register r name).2.extension_points[ep]? = some p := by
    unfold g_io_extension_point_register
    cases hr : hash_lookup r.extension_points name with
    | some i => exact hpt
    | none =>
      simp only
      rw [List.getElem?_append_left hlt]
      exact hpt
  by_cases he : (g_io_extension_point_register r name).1 = ep
  · have hpp : p0 = p := by
      rw [he, hpt1] at hp0
      exact (Option.some.inj hp0).symm
    refine ⟨{ p0 with lazy_load_modules := module :: p0.lazy_load_modules }, ?_,
      by rw [hpp], fun e hm => by rw [hpp]; exact hm⟩
    unfold lazy_record Registry.point Registry.update_point
    rw [hp0]
    simp only
    rw [he]
    exact List.getElem?_set_self (List.getElem?_eq_some.mp hpt1).1
  · refine ⟨p, ?_, rfl, fun _ hm => hm⟩
    unfold lazy_record Registry.point Registry.update_point
    rw [hp0]
    simp only
    rw [List.getElem?_set_ne he]
    exact hpt1

theorem lazy_fold_ext_kept (module : Nat) (names : List String) :
    ∀ r : Registry, extensions_kept r (names.foldl (lazy_record module) r) := by
  induction names with
  | nil => intro r; exact extensions_kept_refl r
  | cons n rest ih =>
    intro r
    exact extensions_kept_trans (lazy_record_ext_kept module r n) (ih (lazy_record module r n))

theorem eager_mem (h : Host) (r : Registry) (module : Nat) (x : Nat)
    (p : GIOExtensionPoint) (hp : p ∈ (eager_load h r module).extension_points)
    (hx : x ∈ p.lazy_load_modules) :
    ∃ q ∈ r.extension_points, x ∈ q.lazy_load_modules := by
  have hall := @steps_pointwise h Unguarded
    (fun p => ∀ y ∈ p.lazy_load_modules, ∃ q ∈ r.extension_points, y ∈ q.lazy_load_modules)
    (fun _ y hy => by cases hy) (fun _ _ _ hq => hq) (fun _ _ _ _ hq => hq) _ _
    (eager_load_steps h r module) (fun q hq y hy => ⟨q, hq, hy⟩)
  exact hall p hp x hx

theorem eager_on_lazy (h : Host) (r : Registry) (module : Nat) (point_name : String)
    (k : Nat) (hk : on_lazy_list r point_name k) :
    on_lazy_list (eager_load h r module) point_name k :=
  steps_on_lazy (eager_load_steps h r module) point_name k hk

theorem eager_ext_kept (h : Host) (r : Registry) (module : Nat) :
    extensions_kept r (eager_load h r module) :=
  fun ep p hp => steps_ext_kept (eager_load_steps h r module) ep p hp

theorem scan_module_cases (h : Host) (f : ScanHost) (dirname : String)
    (cache : Option (List (String × List String))) (cache_time : Int) (r : Registry)
    (name : String) :
    (∃ points,
      lazy_points f cache cache_time name (f.g_build_filename dirname name) = some points ∧
      scan_module h f dirname cache cache_time r name =
        points.foldl (lazy_record r.modules.length)
          (g_io_module_new r (f.g_build_filename dirname name)).2) ∨
    (lazy_points f cache cache_time name (f.g_build_filename dirname name) = none ∧
      scan_module h f dirname cache cache_time r name =
        eager_load h (g_io_module_new r (f.g_build_filename dirname name)).2
          r.modules.length) := by
  cases hp : lazy_points f cache cache_time name (f.g_build_filename dirname name) with
  | some points =>
    refine Or.inl ⟨points, rfl, ?_⟩
    simp only [scan_module, hp]
    rfl
  | none =>
    refine Or.inr ⟨rfl, ?_⟩
    simp only [scan_module, hp]
    rfl

theorem module_new_get (r : Registry) (path : String) :
    (g_io_module_new r path).2.modules[r.modules.length]? =
      some { filename := some path, library := false, initialized := false } := by
  simp [g_io_module_new]

theorem scan_module_length (h : Host) (f : ScanHost) (dirname : String)
    (cache : Option (List (String × List String))) (cache_time : Int) (r : Registry)
    (name : String) :
    (scan_module h f dirname cache cache_time r name).modules.length =
      r.modules.length + 1 := by
  rcases scan_module_cases h f dirname cache cache_time r name with ⟨pts, _, he⟩ | ⟨_, he⟩
  · rw [he, lazy_fold_modules]
    simp [g_io_module_new]
  · rw [he, eager_modules_length]
    simp [g_io_module_new]

theorem scan_module_other (h : Host) (f : ScanHost) (dirname : String)
    (cache : Option (List (String × List String))) (cache_time : Int) (r : Registry)
    (name : String) (k : Nat) (hk : k < r.modules.length) :
    (scan_module h f dirname cache cache_time r name).modules[k]? = r.modules[k]? := by
  have hnew : (g_io_module_new r (f.g_build_filename dirname name)).2.modules[k]? =
      r.modules[k]? := by
    simp [g_io_module_new, List.getElem?_append_left hk]
  rcases scan_module_cases h f dirname cache cache_time r name with ⟨pts, _, he⟩ | ⟨_, he⟩
  · rw [he, lazy_fold_modules]
    exact hnew
  · rw [he, eager_modules_other h _ _ k (Nat.ne_of_lt hk)]
    exact hnew

theorem scan_module_mem (h : Host) (f : ScanHost) (dirname : String)
    (cache : Option (List (String × List String))) (cache_time : Int) (r : Registry)
    (name : String) (p : GIOExtensionPoint) (x : Nat)
    (hp : p ∈ (scan_module h f dirname cache cache_time r name).extension_points)
    (hx : x ∈ p.lazy_load_modules) :
    x = r.modules.length ∨ ∃ q ∈ r.extension_points, x ∈ q.lazy_load_modules := by
  rcases scan_module_cases h f dirname cache cache_time r name with ⟨pts, _, he⟩ | ⟨_, he⟩
  · rw [he] at hp
    exact lazy_fold_mem r.modules.length pts x
      (g_io_module_new r (f.g_build_filename dirname name)).2 p hp hx
  · rw [he] at hp
    exact Or.inr (eager_mem h (g_io_module_new r (f.g_build_filename dirname name)).2
      r.modules.length x p hp hx)

theorem scan_module_on_lazy (h : Host) (f : ScanHost) (dirname : String)
    (cache : Option (List (String × List String))) (cache_time : Int) (r : Registry)
    (name : String) (point_name : String) (k : Nat) (hk : on_lazy_list r point_name k) :
    on_lazy_list (scan_module h f dirname cache cache_time r name) point_name k := by
  have hnew : on_lazy_list (g_io_module_new r (f.g_build_filename dirname name)).2
      point_name k := hk
  rcases scan_module_cases h f dirname cache cache_time r name with ⟨pts, _, he⟩ | ⟨_, he⟩
  · rw [he]
    exact lazy_fold_on_lazy r.modules.length pts point_name k _ hnew
  · rw [he]
    exact eager_on_lazy h _ _ point_name k hnew

theorem scan_module_ext_kept (h : Host) (f : ScanHost) (dirname : String)
    (cache : Option (List (String × List String))) (cache_time : Int) (r : Registry)
    (name : String) :
    extensions_kept r (scan_module h f dirname cache cache_time r name) := by
  have hnew : extensions_kept r (g_io_module_new r (f.g_build_filename dirname name)).2 :=
    extensions_kept_of_points rfl
  rcases scan_module_cases h f dirname cache cache_time r name with ⟨pts, _, he⟩ | ⟨_, he⟩
  · rw [he]
    exact extensions_kept_trans hnew (lazy_fold_ext_kept _ pts _)
  · rw [he]
    exact extensions_kept_trans hnew (eager_ext_kept h _ _)

/-! ### The scan loop, entry by entry -/

theorem scan_entries_scope (h : Host) (f : ScanHost) (platform : Platform)
    (dirname : String) (cache : Option (List (String × List String))) (cache_time : Int)
    (names : List String) :
    ∀ st : Registry × Option GIOModuleScope,
      (names.foldl (scan_entry h f platform dirname cache cache_time) st).2 =
        (valid_entries platform names st.2).2 := by
  induction names with
  | nil => intro st; rfl
  | cons n rest ih =>
    intro st
    rw [List.foldl_cons, ih]
    have hs : (scan_entry h f platform dirname cache cache_time st n).2 =
        (is_valid_module_name platform n st.2).2 := by
      unfold scan_entry
      split <;> rfl
    rw [hs]
    have hv : (valid_entries platform (n :: rest) st.2).2 =
        (valid_entries platform rest (is_valid_module_name platform n st.2).2).2 := by
      rw [valid_entries]
      split <;> rfl
    rw [hv]

theorem scan_entry_accepted (h : Host) (f : ScanHost) (platform : Platform)
    (dirname : String) (cache : Option (List (String × List String))) (cache_time : Int)
    (st : Registry × Option GIOModuleScope) (name : String)
    (hv : (is_valid_module_name platform name st.2).1 = true) :
    (scan_entry h f platform dirname cache cache_time st name).1 =
      scan_module h f dirname cache cache_time st.1 name := by
  simp [scan_entry, hv]

theorem scan_entry_cases (h : Host) (f : ScanHost) (platform : Platform)
    (dirname : String) (cache : Option (List (String × List String))) (cache_time : Int)
    (st : Registry × Option GIOModuleScope) (name : String) :
    (scan_entry h f platform dirname cache cache_time st name).1 = st.1 ∨
    (scan_entry h f platform dirname cache cache_time st name).1 =
      scan_module h f dirname cache cache_time st.1 name := by
  unfold scan_entry
  split
  · exact Or.inr rfl
  · exact Or.inl rfl

theorem scan_fold_keeps (h : Host) (f : ScanHost) (platform : Platform)
    (dirname : String) (cache : Option (List (String × List String))) (cache_time : Int)
    (names : List String) :
    ∀ st : Registry × Option GIOModuleScope,
      st.1.modules.length ≤
        (names.foldl (scan_entry h f platform dirname cache cache_time) st).1.modules.length ∧
      (∀ k, k < st.1.modules.length →
        (names.foldl (scan_entry h f platform dirname cache cache_time) st).1.modules[k]? =
          st.1.modules[k]?) ∧
      (∀ point_name k, on_lazy_list st.1 point_name k →
        on_lazy_list (names.foldl (scan_entry h f platform dirname cache cache_time) st).1
          point_name k) ∧
      (∀ k, k < st.1.modules.length → on_no_lazy_list st.1 k →
        on_no_lazy_list (names.foldl (scan_entry h f platform dirname cache cache_time) st).1
          k) ∧
      extensions_kept st.1
        (names.foldl (scan_entry h f platform dirname cache cache_time) st).1 ∧
      (lazy_below st.1 st.1.modules.length →
        lazy_below (names.foldl (scan_entry h f platform dirname cache cache_time) st).1
          (names.foldl (scan_entry h f platform dirname cache cache_time)
            st).1.modules.length) := by
  induction names with
  | nil =>
    intro st
    exact ⟨Nat.le_refl _, fun _ _ => rfl, fun _ _ hk => hk, fun _ _ hk => hk,
      extensions_kept_refl _, fun hw => hw⟩
  | cons n rest ih =>
    intro st
    obtain ⟨i1, i2, i3, i4, i5, i6⟩ :=
      ih (scan_entry h f platform dirname cache cache_time st n)
    rw [List.foldl_cons]
    rcases scan_entry_cases h f platform dirname cache cache_time st n with he | he
    · rw [he] at i1 i2 i3 i4 i5 i6
      exact ⟨i1, i2, i3, i4, i5, i6⟩
    · have hlen := scan_module_length h f dirname cache cache_time st.1 n
      rw [he] at i1 i2 i3 i4 i5 i6
      refine ⟨by omega, ?_, ?_, ?_, ?_, ?_⟩
      · intro k hk
        rw [i2 k (by omega)]
        exact scan_module_other h f dirname cache cache_time st.1 n k hk
      · intro point_name k hk
        exact i3 point_name k
          (scan_module_on_lazy h f dirname cache cache_time st.1 n point_name k hk)
      · intro k hk hno
        refine i4 k (by omega) ?_
        intro p hp hmem
        rcases scan_module_mem h f dirname cache cache_time st.1 n p k hp hmem with
          hkm | ⟨q, hq, hkq⟩
        · omega
        · exact hno q hq hkq
      · exact extensions_kept_trans
          (scan_module_ext_kept h f dirname cache cache_time st.1 n) i5
      · intro hw
        refine i6 ?_
        intro p hp x hx
        rcases scan_module_mem h f dirname cache cache_time st.1 n p x hp hx with
          hxm | ⟨q, hq, hxq⟩
        · omega
        · have := hw q hq x hxq
          omega

theorem lazy_points_fresh (f : ScanHost) (dirname name : String) (points : List String) :
    lazy_points f (scan_cache f dirname).1 (scan_cache f dirname).2 name
        (f.g_build_filename dirname name) = some points ↔
      cache_fresh f dirname name points := by
  rw [lazy_points_some]
  unfold scan_cache cache_fresh
  cases hs : f.g_stat (f.g_build_filename dirname "giomodule.cache") with
  | none =>
    simp only [cache_lookup]
    constructor
    · rintro ⟨hc, _⟩
      cases hc
    · rintro ⟨_, _, _, hc, _⟩
      cases hc
  | some cache_stat =>
    simp only
    cases hd : f.g_file_get_contents (f.g_build_filename dirname "giomodule.cache") with
    | none =>
      simp only [cache_lookup]
      constructor
      · rintro ⟨hc, _⟩
        cases hc
      · rintro ⟨_, _, _, _, hc, _⟩
        cases hc
    | some data =>
      simp only
      constructor
      · rintro ⟨hc, module_stat, hm, hle⟩
        exact ⟨cache_stat, data, module_stat, rfl, rfl, hc, hm, hle⟩
      · rintro ⟨cs, d, module_stat, hcs, hdd, hc, hm, hle⟩
        cases hcs
        cases hdd
        exact ⟨hc, module_stat, hm, hle⟩

theorem scan_eq_entries (h : Host) (f : ScanHost) (platform : Platform) (dirname : String)
    (st : Registry × Option GIOModuleScope) (names : List String)
    (hsup : f.g_module_supported = true) (hdir : f.g_dir_open dirname = some names) :
    g_io_modules_scan_all_in_directory_with_scope h f platform st dirname =
      scan_entries h f platform dirname names st := by
  simp [g_io_modules_scan_all_in_directory_with_scope, hsup, hdir, scan_entries]

/-- C24: let the scan of a directory reach a file `name` that the scope accepts, the
entries `pre` before it and the entries `post` after it, and let `module` be the module
object made for the file.  If the cache file of the directory can be read and lists
points for `name`, and `g_stat` of the file works and gives an `st_ctime` that is at most
the larger of `st_mtime` and `st_ctime` of the cache file, then after the scan the
module is as it was made, neither opened nor initialised, and it is on the lazy list of
every listed point, each of them registered.  In every other case, in particular when
the `st_ctime` of the file is larger than that of the cache, the module has been used
(initialised exactly when the library could be opened and had both entry points), it is
on no lazy list after the scan, and whatever its `load` entry point registered is in the
registry after the scan. -/
theorem scan_lazy_iff_cache_fresh (h : Host) (f : ScanHost) (platform : Platform)
    (dirname : String) (r : Registry) (scope : Option GIOModuleScope)
    (pre : List String) (name : String) (post : List String)
    (hsup : f.g_module_supported = true)
    (hdir : f.g_dir_open dirname = some (pre ++ name :: post))
    (hwf : lazy_below r r.modules.length)
    (hvalid : (is_valid_module_name platform name
      (valid_entries platform pre scope).2).1 = true) :
    (∀ points, cache_fresh f dirname name points →
      (g_io_modules_scan_all_in_directory_with_scope h f platform (r, scope)
        dirname).1.modules[(scan_entries h f platform dirname pre
          (r, scope)).1.modules.length]? =
        some { filename := some (f.g_build_filename dirname name), library := false,
               initialized := false } ∧
      ∀ point_name ∈ points,
        on_lazy_list
          (g_io_modules_scan_all_in_directory_with_scope h f platform (r, scope) dirname).1
          point_name (scan_entries h f platform dirname pre (r, scope)).1.modules.length) ∧
    ((¬ ∃ points, cache_fresh f dirname name points) →
      on_no_lazy_list
        (g_io_modules_scan_all_in_directory_with_scope h f platform (r, scope) dirname).1
        (scan_entries h f platform dirname pre (r, scope)).1.modules.length ∧
      (g_io_modules_scan_all_in_directory_with_scope h f platform (r, scope)
        dirname).1.modules[(scan_entries h f platform dirname pre
          (r, scope)).1.modules.length]? =
        some (used_module h (f.g_build_filename dirname name)) ∧
      ∀ lib, h.g_module_open (f.g_build_filename dirname name) = some lib →
        lib.symbols = true →
        extensions_kept
          (run h (g_io_module_new (scan_entries h f platform dirname pre (r, scope)).1
            (f.g_build_filename dirname name)).2 lib.load)
          (g_io_modules_scan_all_in_directory_with_scope h f platform (r, scope)
            dirname).1) ∧
    ∀ cache_stat module_stat,
      f.g_stat (f.g_build_filename dirname "giomodule.cache") = some cache_stat →
      f.g_stat (f.g_build_filename dirname name) = some module_stat →
      max cache_stat.st_mtime cache_stat.st_ctime < module_stat.st_ctime →
      ¬ ∃ points, cache_fresh f dirname name points := by
  -- the scan is the loop over `pre`, then the file, then the loop over `post`
  have hscan := scan_eq_entries h f platform dirname (r, scope) _ hsup hdir
  have hsplit : scan_entries h f platform dirname (pre ++ name :: post) (r, scope) =
      post.foldl
        (scan_entry h f platform dirname (scan_cache f dirname).1 (scan_cache f dirname).2)
        (scan_entry h f platform dirname (scan_cache f dirname).1 (scan_cache f dirname).2
          (scan_entries h f platform dirname pre (r, scope)) name) := by
    simp [scan_entries, List.foldl_append]
  rw [hscan, hsplit]
  have hbscope : (scan_entries h f platform dirname pre (r, scope)).2 =
      (valid_entries platform pre scope).2 :=
    scan_entries_scope h f platform dirname _ _ pre (r, scope)
  have hacc := scan_entry_accepted h f platform dirname (scan_cache f dirname).1
    (scan_cache f dirname).2 (scan_entries h f platform dirname pre (r, scope)) name
    (by rw [hbscope]; exact hvalid)
  have hbwf : lazy_below (scan_entries h f platform dirname pre (r, scope)).1
      (scan_entries h f platform dirname pre (r, scope)).1.modules.length :=
    (scan_fold_keeps h f platform dirname _ _ pre (r, scope)).2.2.2.2.2 hwf
  obtain ⟨k1, k2, k3, k4, k5, _⟩ := scan_fold_keeps h f platform dirname
    (scan_cache f dirname).1 (scan_cache f dirname).2 post
    (scan_entry h f platform dirname (scan_cache f dirname).1 (scan_cache f dirname).2
      (scan_entries h f platform dirname pre (r, scope)) name)
  rw [hacc] at k1 k2 k3 k4 k5
  have hlen := scan_module_length h f dirname (scan_cache f dirname).1
    (scan_cache f dirname).2 (scan_entries h f platform dirname pre (r, scope)).1 name
  refine ⟨?_, ?_, ?_⟩
  · intro points hfresh
    have hlp := (lazy_points_fresh f dirname name points).mpr hfresh
    rcases scan_module_cases h f dirname (scan_cache f dirname).1 (scan_cache f dirname).2
      (scan_entries h f platform dirname pre (r, scope)).1 name with
      ⟨pts, hp, he⟩ | ⟨hp, _⟩
    · rw [hlp] at hp
      obtain rfl : points = pts := Option.some.inj hp
      constructor
      · rw [k2 _ (by omega), he, lazy_fold_modules]
        exact module_new_get _ _
      · intro point_name hn
        refine k3 point_name _ ?_
        rw [he]
        exact lazy_fold_records _ points _ point_name hn
    · rw [hlp] at hp
      cases hp
  · intro hnot
    rcases scan_module_cases h f dirname (scan_cache f dirname).1 (scan_cache f dirname).2
      (scan_entries h f platform dirname pre (r, scope)).1 name with
      ⟨pts, hp, _⟩ | ⟨_, he⟩
    · exact absurd ⟨pts, (lazy_points_fresh f dirname name pts).mp hp⟩ hnot
    · refine ⟨?_, ?_, ?_⟩
      · refine k4 _ (by omega) ?_
        intro p hp hmem
        rw [he] at hp
        obtain ⟨q, hq, hxq⟩ := eager_mem h _ _ _ p hp hmem
        exact Nat.lt_irrefl _ (hbwf q hq _ hxq)
      · rw [k2 _ (by omega), he]
        exact eager_module_self h _ _ _ (module_new_get _ _)
      · intro lib ho hs
        refine extensions_kept_trans (extensions_kept_of_points ?_) k5
        rw [he]
        exact eager_points_of_load h _ _ _ lib (module_new_get _ _) ho hs
  · rintro cache_stat module_stat hcs hms hlt ⟨points, cs, data, ms, hcs2, _, _, hms2, hle⟩
    rw [hcs] at hcs2
    rw [hms] at hms2
    cases hcs2
    cases hms2
    omega

/-- C24 on a directory with `libfoo.so`, `libbar.so` and `libnew.so` and a cache written
at 100 that lists "P" for `libfoo.so`, changed at 90, and "Q" for `libnew.so`, changed at
120: `libfoo.so` becomes a lazy module of "P" and is not opened; `libnew.so` is loaded at
once, is on no lazy list, and what it really registers (the type 22 at "P") is in the
registry, while the point "Q" of the stale cache line is not even registered. -/
theorem scan_lazy_iff_cache_fresh_witness :
    (g_io_modules_scan_all_in_directory_with_scope Host.with_modules ScanHost.stale
      Platform.unix
      (point_registry, some (g_io_module_scope_new G_IO_MODULE_SCOPE_BLOCK_DUPLICATES))
      "/m").1.modules[0]? =
      some { filename := some "/m/libfoo.so", library := false, initialized := false } ∧
    on_lazy_list
      (g_io_modules_scan_all_in_directory_with_scope Host.with_modules ScanHost.stale
        Platform.unix
        (point_registry, some (g_io_module_scope_new G_IO_MODULE_SCOPE_BLOCK_DUPLICATES))
        "/m").1 "P" 0 ∧
    on_no_lazy_list
      (g_io_modules_scan_all_in_directory_with_scope Host.with_modules ScanHost.stale
        Platform.unix
        (point_registry, some (g_io_module_scope_new G_IO_MODULE_SCOPE_BLOCK_DUPLICATES))
        "/m").1 2 ∧
    (g_io_modules_scan_all_in_directory_with_scope Host.with_modules ScanHost.stale
      Platform.unix
      (point_registry, some (g_io_module_scope_new G_IO_MODULE_SCOPE_BLOCK_DUPLICATES))
      "/m").1.modules[2]? =
      some { filename := some "/m/libnew.so", library := false, initialized := true } ∧
    (g_io_modules_scan_all_in_directory_with_scope Host.with_modules ScanHost.stale
      Platform.unix
      (point_registry, some (g_io_module_scope_new G_IO_MODULE_SCOPE_BLOCK_DUPLICATES))
      "/m").1.extension_points.map (fun p => (p.name, p.extensions.map (fun e => e.type),
        p.lazy_load_modules)) = [("P", [22], [0])] := by
  have hfoo := (scan_lazy_iff_cache_fresh Host.with_modules ScanHost.stale Platform.unix "/m"
    point_registry (some (g_io_module_scope_new G_IO_MODULE_SCOPE_BLOCK_DUPLICATES))
    [] "libfoo.so" ["libbar.so", "libnew.so"] rfl (by decide) (by decide) (by decide)).1
    ["P"] ⟨{ st_mtime := 100, st_ctime := 100 }, "libfoo.so: P\nlibnew.so: Q\n",
      { st_mtime := 90, st_ctime := 90 }, by decide, by decide, by decide, by decide,
      by decide⟩
  have hnew := scan_lazy_iff_cache_fresh Host.with_modules ScanHost.stale Platform.unix "/m"
    point_registry (some (g_io_module_scope_new G_IO_MODULE_SCOPE_BLOCK_DUPLICATES))
    ["libfoo.so", "libbar.so"] "libnew.so" [] rfl (by decide) (by decide) (by decide)
  have hstale := hnew.2.2 { st_mtime := 100, st_ctime := 100 }
    { st_mtime := 120, st_ctime := 120 } (by decide) (by decide) (by decide)
  exact ⟨hfoo.1, hfoo.2 "P" (List.mem_singleton.mpr rfl), (hnew.2.1 hstale).1,
    (hnew.2.1 hstale).2.1.trans (by decide), by decide⟩

/-! ## The default object and the default class: what a second call does -/

/-- C26, at the point "P" of the examples with a verify function that turns every
candidate down: the first call makes and verifies the four candidates and returns
`NULL`; the table then has a cell for "P" whose weak reference is empty; the second call
finds that cell, gets `NULL` from `g_weak_ref_get`, goes on, and makes and verifies the
four candidates once more. -/
theorem not_found_is_resolved_again :
    (_g_io_module_get_default Host.plain (Resolver.start demo_registry) "P" none
      (some (fun _ => false))).1 = none ∧
    cache_probe (_g_io_module_get_default Host.plain (Resolver.start demo_registry) "P" none
      (some (fun _ => false))).2 "P" = (some 0, none) ∧
    (_g_io_module_get_default Host.plain (Resolver.start demo_registry) "P" none
      (some (fun _ => false))).2.constructed.length = 4 ∧
    (_g_io_module_get_default Host.plain
      (_g_io_module_get_default Host.plain (Resolver.start demo_registry) "P" none
        (some (fun _ => false))).2 "P" none (some (fun _ => false))).1 = none ∧
    (_g_io_module_get_default Host.plain
      (_g_io_module_get_default Host.plain (Resolver.start demo_registry) "P" none
        (some (fun _ => false))).2 "P" none (some (fun _ => false))).2.constructed.length
      = 8 ∧
    (_g_io_module_get_default Host.plain
      (_g_io_module_get_default Host.plain (Resolver.start demo_registry) "P" none
        (some (fun _ => false))).2 "P" none (some (fun _ => false))).2.verified.length
      = 8 := by
  decide

theorem find_insert_self {β : Type} (t : List (String × β)) (key : String) (value : β) :
    (g_hash_table_insert t key value).find? (fun e => e.1 = key) = some (key, value) := by
  simp [g_hash_table_insert]

theorem find_insert_ne {β : Type} (t : List (String × β)) (key name : String) (value : β)
    (hne : key ≠ name) :
    (g_hash_table_insert t key value).find? (fun e => e.1 = name) =
      t.find? (fun e => e.1 = name) := by
  unfold g_hash_table_insert
  rw [List.find?_cons_of_neg _ (by simpa using hne)]
  induction t with
  | nil => rfl
  | cons e es ih =>
    by_cases hk : e.1 = key
    · have hn : ¬ e.1 = name := fun hc => hne (hk.symm.trans hc)
      rw [List.filter_cons_of_neg (by simpa using hk),
        List.find?_cons_of_neg _ (by simpa using hn)]
      exact ih
    · rw [List.filter_cons_of_pos (by simpa using hk)]
      by_cases hn : e.1 = name
      · rw [List.find?_cons_of_pos _ (by simpa using hn),
          List.find?_cons_of_pos _ (by simpa using hn)]
      · rw [List.find?_cons_of_neg _ (by simpa using hn),
          List.find?_cons_of_neg _ (by simpa using hn)]
        exact ih

theorem try_class_frame (sup : GType → Nat → Bool) (st : TypeResolver) (e : GIOExtension)
    (off : Nat) : (try_class sup st e off).2.default_modules = st.default_modules := by
  unfold try_class
  split
  · rfl
  · split <;> rfl

theorem try_classes_frame (sup : GType → Nat → Bool) (off : Nat)
    (preferred : Option GIOExtension) (l : List GIOExtension) :
    ∀ st : TypeResolver,
      (try_classes sup off preferred st l).2.default_modules = st.default_modules := by
  induction l with
  | nil => intro st; rfl
  | cons e rest ih =>
    intro st
    unfold try_classes
    split
    · exact ih st
    · split
      · exact try_class_frame sup st e off
      · rw [ih]
        exact try_class_frame sup st e off

theorem print_help_class_frame (h : Host) (st : TypeResolver) (ep : Nat) :
    (print_help_class h st ep).default_modules = st.default_modules := by
  unfold print_help_class
  simp only
  split <;> rfl

theorem resolve_class_frame (h : Host) (sup : GType → Nat → Bool) (st : TypeResolver)
    (ep : Nat) (envvar : Option String) (off : Nat) :
    (resolve_class h sup st ep envvar off).2.default_modules = st.default_modules := by
  have h0 : (if envvar.bind h.g_getenv = some "help" then print_help_class h st ep
      else st).default_modules = st.default_modules := by
    split
    · exact print_help_class_frame h st ep
    · rfl
  unfold resolve_class
  simp only
  split
  · split
    · split
      · rw [try_class_frame]
        exact h0
      · rw [try_classes_frame, try_class_frame]
        exact h0
    · rw [try_classes_frame]
      exact h0
  · rw [try_classes_frame]
    exact h0

theorem default_type_of_cached (h : Host) (sup : GType → Nat → Bool) (st : TypeResolver)
    (name : String) (envvar : Option String) (off : Nat) (impl : Option GType)
    (hc : class_cache_probe st name = some impl) :
    _g_io_module_get_default_type h sup st name envvar off = (class_type impl, st) := by
  unfold _g_io_module_get_default_type
  rw [hc]

theorem probe_getD (st : TypeResolver) (r : Registry) (name : String) :
    class_cache_probe
      { st with default_modules := some (st.default_modules.getD []), registry := r } name =
      class_cache_probe st name := by
  unfold class_cache_probe
  cases st.default_modules <;> rfl

theorem default_type_keeps_cached (h : Host) (sup : GType → Nat → Bool) (st : TypeResolver)
    (name name2 : String) (envvar : Option String) (off : Nat) (impl : Option GType)
    (hc : class_cache_probe st name = some impl) :
    class_cache_probe (_g_io_module_get_default_type h sup st name2 envvar off).2 name =
      some impl := by
  unfold _g_io_module_get_default_type
  cases hp : class_cache_probe st name2 with
  | some v => exact hc
  | none =>
    have hne : name2 ≠ name := by
      intro he
      rw [he, hc] at hp
      cases hp
    simp only
    cases g_io_extension_point_lookup (h.ensure_loaded st.registry) name2 with
    | none =>
      simp only
      rw [probe_getD]
      exact hc
    | some ep =>
      simp only
      rw [resolve_class_frame]
      unfold class_cache_probe at hc ⊢
      simp only [Option.getD_some]
      rw [find_insert_ne _ _ _ _ hne]
      cases hd : st.default_modules with
      | none => rw [hd] at hc; cases hc
      | some t =>
        rw [hd] at hc
        exact hc

theorem default_type_caches (h : Host) (sup : GType → Nat → Bool) (st : TypeResolver)
    (name : String) (envvar : Option String) (off : Nat) (ep : Nat)
    (hreg : g_io_extension_point_lookup (h.ensure_loaded st.registry) name = some ep) :
    ∃ impl, (_g_io_module_get_default_type h sup st name envvar off).1 = class_type impl ∧
      class_cache_probe (_g_io_module_get_default_type h sup st name envvar off).2 name =
        some impl := by
  cases hp : class_cache_probe st name with
  | some v =>
    rw [default_type_of_cached h sup st name envvar off v hp]
    exact ⟨v, rfl, hp⟩
  | none =>
    unfold _g_io_module_get_default_type
    rw [hp]
    simp only [hreg]
    refine ⟨_, rfl, ?_⟩
    unfold class_cache_probe
    simp only [find_insert_self, Option.map_some']

/-- C27: a call of `_g_io_module_get_default_type` for a registered point leaves the
class it returns, or `NULL` for none, in the table under the name of the point.  From
then on a call for that name, with any environment, any offset and any registry,
returns the stored result and changes nothing, so it calls no is-supported function; and
a call for any name leaves the stored result where it is. -/
theorem default_type_cached_for_good (h : Host) (is_supported : GType → Nat → Bool)
    (st : TypeResolver) (name : String) (envvar : Option String)
    (is_supported_offset : Nat) (ep : Nat)
    (hreg : g_io_extension_point_lookup (h.ensure_loaded st.registry) name = some ep) :
    ∃ impl,
      (_g_io_module_get_default_type h is_supported st name envvar is_supported_offset).1 =
        class_type impl ∧
      class_cache_probe
        (_g_io_module_get_default_type h is_supported st name envvar
          is_supported_offset).2 name = some impl ∧
      ∀ later : TypeResolver, class_cache_probe later name = some impl →
        (∀ (h2 : Host) (is_supported2 : GType → Nat → Bool) (r2 : Registry)
          (envvar2 : Option String) (offset2 : Nat),
          _g_io_module_get_default_type h2 is_supported2 { later with registry := r2 } name
              envvar2 offset2 =
            (class_type impl, { later with registry := r2 })) ∧
        ∀ (h2 : Host) (is_supported2 : GType → Nat → Bool) (r2 : Registry)
          (name2 : String) (envvar2 : Option String) (offset2 : Nat),
          class_cache_probe
            (_g_io_module_get_default_type h2 is_supported2 { later with registry := r2 }
              name2 envvar2 offset2).2 name = some impl := by
  obtain ⟨impl, h1, h2⟩ := default_type_caches h is_supported st name envvar
    is_supported_offset ep hreg
  refine ⟨impl, h1, h2, ?_⟩
  intro later hl
  have hl2 : ∀ r2 : Registry,
      class_cache_probe { later with registry := r2 } name = some impl := fun _ => hl
  exact ⟨fun h2 sup2 r2 envvar2 offset2 =>
      default_type_of_cached h2 sup2 _ name envvar2 offset2 impl (hl2 r2),
    fun h2 sup2 r2 name2 envvar2 offset2 =>
      default_type_keeps_cached h2 sup2 _ name name2 envvar2 offset2 impl (hl2 r2)⟩

/-- C27 at the point "P" of the examples, whose first candidate (type 12) is not
supported: the first call asks the classes 12 and 13 and returns 13; a second call, now
with every class unsupported and the variable naming "d", returns 13 again and asks no
class. -/
theorem default_type_cached_for_good_witness :
    (_g_io_module_get_default_type Host.plain (fun t _ => decide (t ≠ 12))
      (TypeResolver.start demo_registry) "P" none 8).1 = 13 ∧
    (_g_io_module_get_default_type Host.plain (fun t _ => decide (t ≠ 12))
      (TypeResolver.start demo_registry) "P" none 8).2.supported_calls = [12, 13] ∧
    (_g_io_module_get_default_type (Host.with_env "d") (fun _ _ => false)
      (_g_io_module_get_default_type Host.plain (fun t _ => decide (t ≠ 12))
        (TypeResolver.start demo_registry) "P" none 8).2 "P" (some "GIO_USE_P") 8).1 = 13 ∧
    (_g_io_module_get_default_type (Host.with_env "d") (fun _ _ => false)
      (_g_io_module_get_default_type Host.plain (fun t _ => decide (t ≠ 12))
        (TypeResolver.start demo_registry) "P" none 8).2 "P" (some "GIO_USE_P")
        8).2.supported_calls = [12, 13] ∧
    ∃ impl,
      (_g_io_module_get_default_type Host.plain (fun t _ => decide (t ≠ 12))
        (TypeResolver.start demo_registry) "P" none 8).1 = class_type impl :=
  ⟨by decide, by decide, by decide, by decide,
   (default_type_cached_for_good Host.plain (fun t _ => decide (t ≠ 12))
      (TypeResolver.start demo_registry) "P" none 8 0 (by decide)).imp
      (fun _ hx => hx.1)⟩

end GioModule
